import Mathlib

/-!
# gideon-mc/orm: a shallow embedding of the format engine and the entity operations

Go strings are modelled as lists of characters (`Str`); every string the code
handles here is valid UTF-8, for which substring search on bytes and on code
points coincide.  Reflection is modelled by explicit data: a struct value is its
type name together with the ordered list of its fields, each field being its
descriptor (`reflect.StructField`) and its current value (`reflect.Value`).
A Go panic is the `Except.error` result.

What lies outside the repository is a parameter, gathered in `Env`:
the `strcase.SnakeCase` function, the `registry.Tables` map, the order in which
Go iterates the `Field` map, `unicode.IsPrint` and `strconv.ParseFloat`.
-/

namespace Orm

/-- Go string, as the list of its characters. -/
abbrev Str := List Char

/-! ## The Go string library, as far as the code uses it -/

/-- Go `strings.HasPrefix(s, p)`. -/
def startsWith : Str → Str → Bool
  | _, [] => true
  | [], _ :: _ => false
  | c :: cs, p :: ps => c == p && startsWith cs ps

/-- Scanning loop of `strings.ReplaceAll` for a non-empty `old`: `skip` counts the
characters of a match just replaced that are still to be passed over. -/
def replaceFrom (old new : Str) : Nat → Str → Str
  | _, [] => []
  | skip + 1, _ :: cs => replaceFrom old new skip cs
  | 0, c :: cs =>
    if startsWith (c :: cs) old then new ++ replaceFrom old new (old.length - 1) cs
    else c :: replaceFrom old new 0 cs

/-- Go `strings.ReplaceAll(s, old, new)`: leftmost non-overlapping occurrences of
`old` are replaced; an empty `old` matches before every character and at the end. -/
def ReplaceAll (s old new : Str) : Str :=
  match old with
  | [] => new ++ s.flatMap (fun c => c :: new)
  | _ :: _ => replaceFrom old new 0 s

/-- Go `unicode.IsSpace`. -/
def isSpace (c : Char) : Bool :=
  let n := c.toNat
  (9 ≤ n && n ≤ 13) || n == 32 || n == 0x85 || n == 0xA0 || n == 0x1680 ||
  (0x2000 ≤ n && n ≤ 0x200A) || n == 0x2028 || n == 0x2029 || n == 0x202F ||
  n == 0x205F || n == 0x3000

/-- Go `strings.TrimSpace`. -/
def TrimSpace (s : Str) : Str :=
  ((s.dropWhile isSpace).reverse.dropWhile isSpace).reverse

/-- Go `strings.Join(elems, sep)`. -/
def Join (elems : List Str) (sep : Str) : Str :=
  sep.intercalate elems

/-- First occurrence of the non-empty `sep` in a string: the text before it and the
text after it. -/
def cut (sep : Str) : Str → Option (Str × Str)
  | [] => none
  | c :: cs =>
    if startsWith (c :: cs) sep then some ([], (c :: cs).drop sep.length)
    else match cut sep cs with
      | none => none
      | some (a, b) => some (c :: a, b)

/-- Go `strings.SplitN(s, sep, 2)` for a non-empty `sep`. -/
def SplitN2 (s sep : Str) : List Str :=
  match cut sep s with
  | none => [s]
  | some (a, b) => [a, b]

/-- Go `strings.Contains(s, sub)`. -/
def Contains : Str → Str → Bool
  | [], sub => sub.isEmpty
  | c :: cs, sub => startsWith (c :: cs) sub || Contains cs sub

/-- Lower-case hexadecimal digit. -/
def hexDigit (n : Nat) : Char :=
  if n < 10 then Char.ofNat (48 + n) else Char.ofNat (87 + n)

/-- Hexadecimal rendering of `n` on exactly `width` digits (low digits kept). -/
def hexFixed : Nat → Nat → Str
  | 0, _ => []
  | width + 1, n => hexFixed width (n / 16) ++ [hexDigit (n % 16)]

/-- Decimal rendering of a natural number (`%d`). -/
def decimalNat (n : Nat) : Str := Nat.toDigits 10 n

/-- Decimal rendering of an integer (`%d`). -/
def decimalInt (n : Int) : Str :=
  if n < 0 then '-' :: decimalNat n.natAbs else decimalNat n.natAbs

/-- One character as `strconv.Quote` writes it between double quotes; `isPrint` is
`unicode.IsPrint`, consulted outside the printable ASCII range. -/
def quoteRune (isPrint : Char → Bool) (c : Char) : Str :=
  let n := c.toNat
  if c == '"' || c == '\\' then ['\\', c]
  else if (32 ≤ n && n < 127) || (128 ≤ n && isPrint c) then [c]
  else if n == 7 then ['\\', 'a']
  else if n == 8 then ['\\', 'b']
  else if n == 12 then ['\\', 'f']
  else if n == 10 then ['\\', 'n']
  else if n == 13 then ['\\', 'r']
  else if n == 9 then ['\\', 't']
  else if n == 11 then ['\\', 'v']
  else if n < 32 || n == 127 then '\\' :: 'x' :: hexFixed 2 n
  else if n < 0x10000 then '\\' :: 'u' :: hexFixed 4 n
  else '\\' :: 'U' :: hexFixed 8 n

/-- Go `strconv.Quote`, which the `%q` verb applies to a string. -/
def Quote (isPrint : Char → Bool) (s : Str) : Str :=
  '"' :: (s.flatMap (quoteRune isPrint) ++ ['"'])

/-! ## Reflection data -/

/-- Go value held in a struct field (`reflect.Value`).  `other` is a value of a kind
the code has no case for (pointer, float, slice, ...): its kind name, whether it
equals the zero value of its type, its `%v` text, and whether its type is comparable
(that of a slice, a map or a function is not).  `hidden` is the value of an
unexported field: reflection reads its kind and prints it, but `Interface` and the
`Set` methods panic on it. -/
inductive GoValue where
  | str (s : Str)
  | bool (b : Bool)
  | int (bits : Nat) (n : Int)
  | uint (bits : Nat) (n : Nat)
  | other (kind : Str) (isZero : Bool) (text : Str) (comparable : Bool)
  | struct (typeName : Str) (fields : List (Str × GoValue))
  | hidden (v : GoValue)

mutual
/-- Whether a value equals the zero value of its type. -/
def GoValue.isZero : GoValue → Bool
  | .str s => s.isEmpty
  | .bool b => !b
  | .int _ n => n == 0
  | .uint _ n => n == 0
  | .other _ z _ _ => z
  | .struct _ fs => GoValue.allZero fs
  | .hidden v => v.isZero
/-- Whether every field of a struct value is zero. -/
def GoValue.allZero : List (Str × GoValue) → Bool
  | [] => true
  | (_, v) :: rest => v.isZero && GoValue.allZero rest
end

mutual
/-- Go `reflect.Type.Comparable` on the type of the value: whether `==` and `!=` on
two interface values holding values of this type can be evaluated, not panic.  A
struct type is comparable when the types of all its fields are. -/
def GoValue.Comparable : GoValue → Bool
  | .other _ _ _ c => c
  | .struct _ fs => GoValue.allComparable fs
  | .hidden v => v.Comparable
  | _ => true
/-- Whether every field of a struct value is of a comparable type. -/
def GoValue.allComparable : List (Str × GoValue) → Bool
  | [] => true
  | (_, v) :: rest => v.Comparable && GoValue.allComparable rest
end

mutual
/-- Default formatting of a value: the `%v` verb of `fmt`. -/
def GoValue.fmtV : GoValue → Str
  | .str s => s
  | .bool b => if b then "true".toList else "false".toList
  | .int _ n => decimalInt n
  | .uint _ n => decimalNat n
  | .other _ _ text _ => text
  | .struct _ fs => Char.ofNat 123 :: (GoValue.fmtFields fs ++ [Char.ofNat 125])
  | .hidden v => v.fmtV
/-- The fields of a struct under `%v`: separated by one space. -/
def GoValue.fmtFields : List (Str × GoValue) → Str
  | [] => []
  | [(_, v)] => v.fmtV
  | (_, v) :: rest => v.fmtV ++ ' ' :: GoValue.fmtFields rest
end

/-- A struct tag (`reflect.StructTag`) in the conventional form: key/value pairs. -/
abbrev StructTag := List (Str × Str)

/-- Go `StructTag.Get(key)`: the value of the first pair with that key, else empty. -/
def StructTag.Get : StructTag → Str → Str
  | [], _ => []
  | (k, v) :: rest, key => if k = key then v else StructTag.Get rest key

/-- The tag as written in the source (`%v` of a `StructTag`). -/
def StructTag.raw (isPrint : Char → Bool) (tag : StructTag) : Str :=
  Join (tag.map (fun kv => kv.1 ++ ':' :: Quote isPrint kv.2)) [' ']

/-- Descriptor of a struct field (`reflect.StructField`): declared name, the name of
its declared type (`field.Type.Name()`), and its tag. -/
structure StructField where
  Name : Str
  TypeName : Str
  Tag : StructTag

/-- A struct value together with its type: what `reflect.TypeOf` and
`reflect.ValueOf` expose of an entity. -/
structure Struct where
  TypeName : Str
  fields : List (StructField × GoValue)

/-- Go `reflect.Value.FieldByName` on a struct: the value of the field so named. -/
def Struct.FieldByName : List (StructField × GoValue) → Str → Option GoValue
  | [], _ => none
  | (f, v) :: rest, name => if f.Name = name then some v else Struct.FieldByName rest name

/-- The struct as a plain value, as it sits in a field of another struct. -/
def Struct.toValue (s : Struct) : GoValue :=
  .struct s.TypeName (s.fields.map (fun fv => (fv.1.Name, fv.2)))

/-- The nine template tokens: the keys of the `Field` map. -/
inductive Token where
  | Name | Type | With | Tags | Value | RawName | Variable | SQLType | SQLName
  deriving DecidableEq, Repr

/-- The text of a token. -/
def Token.key : Token → Str
  | .Name => "%Name".toList
  | .Type => "%Type".toList
  | .With => "%With".toList
  | .Tags => "%Tags".toList
  | .Value => "%Value".toList
  | .RawName => "%RawName".toList
  | .Variable => "%Variable".toList
  | .SQLType => "%SQLType".toList
  | .SQLName => "%SQLName".toList

/-- All nine tokens. -/
def Token.all : List Token :=
  [.Name, .Type, .With, .Tags, .Value, .RawName, .Variable, .SQLType, .SQLName]

/-- The ways the modelled code panics. -/
inductive Err where
  | nilSource      -- method call on the Source of a nil value
  | reflect        -- reflect call on an invalid or ill-kinded value
  | index          -- index out of range
  | parse          -- strconv rejected the text
  | query          -- the database returned an error
  | compare        -- comparison of two values of a type that is not comparable
  deriving DecidableEq, Repr

/-- Go `reflect.Value.CanInterface`: whether `Interface` can be used without
panicking. -/
def GoValue.CanInterface : GoValue → Bool
  | .hidden _ => false
  | _ => true

/-- Go `reflect.Value.Interface`: the value as an interface value; panics on a value
reached through an unexported field. -/
def GoValue.Interface : GoValue → Except Err GoValue
  | .hidden _ => .error .reflect
  | v => .ok v

/-- What the code takes from outside the repository. -/
structure Env where
  /-- `strcase.SnakeCase`. -/
  SnakeCase : Str → Str
  /-- `registry.Tables`: table name to registered entity. -/
  Tables : List (Str × Struct)
  /-- The order in which this run iterates the `Field` map. -/
  order : List Token
  /-- `unicode.IsPrint`, used by `%q`. -/
  IsPrint : Char → Bool
  /-- `strconv.ParseFloat`: zero-ness and `%v` text of the parsed number. -/
  ParseFloat : Str → Nat → Option (Bool × Str)

/-- Go map lookup in `registry.Tables`; `none` is the nil interface. -/
def Env.lookup (env : Env) (key : Str) : Option Struct :=
  (env.Tables.find? (fun kv => kv.1 = key)).map (fun kv => kv.2)

/-- Go iterates a map over each key exactly once. -/
def Env.wf (env : Env) : Prop := env.order.Perm Token.all

/-! ## internal/source: the metadata extractor and the format engine -/

/-- Type and value of a variable (`source.Source`); `none` is the nil interface, for
which `reflect.TypeOf` is nil. -/
structure Source where
  elem : Option Struct

/-- Go `source.NewSource`. -/
def NewSource (element : Option Struct) : Source := ⟨element⟩

/-- Go `Source.Name`: the table name. -/
def Source.Name (env : Env) (src : Source) : Str :=
  match src.elem with
  | none => []
  | some s => env.SnakeCase s.TypeName

/-- Go `src.V.Field(index)`. -/
def Source.VField (src : Source) (index : Nat) : Except Err GoValue :=
  match src.elem with
  | none => .error .reflect
  | some s =>
    match s.fields.get? index with
    | none => .error .index
    | some fv => .ok fv.2

/-- Go `getName`: the derived field name. -/
def getName (env : Env) (src : Source) (field : StructField) (_index : Nat) : Str :=
  if field.Name = "Id".toList then src.Name env ++ "_id".toList
  else if startsWith field.Name "Fk".toList then env.SnakeCase field.Name ++ "_id".toList
  else env.SnakeCase field.Name

/-- Go `getType`: the declared storage type, or for a foreign key the name of the
table registered under the field's type name. -/
def getType (env : Env) (_src : Source) (field : StructField) (_index : Nat) : Str :=
  if startsWith field.Name "Fk".toList then (NewSource (env.lookup field.TypeName)).Name env
  else field.Tag.Get "type".toList

/-- The struct branch of the `%Value` handler: the `Id` of the entity registered under
the field's name without `Fk`, in its default format.  `FieldByName` panics on the
invalid value of a missing entry, and an entity without `Id` gives the invalid
value, which `%v` prints as such. -/
def registryId (env : Env) (field : StructField) : Except Err Str :=
  match env.lookup (env.SnakeCase (ReplaceAll field.Name "Fk".toList [])) with
  | none => .error .reflect
  | some table =>
    match Struct.FieldByName table.fields "Id".toList with
    | none => .ok "<invalid reflect.Value>".toList
    | some id => .ok id.fmtV

/-- The body of the `%Value` handler, on the value `src.V.Field(index)` of the field:
a struct renders as the `Id` of the entity registered under the field's name
without `Fk`, a string renders quoted, a `timestamp` field is wrapped, any other
value takes its default format.  The kind of the value of an unexported field can
be read, so that an unexported struct renders as an exported one; the other
branches call `Interface`, which panics on it. -/
def renderValue (env : Env) (field : StructField) (v : GoValue) : Except Err Str :=
  match v with
  | .struct _ _ => registryId env field
  | .hidden (.struct _ _) => registryId env field
  | .hidden _ => .error .reflect
  | .str s => .ok (Quote env.IsPrint s)
  | v =>
    if field.Tag.Get "type".toList = "timestamp".toList then
      .ok ("FROM_UNIXTIME(".toList ++ v.fmtV ++ ")".toList)
    else .ok v.fmtV

/-- Go `Field`: the handler of each token. -/
def Field (env : Env) (key : Token) (src : Source) (field : StructField) (index : Nat) :
    Except Err Str :=
  match key with
  | .Name => .ok (getName env src field index)
  | .Type => .ok (getType env src field index)
  | .With =>
    if field.Name = "Id".toList then .ok ("PRIMARY KEY ".toList ++ field.Tag.Get "with".toList)
    else .ok (field.Tag.Get "with".toList)
  | .Tags => .ok (StructTag.raw env.IsPrint field.Tag)
  | .Value =>
    match src.VField index with
    | .error e => .error e
    | .ok v => renderValue env field v
  | .RawName => .ok field.Name
  | .Variable => .ok field.TypeName
  | .SQLType => .ok (ReplaceAll (getType env src field index) "boolean".toList "tinyint(1)".toList)
  | .SQLName =>
    if getType env src field index = "timestamp".toList then
      .ok ("UNIX_TIMESTAMP(".toList ++ getName env src field index ++ ")".toList)
    else .ok (getName env src field index)

/-- The loop of `FormatField`: the tokens are substituted one after the other, in
the order the map iteration yields them; every handler is called. -/
def formatLoop (env : Env) (src : Source) (field : StructField) (index : Nat) :
    List Token → Str → Except Err Str
  | [], result => .ok result
  | key :: keys, result =>
    match Field env key src field index with
    | .error e => .error e
    | .ok value => formatLoop env src field index keys (ReplaceAll result key.key value)

/-- Go `Source.FormatField`. -/
def Source.FormatField (env : Env) (src : Source) (format : Str) (field : StructField)
    (index : Nat) : Except Err Str :=
  match formatLoop env src field index env.order format with
  | .error e => .error e
  | .ok result => .ok (TrimSpace (ReplaceAll result "  ".toList " ".toList))

/-- Go `GetSQLWith`. -/
def GetSQLWith (value : Str) : Str :=
  ReplaceAll (ReplaceAll value "true".toList "'1'".toList) "false".toList "'0'".toList

/-- The loop of `Source.Fields` from index `i` on. -/
def Source.fieldsFrom (env : Env) (src : Source) (format : Str) :
    Nat → List (StructField × GoValue) → Except Err (List Str)
  | _, [] => .ok []
  | i, fv :: rest =>
    match src.FormatField env format fv.1 i with
    | .error e => .error e
    | .ok x =>
      match Source.fieldsFrom env src format (i + 1) rest with
      | .error e => .error e
      | .ok xs => .ok (x :: xs)

/-- Go `Source.Fields`: every field from index 1 on, formatted. -/
def Source.Fields (env : Env) (src : Source) (format : Str) : Except Err (List Str) :=
  match src.elem with
  | none => .error .nilSource
  | some s => Source.fieldsFrom env src format 1 (s.fields.drop 1)

/-! ## strconv, as far as the code uses it -/

/-- The two errors of `strconv.ParseInt` and `strconv.ParseUint` (`ErrSyntax`,
`ErrRange`), and the rejection of an argument. -/
inductive NumError where
  | syntaxErr
  | rangeErr
  | argErr
  deriving DecidableEq, Repr

/-- Two to the 64: the size of `uint64`. -/
def two64 : Nat := 18446744073709551616

/-- The digit loop of `strconv.ParseUint`, on `uint64` arithmetic: the value so far,
then the characters left. -/
def parseUintLoop (base cutoff maxVal : Nat) : Nat → Str → Nat × Option NumError
  | n, [] => (n, none)
  | n, c :: cs =>
    let lower := c.toNat ||| 32
    let digit : Option Nat :=
      if 48 ≤ c.toNat ∧ c.toNat ≤ 57 then some (c.toNat - 48)
      else if c.toNat < 128 ∧ 97 ≤ lower ∧ lower ≤ 122 then some (lower - 97 + 10)
      else none
    match digit with
    | none => (0, some .syntaxErr)
    | some d =>
      if d ≥ base then (0, some .syntaxErr)
      else if n ≥ cutoff then (maxVal, some .rangeErr)
      else
        let n10 := (n * base) % two64
        let n1 := (n10 + d) % two64
        if n1 < n10 ∨ n1 > maxVal then (maxVal, some .rangeErr)
        else parseUintLoop base cutoff maxVal n1 cs

/-- Go `strconv.ParseUint(s, base, bitSize)` for a base from 2 to 36: the value and
the error returned.  Base 0, which reads the base off a prefix, is never passed by
the code and is rejected here. -/
def ParseUint (s : Str) (base bitSize : Nat) : Nat × Option NumError :=
  if s = [] then (0, some .syntaxErr)
  else if ¬ (2 ≤ base ∧ base ≤ 36) then (0, some .argErr)
  else if bitSize > 64 then (0, some .argErr)
  else
    let bitSize := if bitSize = 0 then 64 else bitSize
    let cutoff := (two64 - 1) / base + 1
    let maxVal := ((2 ^ bitSize) % two64 + two64 - 1) % two64
    parseUintLoop base cutoff maxVal 0 s

/-- Conversion to `int64` (two's complement). -/
def toInt64 (x : Int) : Int := (x + 9223372036854775808) % 18446744073709551616 - 9223372036854775808

/-- Go `strconv.ParseInt(s, base, bitSize)` for a base from 2 to 36: the value and
the error returned. -/
def ParseInt (s : Str) (base bitSize : Nat) : Int × Option NumError :=
  match s with
  | [] => (0, some .syntaxErr)
  | c :: cs =>
    let neg := c == '-'
    let digits := if c == '+' ∨ c == '-' then cs else c :: cs
    let (un, err) := ParseUint digits base bitSize
    if err = some .syntaxErr ∨ err = some .argErr then (0, err)
    else
      let bitSize := if bitSize = 0 then 64 else bitSize
      let cutoff := (2 ^ (bitSize - 1)) % two64
      if !neg ∧ un ≥ cutoff then (toInt64 (cutoff - 1 : Nat), some .rangeErr)
      else if neg ∧ un > cutoff then (toInt64 (-(toInt64 cutoff)), some .rangeErr)
      else
        let n := toInt64 un
        (if neg then toInt64 (-n) else n, none)

/-- Go `strconv.ParseBool`. -/
def ParseBool (s : Str) : Option Bool :=
  if s ∈ ["1".toList, "t".toList, "T".toList, "TRUE".toList, "true".toList, "True".toList] then
    some true
  else if s ∈ ["0".toList, "f".toList, "F".toList, "FALSE".toList, "false".toList,
      "False".toList] then some false
  else none

/-! ## fmt.Sprintf, for the verbs the code uses on string arguments -/

/-- The `%!(EXTRA ...)` suffix `fmt` writes for arguments no verb consumed. -/
def sprintfExtra (args : List Str) : Str :=
  "%!(EXTRA ".toList ++ Join (args.map (fun a => "string=".toList ++ a)) ", ".toList ++ ")".toList

/-- Go `fmt.Sprintf(format, args...)` with string arguments under the verbs `%s`,
`%v` and `%q`. -/
def Sprintf (isPrint : Char → Bool) : Str → List Str → Str
  | [], [] => []
  | [], a :: args => sprintfExtra (a :: args)
  | '%' :: 's' :: rest, a :: args => a ++ Sprintf isPrint rest args
  | '%' :: 'v' :: rest, a :: args => a ++ Sprintf isPrint rest args
  | '%' :: 'q' :: rest, a :: args => Quote isPrint a ++ Sprintf isPrint rest args
  | '%' :: 's' :: rest, [] => "%!s(MISSING)".toList ++ Sprintf isPrint rest []
  | '%' :: 'v' :: rest, [] => "%!v(MISSING)".toList ++ Sprintf isPrint rest []
  | '%' :: 'q' :: rest, [] => "%!q(MISSING)".toList ++ Sprintf isPrint rest []
  | c :: rest, args => c :: Sprintf isPrint rest args

/-! ## pkg/orm: the database operations -/

/-- Result set of a query: the column names and the rows, a NULL column being
`none`. -/
structure Rows where
  Columns : List Str
  data : List (List (Option Str))

/-- The SQL connection (`sql.DB`) over a state `σ`: what a query returns and what
an execution does to the state, each on the statement text. -/
structure Database (σ : Type) where
  Query : σ → Str → Except Err Rows
  Exec : σ → Str → Except Err σ

/-- A statement sent to the connection. -/
inductive Issued where
  | query (text : Str)
  | exec (text : Str)
  deriving DecidableEq

/-- The state of the database and the statements sent so far, oldest first. -/
structure Session (σ : Type) where
  state : σ
  log : List Issued

/-- Go `Database.isSuccessfull`: whether the query returned at least one row. -/
def Database.isSuccessfull {σ : Type} (env : Env) (db : Database σ) (sess : Session σ)
    (query : Str) (args : List Str) : Except Err (Bool × Session σ) :=
  let text := Sprintf env.IsPrint query args
  match db.Query sess.state text with
  | .error e => .error e
  | .ok rows => .ok (!rows.data.isEmpty, ⟨sess.state, sess.log ++ [.query text]⟩)

/-- Go `Database.VoidExec`: executes a statement and discards the result. -/
def Database.VoidExec {σ : Type} (env : Env) (db : Database σ) (sess : Session σ)
    (query : Str) (args : List Str) : Except Err (Session σ) :=
  let text := Sprintf env.IsPrint query args
  match db.Exec sess.state text with
  | .error e => .error e
  | .ok st => .ok ⟨st, sess.log ++ [.exec text]⟩

/-- Go slice indexing `xs[i]`, which panics out of range. -/
def index {α : Type} (xs : List α) (i : Nat) : Except Err α :=
  match xs.get? i with
  | none => .error .index
  | some x => .ok x

/-- Go `Database.CreateTable`. -/
def Database.CreateTable {σ : Type} (env : Env) (db : Database σ) (sess : Session σ)
    (src : Source) : Except Err (Session σ) :=
  match src.Fields env "`%Name` %Type %With".toList with
  | .error e => .error e
  | .ok cols =>
    db.VoidExec env sess "CREATE TABLE %s (%s)".toList [src.Name env, Join cols ",".toList]

/-- Go `ClaimEntity`: the entity returned and the session after the call. -/
def ClaimEntity {σ : Type} (env : Env) (db : Database σ) (sess : Session σ)
    (entity : Struct) : Except Err (Struct × Session σ) :=
  let src := NewSource (some entity)
  match src.Fields env "%Name=%Value".toList with
  | .error e => .error e
  | .ok fields =>
    match index fields 0 with
    | .error e => .error e
    | .ok first =>
      let primaryKey := SplitN2 first "=".toList
      match index primaryKey 0, index primaryKey 1 with
      | .error e, _ => .error e
      | _, .error e => .error e
      | .ok pk0, .ok pk1 =>
        match db.isSuccessfull env sess "SELECT %s FROM %s WHERE %s".toList
            [pk0, src.Name env, Sprintf env.IsPrint "%s=%q".toList [pk0, pk1]] with
        | .error e => .error e
        | .ok (true, sess1) => .ok (entity, sess1)
        | .ok (false, sess1) =>
          match src.Fields env "%Name".toList, src.Fields env "%Value".toList with
          | .error e, _ => .error e
          | _, .error e => .error e
          | .ok names, .ok values =>
            match db.VoidExec env sess1 "INSERT INTO %s (%s) VALUES (%s)".toList
                [src.Name env, Join names ",".toList, Join values ",".toList] with
            | .error e => .error e
            | .ok sess2 => .ok (entity, sess2)

/-- Go `DeleteEntity`: the entity returned and the session after the call. -/
def DeleteEntity {σ : Type} (env : Env) (db : Database σ) (sess : Session σ)
    (entity : Struct) : Except Err (Struct × Session σ) :=
  let src := NewSource (some entity)
  match src.Fields env "%Name=%Value".toList with
  | .error e => .error e
  | .ok fields =>
    match index fields 0 with
    | .error e => .error e
    | .ok primaryKey =>
      match db.VoidExec env sess "DELETE FROM %s WHERE %s".toList [src.Name env, primaryKey] with
      | .error e => .error e
      | .ok sess1 => .ok (entity, sess1)

/-! ## pkg/orm: entities -/

/-- Go `isFieldDefined`: the value differs from the zero value of its type.
`Interface` panics on the value of an unexported field, and `!=` on the two
interface values panics when their type is not comparable. -/
def isFieldDefined (field : GoValue) : Except Err Bool :=
  match field.Interface with
  | .error e => .error e
  | .ok v => if v.Comparable then .ok (!v.isZero) else .error .compare

/-- Go `getQueryResult`: the first row decoded to strings, a NULL column being the
text `\N`; all columns empty when there is no row. -/
def getQueryResult (rows : Rows) (cols : List Str) : Except Err (List Str) :=
  match rows.data with
  | [] => .ok (cols.map (fun _ => []))
  | row :: _ =>
    if row.length ≠ cols.length then .error .query
    else .ok (row.map (fun raw =>
      match raw with
      | none => "\\N".toList
      | some text => text))

/-- The loop of `GetProperties` from index `i` on. -/
def propertiesFrom (env : Env) (src : Source) (format : Str) (is_defined_only : Bool) :
    Nat → List (StructField × GoValue) → Except Err (List Str)
  | _, [] => .ok []
  | i, fv :: rest =>
    match isFieldDefined fv.2 with
    | .error e => .error e
    | .ok defined =>
      if is_defined_only == defined then
        match src.FormatField env format fv.1 i with
        | .error e => .error e
        | .ok x =>
          match propertiesFrom env src format is_defined_only (i + 1) rest with
          | .error e => .error e
          | .ok xs => .ok (x :: xs)
      else propertiesFrom env src format is_defined_only (i + 1) rest

/-- Go `GetProperties`: the fields from index 1 on that are defined, or that are
undefined, formatted. -/
def GetProperties (env : Env) (table : Option Struct) (format : Str) (is_defined_only : Bool) :
    Except Err (List Str) :=
  match table with
  | none => .error .nilSource
  | some s => propertiesFrom env (NewSource table) format is_defined_only 1 (s.fields.drop 1)

/-- Go `parseString`: panics when the parser rejects the text. -/
def parseString {T : Type} (fn : Str → Option T) (value : Str) : Except Err T :=
  match fn value with
  | none => .error .parse
  | some result => .ok result

/-- Go `parseStringWithBaseAndBits`: panics when the parser returns an error. -/
def parseStringWithBaseAndBits {T : Type} (fn : Str → Nat → Nat → T × Option NumError)
    (value : Str) (base bits : Nat) : Except Err T :=
  match fn value base bits with
  | (result, none) => .ok result
  | (_, some _) => .error .parse

/-- Go `parseStringWithBits`: panics when the parser rejects the text. -/
def parseStringWithBits {T : Type} (fn : Str → Nat → Option T) (value : Str) (bits : Nat) :
    Except Err T :=
  match fn value bits with
  | none => .error .parse
  | some result => .ok result

/-- Conversion of an integer to the signed type of `bits` bits (two's complement). -/
def wrapInt (bits : Nat) (x : Int) : Int :=
  (x + 2 ^ (bits - 1)) % 2 ^ bits - 2 ^ (bits - 1)

/-- Go `reflect.Value.SetString`: panics unless the field is a string. -/
def SetString (field : Option GoValue) (x : Str) : Except Err GoValue :=
  match field with
  | some (.str _) => .ok (.str x)
  | _ => .error .reflect

/-- Go `reflect.Value.SetBool`: panics unless the field is a bool. -/
def SetBool (field : Option GoValue) (x : Bool) : Except Err GoValue :=
  match field with
  | some (.bool _) => .ok (.bool x)
  | _ => .error .reflect

/-- Go `reflect.Value.SetInt`: panics unless the field is a signed integer; the
value is converted to the field's width. -/
def SetInt (field : Option GoValue) (x : Int) : Except Err GoValue :=
  match field with
  | some (.int bits _) => .ok (.int bits (wrapInt bits x))
  | _ => .error .reflect

/-- Go `reflect.Value.SetUint`: panics unless the field is an unsigned integer; the
value is converted to the field's width. -/
def SetUint (field : Option GoValue) (x : Nat) : Except Err GoValue :=
  match field with
  | some (.uint bits _) => .ok (.uint bits (x % 2 ^ bits))
  | _ => .error .reflect

/-- Go `reflect.Value.SetFloat`: panics unless the field is a float. -/
def SetFloat (field : Option GoValue) (x : Bool × Str) : Except Err GoValue :=
  match field with
  | some (.other kind _ _ c) =>
    if kind = "float32".toList ∨ kind = "float64".toList then .ok (.other kind x.1 x.2 c)
    else .error .reflect
  | _ => .error .reflect

/-- Go `setStructField`: the value a `Set` call stored in the field, `none` when
no `Set` was performed.  `field` is `none` for the invalid `reflect.Value`. -/
def setStructField (env : Env) (field : Option GoValue) (value : Str) (destType : Str)
    (is_recursive : Bool) : Except Err (Option GoValue) :=
  let fromInt (bits : Nat) : Except Err (Option GoValue) :=
    match parseStringWithBaseAndBits ParseInt value 10 bits with
    | .error e => .error e
    | .ok x => (SetInt field x).map some
  let fromUint (bits : Nat) : Except Err (Option GoValue) :=
    match parseStringWithBaseAndBits ParseUint value 10 bits with
    | .error e => .error e
    | .ok x => (SetUint field x).map some
  let fromFloat (bits : Nat) : Except Err (Option GoValue) :=
    match parseStringWithBits env.ParseFloat value bits with
    | .error e => .error e
    | .ok x => (SetFloat field x).map some
  if destType = "string".toList then (SetString field value).map some
  else if destType = "bool".toList then
    match parseString ParseBool value with
    | .error e => .error e
    | .ok x => (SetBool field x).map some
  else if destType = "int8".toList then fromInt 8
  else if destType = "int16".toList then fromInt 16
  else if destType = "int32".toList then fromInt 32
  else if destType = "int64".toList ∨ destType = "int".toList then fromInt 64
  else if destType = "uint8".toList then fromUint 8
  else if destType = "uint16".toList then fromUint 16
  else if destType = "uint32".toList then fromUint 32
  else if destType = "uint64".toList ∨ destType = "uint".toList then fromUint 64
  else if destType = "float32".toList then fromFloat 32
  else if destType = "float64".toList then fromFloat 64
  else if !is_recursive then .ok none
  else .ok none

/-- Assignment through `FieldByName`: the first field so named takes the value. -/
def setField : List (StructField × GoValue) → Str → GoValue → List (StructField × GoValue)
  | [], _, _ => []
  | (f, v) :: rest, name, x =>
    if f.Name = name then (f, x) :: rest else (f, v) :: setField rest name x

/-- The write-back loop of `Populate`: `i` is the position in `emptyFields` reached,
the pair is the entity so far and `has_written`. -/
def populateLoop (env : Env) (result : List Str) (is_recursive : Bool) :
    Nat → List Str → Struct × Bool → Except Err (Struct × Bool)
  | _, [], acc => .ok acc
  | i, field :: rest, (table, has_written) =>
    match index result i with
    | .error e => .error e
    | .ok r =>
      if r.length == 0 then populateLoop env result is_recursive (i + 1) rest (table, has_written)
      else
        let split := SplitN2 field ":".toList
        match index split 0, index split 1 with
        | .error e, _ => .error e
        | _, .error e => .error e
        | .ok rawName, .ok destType =>
          match setStructField env (Struct.FieldByName table.fields rawName) r destType
              is_recursive with
          | .error e => .error e
          | .ok none => populateLoop env result is_recursive (i + 1) rest (table, true)
          | .ok (some x) =>
            populateLoop env result is_recursive (i + 1) rest
              (⟨table.TypeName, setField table.fields rawName x⟩, true)

/-- Go `Populate`: the entity and the boolean returned, and the session after the
call. -/
def Populate {σ : Type} (env : Env) (db : Database σ) (sess : Session σ) (table : Struct)
    (is_recursive : Bool) : Except Err ((Struct × Bool) × Session σ) :=
  let src := NewSource (some table)
  match GetProperties env (some table) "%Name=%Value".toList true,
      GetProperties env (some table) "%SQLName".toList false,
      GetProperties env (some table) "%RawName:%Variable".toList false with
  | .error e, _, _ => .error e
  | _, .error e, _ => .error e
  | _, _, .error e => .error e
  | .ok queryProps, .ok emptyProps, .ok emptyFields =>
    let text := Sprintf env.IsPrint "SELECT %s FROM %s WHERE %s LIMIT 1".toList
      [Join emptyProps ", ".toList, src.Name env, Join queryProps " AND ".toList]
    match db.Query sess.state text with
    | .error e => .error e
    | .ok rows =>
      match getQueryResult rows rows.Columns with
      | .error e => .error e
      | .ok result =>
        match populateLoop env result is_recursive 0 emptyFields (table, false) with
        | .error e => .error e
        | .ok out => .ok (out, ⟨sess.state, sess.log ++ [.query text]⟩)

/-- Go `RegisterTables`: each entity is stored under its table name, replacing an
earlier entry of that name. -/
def RegisterTables (env : Env) : List Struct → Env
  | [] => env
  | table :: tables =>
    let name := (NewSource (some table)).Name env
    RegisterTables
      { env with Tables := (name, table) :: env.Tables.filter (fun kv => kv.1 ≠ name) } tables

/-! ## A concrete environment, for evaluating the code on examples -/

/-- Character class of `strcase`: ASCII lower-case letter. -/
def snakeIsLower (c : Char) : Bool := 97 ≤ c.toNat && c.toNat ≤ 122

/-- Character class of `strcase`: ASCII upper-case letter. -/
def snakeIsUpper (c : Char) : Bool := 65 ≤ c.toNat && c.toNat ≤ 90

/-- Character class of `strcase`: a delimiter is a dash, an underscore or a blank. -/
def snakeIsDelimiter (c : Char) : Bool :=
  c == '-' || c == '_' || c == ' ' || c == '\t' || c == '\n' || c == '\r'

/-- Lower-casing of `strcase`: ASCII only. -/
def snakeToLower (c : Char) : Char :=
  if snakeIsUpper c then Char.ofNat (c.toNat + 32) else c

/-- The scanning loop of `strcase.SnakeCase`, over the previous character, the
current one and the characters still to come; after the last character the pending
one is flushed. -/
def snakeLoop : Char → Char → Str → Str
  | prev, curr, [] =>
    (if snakeIsUpper curr && snakeIsLower prev && prev != Char.ofNat 0 then ['_'] else []) ++
      [snakeToLower curr]
  | prev, curr, next :: rest =>
    (if snakeIsDelimiter curr then
      (if !snakeIsDelimiter prev then ['_'] else [])
    else if snakeIsUpper curr then
      (if snakeIsLower prev || (snakeIsUpper prev && snakeIsLower next) then ['_'] else []) ++
        [snakeToLower curr]
    else if curr != Char.ofNat 0 then [snakeToLower curr]
    else []) ++ snakeLoop curr next rest

/-- Modelled from the spec: `strcase.SnakeCase` belongs to an imported library that
is not among the sources; this is its lower-snake-case conversion (`UserProfile`
becomes `user_profile`).  It serves the concrete examples only: the general
theorems hold for any function in its place. -/
def SnakeCase (s : Str) : Str :=
  match TrimSpace s with
  | [] => []
  | c :: cs => snakeLoop (Char.ofNat 0) (Char.ofNat 0) (c :: cs)

/-- Printable characters outside ASCII, for the examples: none is needed. -/
def asciiOnly (_ : Char) : Bool := false

/-- The environment of the examples: empty registry, tokens visited in the order
the `Field` map is written. -/
def env0 : Env where
  SnakeCase := SnakeCase
  Tables := []
  order := Token.all
  IsPrint := asciiOnly
  ParseFloat := fun _ _ => none

/-- Field descriptor with the two tags the code reads. -/
def mkField (name typeName type with_ : String) : StructField :=
  ⟨name.toList, typeName.toList, [("type".toList, type.toList), ("with".toList, with_.toList)]⟩

/-- The embedded `*orm.Table` of the documented entity layout, here nil. -/
def tableHandle : StructField × GoValue :=
  (⟨"Table".toList, [], []⟩, .other "ptr".toList true "<nil>".toList true)

/-- The entity of the spec's scenario in the layout the code documents: the
embedded table handle at index 0, then `Id`, `Name` and `Active`. -/
def entityDoc : Struct :=
  ⟨"Entity".toList,
   [tableHandle,
    (mkField "Id" "string" "char(32)" "", .str "a1".toList),
    (mkField "Name" "string" "varchar(64)" "NOT NULL", .str "Bob".toList),
    (mkField "Active" "bool" "boolean" "NOT NULL DEFAULT true", .bool true)]⟩

/-- The entity of the spec's scenario with `Id` as the first declared field
(index 0), as the spec's data model has it. -/
def entityFlat : Struct :=
  ⟨"Entity".toList,
   [(mkField "Id" "string" "char(32)" "", .str "a1".toList),
    (mkField "Name" "string" "varchar(64)" "NOT NULL", .str "Bob".toList),
    (mkField "Active" "bool" "boolean" "NOT NULL DEFAULT true", .bool true)]⟩

/-- An entity whose `Active` field declares its constraint with two blanks before
`DEFAULT`. -/
def entityBlanks : Struct :=
  ⟨"Entity".toList,
   [tableHandle,
    (mkField "Id" "string" "char(32)" "", .str "a1".toList),
    (mkField "Active" "bool" "boolean" "NOT NULL  DEFAULT true", .bool true)]⟩

/-! ## Templates as pieces: the reference rendering -/

/-- A piece of a template: literal text or a token. -/
inductive Seg where
  | lit (text : Str)
  | tok (t : Token)

/-- The text of a template given by its pieces. -/
def Seg.flat : List Seg → Str
  | [] => []
  | .lit s :: rest => s ++ Seg.flat rest
  | .tok t :: rest => t.key ++ Seg.flat rest

/-- The template with each token replaced by its value. -/
def Seg.render (vals : Token → Str) : List Seg → Str
  | [] => []
  | .lit s :: rest => s ++ Seg.render vals rest
  | .tok t :: rest => vals t ++ Seg.render vals rest

/-- The template after the tokens of `done` have been substituted. -/
def Seg.partly (vals : Token → Str) (done : List Token) : List Seg → Str
  | [] => []
  | .lit s :: rest => s ++ Seg.partly vals done rest
  | .tok t :: rest => (if t ∈ done then vals t else t.key) ++ Seg.partly vals done rest

/-- The literal pieces, and the values of the tokens used, hold no percent sign. -/
def Seg.plain (vals : Token → Str) : List Seg → Prop
  | [] => True
  | .lit s :: rest => '%' ∉ s ∧ Seg.plain vals rest
  | .tok t :: rest => '%' ∉ vals t ∧ Seg.plain vals rest

/-- Collapse of doubled blanks and trimming: the last step of `FormatField`. -/
def squeeze (s : Str) : Str := TrimSpace (ReplaceAll s "  ".toList " ".toList)

/-! ## Reference renderings and example data for the theorems -/

/-- The text the handler of a token returns, empty when the handler panics. -/
def valOf (env : Env) (src : Source) (field : StructField) (index : Nat) (t : Token) : Str :=
  match Field env t src field index with
  | .ok v => v
  | .error _ => []

/-- Whether a text holds no percent sign. -/
def noPct (s : Str) : Bool := !s.elem '%'

/-- No handler panics on the field, and the values of the tokens `toks` hold no
percent sign (so that no substituted value can itself be read as a token). -/
def Source.plainAt (env : Env) (src : Source) (field : StructField) (index : Nat)
    (toks : List Token) : Bool :=
  (Field env .Value src field index).isOk &&
    toks.all (fun t => noPct (valOf env src field index t))

/-- The fields of the list, numbered from `i`, all satisfy `plainAt`. -/
def Source.plainFrom (env : Env) (src : Source) (toks : List Token) :
    Nat → List (StructField × GoValue) → Bool
  | _, [] => true
  | i, fv :: rest => src.plainAt env fv.1 i toks && Source.plainFrom env src toks (i + 1) rest

/-- The constraint clause of a column: the `with` tag, after `PRIMARY KEY` for the
field named `Id`. -/
def withClause (field : StructField) : Str :=
  if field.Name = "Id".toList then "PRIMARY KEY ".toList ++ field.Tag.Get "with".toList
  else field.Tag.Get "with".toList

/-- Reference rendering of the column definitions of `CREATE TABLE`: for each field
of the list, numbered from `i`, its derived name between backquotes, its type as
`%Type` gives it and its constraint clause. -/
def columnDefs (env : Env) (src : Source) : Nat → List (StructField × GoValue) → List Str
  | _, [] => []
  | i, fv :: rest =>
    squeeze ("`".toList ++ getName env src fv.1 i ++ "` ".toList ++ getType env src fv.1 i ++
      " ".toList ++ withClause fv.1) :: columnDefs env src (i + 1) rest

/-- Reference text of the statement of `CreateTable` for an entity. -/
def createText (env : Env) (entity : Struct) : Str :=
  "CREATE TABLE ".toList ++ (env.SnakeCase entity.TypeName ++ (" (".toList ++
    (Join (columnDefs env (NewSource (some entity)) 1 (entity.fields.drop 1)) ",".toList ++
      ")".toList)))

/-- The pieces of the template of `CreateTable`. -/
def createSegs : List Seg :=
  [.lit "`".toList, .tok .Name, .lit "` ".toList, .tok .Type, .lit " ".toList, .tok .With]

/-- Reference rendering of a template given by its pieces, for each field of the
list, numbered from `i`. -/
def rendersFrom (env : Env) (src : Source) (segs : List Seg) :
    Nat → List (StructField × GoValue) → List Str
  | _, [] => []
  | i, fv :: rest =>
    squeeze (Seg.render (valOf env src fv.1 i) segs) :: rendersFrom env src segs (i + 1) rest

/-- A connection that stores nothing: every query returns no row, every execution
succeeds. -/
def nullDB : Database Unit :=
  ⟨fun _ _ => .ok ⟨[], []⟩, fun _ _ => .ok ()⟩

/-- The session before any statement. -/
def start0 : Session Unit := ⟨(), []⟩

/-- An entity whose first declared field is not named `Id`. -/
def entityKey : Struct :=
  ⟨"Pet".toList,
   [(mkField "Key" "string" "char(32)" "", .str "k1".toList),
    (mkField "Name" "string" "varchar(64)" "NOT NULL", .str "Rex".toList)]⟩

/-! ## A database of rows, for the idempotence property -/

/-- A stored row: its table and the value of each column. -/
structure StoredRow where
  table : Str
  cols : List (Str × Str)

/-- The text after a prefix, if the string starts with it. -/
def dropStart : Str → Str → Option Str
  | s, [] => some s
  | [], _ :: _ => none
  | c :: cs, p :: ps => if c = p then dropStart cs ps else none

/-- The characters of a SQL string literal with the backslash escapes resolved. -/
def sqlUnescape : Str → Str
  | [] => []
  | '\\' :: c :: rest =>
    (if c = 'n' then '\n' else if c = 't' then '\t' else if c = 'r' then '\r'
      else if c = '0' then Char.ofNat 0 else c) :: sqlUnescape rest
  | c :: rest => c :: sqlUnescape rest

/-- The value a SQL literal denotes: the content of a double-quoted string, or the
text itself for a bare literal. -/
def sqlValue (lit : Str) : Str :=
  match lit with
  | '"' :: rest => if rest.getLast? = some '"' then sqlUnescape rest.dropLast else lit
  | _ => lit

/-- The items of a comma-separated list, commas inside double quotes not counting. -/
def splitItems : Bool → Str → Str → List Str
  | _, acc, [] => [acc.reverse]
  | true, acc, '\\' :: c :: rest => splitItems true (c :: '\\' :: acc) rest
  | quoted, acc, '"' :: rest => splitItems (!quoted) ('"' :: acc) rest
  | false, acc, ',' :: rest => acc.reverse :: splitItems false [] rest
  | quoted, acc, c :: rest => splitItems quoted (c :: acc) rest

/-- Reading of `INSERT INTO t (names) VALUES (values)`: table, names, values. -/
def readInsert (text : Str) : Option (Str × List Str × List Str) :=
  match dropStart text "INSERT INTO ".toList with
  | none => none
  | some rest =>
    match cut " (".toList rest with
    | none => none
    | some (table, rest2) =>
      match cut ") VALUES (".toList rest2 with
      | none => none
      | some (names, rest3) =>
        if rest3.getLast? = some ')' then
          some (table, splitItems false [] names, splitItems false [] rest3.dropLast)
        else none

/-- Reading of `SELECT c FROM t WHERE k=literal`: column, table, key column, literal. -/
def readProbe (text : Str) : Option (Str × Str × Str × Str) :=
  match dropStart text "SELECT ".toList with
  | none => none
  | some rest =>
    match cut " FROM ".toList rest with
    | none => none
    | some (col, rest2) =>
      match cut " WHERE ".toList rest2 with
      | none => none
      | some (table, cond) =>
        match cut "=".toList cond with
        | none => none
        | some (key, lit) => some (col, table, key, lit)

/-- The value of a column in a row. -/
def StoredRow.get (row : StoredRow) (col : Str) : Option Str :=
  (row.cols.find? (fun kv => kv.1 = col)).map (fun kv => kv.2)

/-- Modelled from the spec: the database is outside the repository; this is the one
the idempotence property describes, a set of rows in which the existence probe
`SELECT c FROM t WHERE k=literal` returns the rows of `t` whose column `k` equals
the value of the literal, and `INSERT INTO t (names) VALUES (values)` adds the row
of the values the literals denote.  Other statements leave the rows as they are. -/
def rowDB : Database (List StoredRow) where
  Query st text :=
    match readProbe text with
    | none => .ok ⟨[], []⟩
    | some (col, table, key, lit) =>
      .ok ⟨[col], (st.filter (fun row => row.table = table ∧ row.get key = some (sqlValue lit))).map
        (fun row => [row.get col])⟩
  Exec st text :=
    match readInsert text with
    | none => .ok st
    | some (table, names, values) => .ok (st ++ [⟨table, names.zip (values.map sqlValue)⟩])

/-- The number of `INSERT` statements among the statements sent. -/
def countInserts : List Issued → Nat
  | [] => 0
  | .exec text :: rest =>
    (if startsWith text "INSERT".toList then 1 else 0) + countInserts rest
  | .query _ :: rest => countInserts rest

/-- The session on the empty row database. -/
def startRows : Session (List StoredRow) := ⟨[], []⟩

/-- The documented entity with an integer primary key. -/
def entityInt : Struct :=
  ⟨"Entity".toList,
   [tableHandle,
    (mkField "Id" "int64" "bigint" "", .int 64 5),
    (mkField "Name" "string" "varchar(64)" "NOT NULL", .str "Bob".toList)]⟩

/-- The entity `entityFlat` with another name: same primary key `a1`. -/
def entityFlat2 : Struct :=
  ⟨"Entity".toList,
   [(mkField "Id" "string" "char(32)" "", .str "a1".toList),
    (mkField "Name" "string" "varchar(64)" "NOT NULL", .str "Al".toList),
    (mkField "Active" "bool" "boolean" "NOT NULL DEFAULT true", .bool true)]⟩

/-- The pieces of the template `%Name=%Value`. -/
def pairSegs : List Seg := [.tok .Name, .lit "=".toList, .tok .Value]

/-! ## Decimal numerals: the reference reading of the integer parsers -/

/-- The value of an ASCII decimal digit. -/
def digitOf (c : Char) : Option Nat :=
  if 48 ≤ c.toNat ∧ c.toNat ≤ 57 then some (c.toNat - 48) else none

/-- The number written by the digits after the number `n` read so far; `none` when
a character is not a decimal digit. -/
def digitsFrom : Nat → Str → Option Nat
  | n, [] => some n
  | n, c :: cs =>
    match digitOf c with
    | none => none
    | some d => digitsFrom (n * 10 + d) cs

/-- The natural number a string of one or more decimal digits denotes. -/
def digitsValue (s : Str) : Option Nat :=
  if s = [] then none else digitsFrom 0 s

/-- The integer a string of one or more decimal digits denotes, after an optional
sign `+` or `-`. -/
def signedValue (s : Str) : Option Int :=
  match s with
  | [] => none
  | c :: cs =>
    if c = '+' then (digitsValue cs).map (fun (n : Nat) => (n : Int))
    else if c = '-' then (digitsValue cs).map (fun (n : Nat) => -(n : Int))
    else (digitsValue (c :: cs)).map (fun (n : Nat) => (n : Int))

/-- The signed integer types `setStructField` has a case for. -/
inductive IntType where
  | int8 | int16 | int32 | int64 | int
  deriving DecidableEq, Repr

/-- The name of a signed integer type. -/
def IntType.name : IntType → Str
  | .int8 => "int8".toList
  | .int16 => "int16".toList
  | .int32 => "int32".toList
  | .int64 => "int64".toList
  | .int => "int".toList

/-- The width of a signed integer type, `int` being 64 bits wide. -/
def IntType.bits : IntType → Nat
  | .int8 => 8
  | .int16 => 16
  | .int32 => 32
  | .int64 => 64
  | .int => 64

/-- The unsigned integer types `setStructField` has a case for. -/
inductive UintType where
  | uint8 | uint16 | uint32 | uint64 | uint
  deriving DecidableEq, Repr

/-- The name of an unsigned integer type. -/
def UintType.name : UintType → Str
  | .uint8 => "uint8".toList
  | .uint16 => "uint16".toList
  | .uint32 => "uint32".toList
  | .uint64 => "uint64".toList
  | .uint => "uint".toList

/-- The width of an unsigned integer type, `uint` being 64 bits wide. -/
def UintType.bits : UintType → Nat
  | .uint8 => 8
  | .uint16 => 16
  | .uint32 => 32
  | .uint64 => 64
  | .uint => 64

/-! ## Example data for Populate -/

/-- The entity `Animal` of the doc comment of `Table`. -/
def entityAnimal : Struct :=
  ⟨"Animal".toList,
   [tableHandle,
    (mkField "Id" "string" "char(32)" "", .str "cat1".toList),
    (mkField "Name" "string" "varchar(64)" "NOT NULL", .str "Tom".toList)]⟩

/-- The zero value of `Animal`. -/
def zeroAnimal : GoValue :=
  .struct "Animal".toList
    [("Table".toList, .other "ptr".toList true "<nil>".toList true), ("Id".toList, .str []),
     ("Name".toList, .str [])]

/-- The entity `MyTable` of the doc comment of `Table`, with its key set and its
foreign key `FkAnimal` left at the zero value. -/
def entityMyTable : Struct :=
  ⟨"MyTable".toList,
   [tableHandle,
    (mkField "Id" "string" "char(32)" "", .str "hello".toList),
    (mkField "FkAnimal" "Animal" "" "NOT NULL", zeroAnimal)]⟩

/-- The environment after `RegisterTables(Animal{...})`. -/
def env1 : Env := RegisterTables env0 [entityAnimal]

/-- A connection that answers every query with one row. -/
def answerDB (cols : List Str) (row : List (Option Str)) : Database Unit :=
  ⟨fun _ _ => .ok ⟨cols, [row]⟩, fun _ _ => .ok ()⟩

/-- The documented entity with only its key set. -/
def entityKeyOnly : Struct :=
  ⟨"Entity".toList,
   [tableHandle,
    (mkField "Id" "string" "char(32)" "", .str "a1".toList),
    (mkField "Name" "string" "varchar(64)" "NOT NULL", .str []),
    (mkField "Active" "bool" "boolean" "NOT NULL DEFAULT true", .bool false)]⟩

/-! ## Well-formed entities and the columns of Populate -/

/-- What the Go compiler guarantees of a struct type, as far as the code depends on
it: the field names are distinct identifiers, so they hold no percent sign, no
colon and no white space; type names hold no percent sign. -/
def Struct.wellFormed (s : Struct) : Prop :=
  (s.fields.map (fun fv => fv.1.Name)).Nodup ∧
  ∀ fv, fv ∈ s.fields →
    (∀ c, c ∈ fv.1.Name → c ≠ '%' ∧ c ≠ ':' ∧ isSpace c = false) ∧ '%' ∉ fv.1.TypeName

instance (s : Struct) : Decidable s.wellFormed := by
  unfold Struct.wellFormed
  infer_instance

/-- Whether `isFieldDefined` returns `b` on the value. -/
def definedIs (b : Bool) (v : GoValue) : Bool :=
  match isFieldDefined v with
  | .ok defined => b == defined
  | .error _ => false

/-- The indices of the undefined fields of a list of fields numbered from `i`: the
`k`-th of them is the field of the `k`-th column `Populate` selects. -/
def undefinedFrom : Nat → List (StructField × GoValue) → List Nat
  | _, [] => []
  | i, fv :: rest =>
    if definedIs false fv.2 then i :: undefinedFrom (i + 1) rest
    else undefinedFrom (i + 1) rest

/-- The pieces of the template `%RawName:%Variable`. -/
def rawSegs : List Seg := [.tok .RawName, .lit ":".toList, .tok .Variable]

/-- A connection whose answer to every query is the row `Bob` and the empty text. -/
def bobDB : Database Unit :=
  answerDB ["name".toList, "active".toList] [some "Bob".toList, some []]

/-- The entity `entityKeyOnly` with the name `Bob` written. -/
def entityBob : Struct :=
  ⟨"Entity".toList,
   [tableHandle,
    (mkField "Id" "string" "char(32)" "", .str "a1".toList),
    (mkField "Name" "string" "varchar(64)" "NOT NULL", .str "Bob".toList),
    (mkField "Active" "bool" "boolean" "NOT NULL DEFAULT true", .bool false)]⟩

/-! ## pkg/orm: the remaining helper, and example data for the registry and the order -/

/-- Go `JoinMapValues`: `input` is the map as the list of its entries in the order
this run iterates them.  The slice of values is made with `len(input)` elements,
all empty, and each value is appended to it. -/
def JoinMapValues (input : List (Str × Str)) (sep : Str) : Str :=
  Join (input.foldl (fun values kv => values ++ [kv.2]) (List.replicate input.length [])) sep

/-- The field `FkAnimal Animal` of the doc comment of `Table`. -/
def fkAnimal : StructField := mkField "FkAnimal" "Animal" "" "NOT NULL"

/-- An `Animal` value with the given `Id`. -/
def animalOf (id : String) : GoValue :=
  .struct "Animal".toList
    [("Table".toList, .other "ptr".toList true "<nil>".toList true), ("Id".toList, .str id.toList),
     ("Name".toList, .str "Rex".toList)]

/-- The entity `MyTable` of the doc comment of `Table` whose `FkAnimal` holds the
animal of the given `Id`. -/
def myTableOf (id : String) : Struct :=
  ⟨"MyTable".toList,
   [tableHandle,
    (mkField "Id" "string" "char(32)" "", .str "hello".toList),
    (fkAnimal, animalOf id)]⟩

/-- The environment of the examples with the `%Value` handler visited first. -/
def envValueFirst : Env :=
  { env0 with
    order := [.Value, .Name, .Type, .With, .Tags, .RawName, .Variable, .SQLType, .SQLName] }

/-- A string field whose value is the text of a token. -/
def noteField : StructField := mkField "Note" "string" "varchar(64)" ""

/-- An entity whose string field `Note` holds the text `%Type`. -/
def entityNote : Struct :=
  ⟨"Entity".toList,
   [tableHandle,
    (mkField "Id" "string" "char(32)" "", .str "a1".toList),
    (noteField, .str "%Type".toList)]⟩

/-! ## Reference selection of the fields of GetProperties -/

/-- The elements of a list paired with their indices, counted from `i`. -/
def numbered {α : Type} : Nat → List α → List (Nat × α)
  | _, [] => []
  | i, x :: rest => (i, x) :: numbered (i + 1) rest

/-- The selection as the specification words it: the fields of index 1 or more of an
entity, with their indices, whose value differs from the zero value of its type
(`b` true), or is that zero value (`b` false). -/
def selectFields (b : Bool) (entity : Struct) : List (Nat × (StructField × GoValue)) :=
  (numbered 1 (entity.fields.drop 1)).filter (fun p => b == !p.2.2.isZero)

/-- An entity with an unexported field `created int64` tagged as a timestamp. -/
def entityStamped : Struct :=
  ⟨"Entity".toList,
   [tableHandle,
    (mkField "Id" "string" "char(32)" "", .str "a1".toList),
    (mkField "created" "int64" "timestamp" "", .hidden (.int 64 1700000000))]⟩

/-- An entity with a field `Tags []string` holding one tag. -/
def entityTagged : Struct :=
  ⟨"Entity".toList,
   [tableHandle,
    (mkField "Id" "string" "char(32)" "", .str "a1".toList),
    (mkField "Tags" "" "text" "", .other "slice".toList false "[x]".toList false)]⟩

/-- An entity with an unexported field `note string`. -/
def entityUnexported : Struct :=
  ⟨"Entity".toList,
   [tableHandle,
    (mkField "Id" "string" "char(32)" "", .str "a1".toList),
    (mkField "note" "string" "varchar(64)" "", .hidden (.str "x".toList))]⟩

/-- `FormatField` applied to each field of a list of indexed fields, in order; the
first panic is the result. -/
def formatAll (env : Env) (src : Source) (format : Str) :
    List (Nat × (StructField × GoValue)) → Except Err (List Str)
  | [] => .ok []
  | p :: rest =>
    match src.FormatField env format p.2.1 p.1 with
    | .error e => .error e
    | .ok x =>
      match formatAll env src format rest with
      | .error e => .error e
      | .ok xs => .ok (x :: xs)

/-! ## Well-typed entities -/

/-- The type names for which `setStructField` parses a number or a boolean. -/
def parsedTypes : List Str :=
  ["bool".toList, "int8".toList, "int16".toList, "int32".toList, "int64".toList, "int".toList,
   "uint8".toList, "uint16".toList, "uint32".toList, "uint64".toList, "uint".toList,
   "float32".toList, "float64".toList]

/-- The value of a field without the mark of an unexported field. -/
def GoValue.held : GoValue → GoValue
  | .hidden v => v
  | v => v

/-- Whether a value that `Interface` hands out has the kind its declared type name
announces, for the type names `setStructField` has a case for; any value goes with
another type name. -/
def kindIs (typeName : Str) (v : GoValue) : Bool :=
  if typeName = "string".toList then
    (match v with | .str _ => true | _ => false)
  else if typeName = "bool".toList then
    (match v with | .bool _ => true | _ => false)
  else if typeName ∈ ["int8".toList, "int16".toList, "int32".toList, "int64".toList,
      "int".toList] then
    (match v with | .int _ _ => true | _ => false)
  else if typeName ∈ ["uint8".toList, "uint16".toList, "uint32".toList, "uint64".toList,
      "uint".toList] then
    (match v with | .uint _ _ => true | _ => false)
  else if typeName ∈ ["float32".toList, "float64".toList] then
    (match v with
      | .other kind _ _ _ => decide (kind = "float32".toList ∨ kind = "float64".toList)
      | _ => false)
  else true

/-- Whether the value of a field, exported or not, has the kind its declared type
name announces. -/
def kindMatches (typeName : Str) (v : GoValue) : Bool := kindIs typeName v.held

/-- What the Go type checker guarantees of a struct value, as far as the code depends
on it: a field declared with a predeclared type name holds a value of that kind,
and type names hold no white space. -/
def Struct.wellTyped (s : Struct) : Prop :=
  ∀ fv, fv ∈ s.fields →
    (∀ c, c ∈ fv.1.TypeName → isSpace c = false) ∧ kindMatches fv.1.TypeName fv.2 = true

instance (s : Struct) : Decidable s.wellTyped := by
  unfold Struct.wellTyped
  infer_instance

/-! ## The fetch of Populate -/

/-- The first part of `Populate`, up to the answer of the connection: the
`rawName:declaredType` entries of the undefined fields, the text of the `SELECT`
sent and the rows returned. -/
def fetchRows {σ : Type} (env : Env) (db : Database σ) (sess : Session σ) (table : Struct) :
    Except Err (List Str × Str × Rows) :=
  match GetProperties env (some table) "%Name=%Value".toList true,
      GetProperties env (some table) "%SQLName".toList false,
      GetProperties env (some table) "%RawName:%Variable".toList false with
  | .error e, _, _ => .error e
  | _, .error e, _ => .error e
  | _, _, .error e => .error e
  | .ok queryProps, .ok emptyProps, .ok emptyFields =>
    let text := Sprintf env.IsPrint "SELECT %s FROM %s WHERE %s LIMIT 1".toList
      [Join emptyProps ", ".toList, (NewSource (some table)).Name env,
        Join queryProps " AND ".toList]
    match db.Query sess.state text with
    | .error e => .error e
    | .ok rows => .ok (emptyFields, text, rows)

/-- A connection whose answer to every query is the row `Bob` and a NULL. -/
def nullDBRow : Database Unit :=
  answerDB ["name".toList, "active".toList] [some "Bob".toList, none]

/-- A connection whose answer to every query is a NULL and the text `1`. -/
def nullNameRow : Database Unit :=
  answerDB ["name".toList, "active".toList] [none, some "1".toList]

/-- The entity `entityKeyOnly` after a NULL name and the text `1` were written. -/
def entityNullName : Struct :=
  ⟨"Entity".toList,
   [tableHandle,
    (mkField "Id" "string" "char(32)" "", .str "a1".toList),
    (mkField "Name" "string" "varchar(64)" "NOT NULL", .str "\\N".toList),
    (mkField "Active" "bool" "boolean" "NOT NULL DEFAULT true", .bool true)]⟩

/-- The decoded text of a column as `getQueryResult` gives it: `\N` for NULL. -/
def decodeColumn (raw : Option Str) : Str :=
  match raw with
  | none => "\\N".toList
  | some text => text

/-! ## Lemmas on the string library -/

theorem startsWith_append (old rest : Str) : startsWith (old ++ rest) old = true := by
  induction old with
  | nil => cases rest <;> rfl
  | cons c cs ih => simp [startsWith, ih]

theorem replaceFrom_skip (old new : Str) (k : Nat) (s : Str) :
    replaceFrom old new k s = replaceFrom old new 0 (s.drop k) := by
  induction k generalizing s with
  | zero => simp
  | succ k ih =>
    cases s with
    | nil => simp [replaceFrom]
    | cons c cs => simp [replaceFrom, ih]

theorem replaceFrom_match (old new rest : Str) (h : old ≠ []) :
    replaceFrom old new 0 (old ++ rest) = new ++ replaceFrom old new 0 rest := by
  cases old with
  | nil => exact absurd rfl h
  | cons c cs =>
    have hs : startsWith (c :: (cs ++ rest)) (c :: cs) = true := startsWith_append (c :: cs) rest
    rw [List.cons_append, replaceFrom, if_pos hs, replaceFrom_skip]
    simp

theorem startsWith_head_ne (c p : Char) (cs ps : Str) (h : c ≠ p) :
    startsWith (c :: cs) (p :: ps) = false := by
  simp [startsWith, h]

/-- Text before which no occurrence of a pattern headed by `p` can start. -/
theorem replaceFrom_free (p : Char) (ps new lit rest : Str) (h : p ∉ lit) :
    replaceFrom (p :: ps) new 0 (lit ++ rest) = lit ++ replaceFrom (p :: ps) new 0 rest := by
  induction lit with
  | nil => rfl
  | cons c cs ih =>
    have hc : c ≠ p := fun e => h (by simp [e])
    have hcs : p ∉ cs := fun e => h (by simp [e])
    rw [List.cons_append, replaceFrom, if_neg (by simp [startsWith_head_ne c p _ ps hc]), ih hcs]
    rfl

theorem Token.key_eq (t : Token) : ∃ body, t.key = '%' :: body ∧ '%' ∉ body := by
  cases t <;> exact ⟨_, rfl, by decide⟩

theorem Token.key_ne_nil (t : Token) : t.key ≠ [] := by
  cases t <;> decide

theorem Token.startsWith_other (t u : Token) (rest : Str) (h : u ≠ t) :
    startsWith (u.key ++ rest) t.key = false := by
  cases t <;> cases u <;> first | exact absurd rfl h | rfl

theorem replaceFrom_other (t u : Token) (v rest : Str) (h : u ≠ t) :
    replaceFrom t.key v 0 (u.key ++ rest) = u.key ++ replaceFrom t.key v 0 rest := by
  obtain ⟨body, hk, hb⟩ := t.key_eq
  obtain ⟨ubody, huk, hub⟩ := u.key_eq
  have hs := Token.startsWith_other t u rest h
  rw [huk] at hs ⊢
  rw [hk] at hs ⊢
  rw [List.cons_append] at hs ⊢
  rw [replaceFrom, if_neg (by simp [hs]), replaceFrom_free _ _ _ _ _ hub]
  rfl

theorem ReplaceAll_partly (vals : Token → Str) (done : List Token) (t : Token) (segs : List Seg)
    (h : Seg.plain vals segs) :
    ReplaceAll (Seg.partly vals done segs) t.key (vals t) = Seg.partly vals (t :: done) segs := by
  obtain ⟨body, hk, hb⟩ := t.key_eq
  have hR : ∀ s, ReplaceAll s t.key (vals t) = replaceFrom t.key (vals t) 0 s := by
    intro s; rw [hk]; rfl
  rw [hR]
  induction segs with
  | nil => rfl
  | cons seg rest ih =>
    cases seg with
    | lit s =>
      have h1 : '%' ∉ s := h.1
      have h2 := ih h.2
      simp only [Seg.partly]
      rw [hk, replaceFrom_free _ _ _ _ _ h1, ← hk, h2]
    | tok u =>
      have h1 : '%' ∉ vals u := h.1
      have h2 := ih h.2
      simp only [Seg.partly]
      by_cases hu : u ∈ done
      · have hu2 : u ∈ t :: done := List.mem_cons_of_mem _ hu
        rw [if_pos hu, if_pos hu2, hk, replaceFrom_free _ _ _ _ _ h1, ← hk, h2]
      · by_cases hut : u = t
        · subst hut
          rw [if_neg hu, if_pos (List.mem_cons_self _ _), replaceFrom_match _ _ _ u.key_ne_nil, h2]
        · have hu2 : u ∉ t :: done := by simp [hut, hu]
          rw [if_neg hu, if_neg hu2, replaceFrom_other _ _ _ _ hut, h2]

theorem Seg.partly_nil (vals : Token → Str) (segs : List Seg) :
    Seg.partly vals [] segs = Seg.flat segs := by
  induction segs with
  | nil => rfl
  | cons seg rest ih => cases seg <;> simp [Seg.partly, Seg.flat, ih]

theorem Seg.partly_all (vals : Token → Str) (done : List Token) (segs : List Seg)
    (h : ∀ t, t ∈ done) : Seg.partly vals done segs = Seg.render vals segs := by
  induction segs with
  | nil => rfl
  | cons seg rest ih => cases seg <;> simp [Seg.partly, Seg.render, ih, h]

theorem formatLoop_partly (env : Env) (src : Source) (field : StructField) (index : Nat)
    (vals : Token → Str) (hv : ∀ t, Field env t src field index = .ok (vals t))
    (segs : List Seg) (hp : Seg.plain vals segs) (order done : List Token) :
    formatLoop env src field index order (Seg.partly vals done segs)
      = .ok (Seg.partly vals (order.reverse ++ done) segs) := by
  induction order generalizing done with
  | nil => rfl
  | cons t rest ih =>
    rw [formatLoop, hv t]
    simp only []
    rw [ReplaceAll_partly vals done t segs hp, ih]
    simp

theorem FormatField_render (env : Env) (hwf : env.wf) (src : Source) (field : StructField)
    (index : Nat) (vals : Token → Str) (hv : ∀ t, Field env t src field index = .ok (vals t))
    (segs : List Seg) (hp : Seg.plain vals segs) :
    src.FormatField env (Seg.flat segs) field index = .ok (squeeze (Seg.render vals segs)) := by
  have h := formatLoop_partly env src field index vals hv segs hp env.order []
  rw [Seg.partly_nil] at h
  rw [Source.FormatField, h]
  simp only []
  rw [Seg.partly_all]
  · rfl
  · intro t
    have : t ∈ Token.all := by cases t <;> decide
    simpa using (hwf.mem_iff).mpr this

/-! ## C1, C2: the derived field name -/

/-- C1: for every entity and every field, the `%Name` handler renders the table name
followed by `_id` when the declared name is `Id`, the snake-cased declared name
followed by `_id` when the declared name starts with `Fk`, and the snake-cased
declared name in every other case. -/
theorem getName_three_cases (env : Env) (entity : Struct) (field : StructField) (index : Nat) :
    (field.Name = "Id".toList →
      Field env .Name (NewSource (some entity)) field index
        = .ok (env.SnakeCase entity.TypeName ++ "_id".toList)) ∧
    (startsWith field.Name "Fk".toList = true →
      Field env .Name (NewSource (some entity)) field index
        = .ok (env.SnakeCase field.Name ++ "_id".toList)) ∧
    (field.Name ≠ "Id".toList → startsWith field.Name "Fk".toList = false →
      Field env .Name (NewSource (some entity)) field index = .ok (env.SnakeCase field.Name)) := by
  refine ⟨?_, ?_, ?_⟩
  · intro h
    simp [Field, getName, h, Source.Name, NewSource]
  · intro h
    have hne : field.Name ≠ "Id".toList := by
      intro e
      rw [e] at h
      exact absurd h (by decide)
    simp only [Field, getName]
    rw [if_neg hne, if_pos h]
  · intro hne h
    simp only [Field, getName]
    rw [if_neg hne, if_neg (by rw [h]; decide)]

/-- The three cases of C1 on the documented entity and a foreign-key field. -/
theorem getName_three_cases_witness :
    Field env0 .Name (NewSource (some entityDoc)) (mkField "Id" "string" "char(32)" "") 1
      = .ok "entity_id".toList ∧
    Field env0 .Name (NewSource (some entityDoc)) (mkField "FkAnimal" "Animal" "" "NOT NULL") 4
      = .ok "fk_animal_id".toList ∧
    Field env0 .Name (NewSource (some entityDoc)) (mkField "IsCool" "bool" "boolean" "") 2
      = .ok "is_cool".toList :=
  ⟨(getName_three_cases env0 entityDoc (mkField "Id" "string" "char(32)" "") 1).1 rfl,
   (getName_three_cases env0 entityDoc (mkField "FkAnimal" "Animal" "" "NOT NULL") 4).2.1 rfl,
   (getName_three_cases env0 entityDoc (mkField "IsCool" "bool" "boolean" "") 2).2.2
     (by decide) rfl⟩

/-- C2, as stated, fails: the first declared field of `Pet` is named `Key`, and its
`%Name` is `key`, not `pet_id`. -/
theorem firstField_name_counterexample :
    entityKey.fields.get? 0 = some (mkField "Key" "string" "char(32)" "", .str "k1".toList) ∧
    Field env0 .Name (NewSource (some entityKey)) (mkField "Key" "string" "char(32)" "") 0
      = .ok "key".toList ∧
    (NewSource (some entityKey)).Name env0 ++ "_id".toList = "pet_id".toList ∧
    "key".toList ≠ "pet_id".toList :=
  ⟨rfl, rfl, rfl, by decide⟩

/-- C2, amended: the `%Name` of a field of an entity is the table name followed by
`_id` exactly for the field declared with the name `Id`, at whatever index it
stands; a field with another declared name, the first one included, is named after
its own declared name. -/
theorem idField_name (env : Env) (entity : Struct) (index : Nat) (fv : StructField × GoValue)
    (_h : entity.fields.get? index = some fv) :
    (fv.1.Name = "Id".toList →
      Field env .Name (NewSource (some entity)) fv.1 index
        = .ok ((NewSource (some entity)).Name env ++ "_id".toList)) ∧
    (fv.1.Name ≠ "Id".toList →
      Field env .Name (NewSource (some entity)) fv.1 index
        = .ok (if startsWith fv.1.Name "Fk".toList then env.SnakeCase fv.1.Name ++ "_id".toList
            else env.SnakeCase fv.1.Name)) := by
  constructor
  · intro h
    simp only [Field, getName]
    rw [if_pos h]
  · intro h
    simp only [Field, getName]
    rw [if_neg h]

/-- The amended C2 on the documented entity: `Id` stands at index 1 and the embedded
handle at index 0 is named after itself. -/
theorem idField_name_witness :
    Field env0 .Name (NewSource (some entityDoc)) (mkField "Id" "string" "char(32)" "") 1
      = .ok "entity_id".toList ∧
    Field env0 .Name (NewSource (some entityDoc)) tableHandle.1 0 = .ok "table".toList :=
  ⟨(idField_name env0 entityDoc 1 (mkField "Id" "string" "char(32)" "", .str "a1".toList) rfl).1 rfl,
   (idField_name env0 entityDoc 0 tableHandle rfl).2 (by decide)⟩

/-! ## Rendering of a template on fields whose values hold no token -/

theorem Field_ok_valOf (env : Env) (src : Source) (field : StructField) (index : Nat)
    (h : ∃ v, Field env .Value src field index = .ok v) (t : Token) :
    Field env t src field index = .ok (valOf env src field index t) := by
  cases t
  case Value =>
    obtain ⟨v, hv⟩ := h
    simp only [valOf, hv]
  case With =>
    simp only [valOf, Field]
    split <;> rfl
  case SQLName =>
    simp only [valOf, Field]
    split <;> rfl
  all_goals rfl

theorem FormatField_plain (env : Env) (hwf : env.wf) (src : Source) (field : StructField)
    (index : Nat) (h : ∃ v, Field env .Value src field index = .ok v) (segs : List Seg)
    (hp : Seg.plain (valOf env src field index) segs) :
    src.FormatField env (Seg.flat segs) field index
      = .ok (squeeze (Seg.render (valOf env src field index) segs)) :=
  FormatField_render env hwf src field index _ (Field_ok_valOf env src field index h) segs hp

theorem plainAt_iff (env : Env) (src : Source) (field : StructField) (index : Nat)
    (toks : List Token) :
    src.plainAt env field index toks = true ↔
      (∃ v, Field env .Value src field index = .ok v) ∧
        ∀ t, t ∈ toks → '%' ∉ valOf env src field index t := by
  unfold Source.plainAt
  rw [Bool.and_eq_true, List.all_eq_true]
  constructor
  · rintro ⟨h1, h2⟩
    refine ⟨?_, fun t ht => ?_⟩
    · cases hF : Field env .Value src field index with
      | ok v => exact ⟨v, rfl⟩
      | error e => rw [hF] at h1; exact absurd h1 (by simp [Except.isOk, Except.toBool])
    · have := h2 t ht
      simpa [noPct] using this
  · rintro ⟨⟨v, hv⟩, h2⟩
    refine ⟨by rw [hv]; rfl, fun t ht => ?_⟩
    simpa [noPct] using h2 t ht

theorem plainFrom_get (env : Env) (src : Source) (toks : List Token) (i : Nat)
    (l : List (StructField × GoValue)) (h : src.plainFrom env toks i l = true)
    (k : Nat) (fv : StructField × GoValue) (hk : l.get? k = some fv) :
    src.plainAt env fv.1 (i + k) toks = true := by
  induction l generalizing i k with
  | nil => simp at hk
  | cons x rest ih =>
    rw [Source.plainFrom, Bool.and_eq_true] at h
    cases k with
    | zero =>
      simp at hk
      subst hk
      exact h.1
    | succ k =>
      have := ih (i + 1) h.2 k (by simpa using hk)
      rwa [show i + 1 + k = i + (k + 1) by omega] at this

theorem fieldsFrom_render (env : Env) (hwf : env.wf) (src : Source) (segs : List Seg)
    (i : Nat) (l : List (StructField × GoValue))
    (h : ∀ k fv, l.get? k = some fv →
      (∃ v, Field env .Value src fv.1 (i + k) = .ok v) ∧
        Seg.plain (valOf env src fv.1 (i + k)) segs) :
    Source.fieldsFrom env src (Seg.flat segs) i l = .ok (rendersFrom env src segs i l) := by
  induction l generalizing i with
  | nil => rfl
  | cons fv rest ih =>
    have h0 := h 0 fv rfl
    have hrest := ih (i + 1) (fun k fv2 hk => by
      have := h (k + 1) fv2 (by simpa using hk)
      rwa [show i + (k + 1) = i + 1 + k by omega] at this)
    rw [Source.fieldsFrom, FormatField_plain env hwf src fv.1 i h0.1 segs h0.2]
    simp only []
    rw [hrest]
    rfl

theorem valOf_With (env : Env) (src : Source) (field : StructField) (index : Nat) :
    valOf env src field index .With = withClause field := by
  simp only [valOf, Field, withClause]
  by_cases h : field.Name = "Id".toList
  · rw [if_pos h, if_pos h]
  · rw [if_neg h, if_neg h]

theorem rendersFrom_createSegs (env : Env) (src : Source) (i : Nat)
    (l : List (StructField × GoValue)) :
    rendersFrom env src createSegs i l = columnDefs env src i l := by
  induction l generalizing i with
  | nil => rfl
  | cons fv rest ih =>
    rw [rendersFrom, columnDefs, ih]
    congr 2
    simp only [createSegs, Seg.render, valOf_With]
    simp only [valOf, Field, List.append_nil, List.append_assoc]

theorem Fields_create (env : Env) (hwf : env.wf) (entity : Struct)
    (hplain : (NewSource (some entity)).plainFrom env [.Name, .Type, .With] 1
      (entity.fields.drop 1) = true) :
    (NewSource (some entity)).Fields env "`%Name` %Type %With".toList
      = .ok (columnDefs env (NewSource (some entity)) 1 (entity.fields.drop 1)) := by
  have := fieldsFrom_render env hwf (NewSource (some entity)) createSegs 1
    (entity.fields.drop 1) (fun k fv hk => by
      have hp := (plainAt_iff _ _ _ _ _).mp (plainFrom_get env _ _ 1 _ hplain k fv hk)
      refine ⟨hp.1, ?_⟩
      exact ⟨by decide, hp.2 .Name (by simp), by decide, hp.2 .Type (by simp), by decide,
        hp.2 .With (by simp), trivial⟩)
  rw [rendersFrom_createSegs] at this
  exact this

/-! ## C3: the statement of CreateTable -/

/-- C3, as stated, fails: for the entity `Id, Name, Active` whose first declared field
is `Id`, the statement has one column definition for `Name` and one for `Active`
and none for `entity_id`; it holds neither `PRIMARY KEY` nor `tinyint(1)`, the
boolean-tagged field being rendered as `boolean`. -/
theorem CreateTable_counterexample :
    nullDB.CreateTable env0 start0 (NewSource (some entityFlat))
      = .ok ⟨(), [.exec ("CREATE TABLE entity (`name` varchar(64) NOT NULL," ++
          "`active` boolean NOT NULL DEFAULT true)").toList]⟩ ∧
    Contains ("CREATE TABLE entity (`name` varchar(64) NOT NULL," ++
      "`active` boolean NOT NULL DEFAULT true)").toList "entity_id".toList = false ∧
    Contains ("CREATE TABLE entity (`name` varchar(64) NOT NULL," ++
      "`active` boolean NOT NULL DEFAULT true)").toList "PRIMARY KEY".toList = false ∧
    Contains ("CREATE TABLE entity (`name` varchar(64) NOT NULL," ++
      "`active` boolean NOT NULL DEFAULT true)").toList "tinyint(1)".toList = false :=
  ⟨rfl, rfl, rfl, rfl⟩

/-- C3, amended: for every entity, the statement `CreateTable` sends is
`CREATE TABLE <table_name> (<cols>)` with `<cols>` the comma-joined list of one
column definition per declared field from index 1 on (the field at index 0 gets
none): the derived name between backquotes, the type as `%Type` gives it (a
boolean tag stays `boolean`) and the constraint tag, preceded by `PRIMARY KEY` for
the field named `Id`; this for fields whose name, type and constraint hold no
percent sign and on which no handler panics. -/
theorem CreateTable_statement {σ : Type} (env : Env) (hwf : env.wf) (db : Database σ)
    (sess : Session σ) (entity : Struct)
    (hplain : (NewSource (some entity)).plainFrom env [.Name, .Type, .With] 1
      (entity.fields.drop 1) = true) :
    db.CreateTable env sess (NewSource (some entity))
      = match db.Exec sess.state (createText env entity) with
        | .error e => .error e
        | .ok st => .ok ⟨st, sess.log ++ [.exec (createText env entity)]⟩ := by
  rw [Database.CreateTable, Fields_create env hwf entity hplain]
  rfl

/-- The amended C3 on the documented entity: `Id` stands at index 1 and its column
carries `PRIMARY KEY`. -/
theorem CreateTable_statement_witness :
    nullDB.CreateTable env0 start0 (NewSource (some entityDoc))
      = .ok ⟨(), [.exec ("CREATE TABLE entity (`entity_id` char(32) PRIMARY KEY," ++
          "`name` varchar(64) NOT NULL,`active` boolean NOT NULL DEFAULT true)").toList]⟩ :=
  CreateTable_statement env0 (List.Perm.refl _) nullDB start0 entityDoc rfl

/-! ## Occurrences of a text, through the last step of FormatField -/

theorem startsWith_iff (s p : Str) : startsWith s p = true ↔ ∃ b, s = p ++ b := by
  induction p generalizing s with
  | nil => cases s <;> simp [startsWith]
  | cons c cs ih =>
    cases s with
    | nil => simp [startsWith]
    | cons x xs =>
      simp only [startsWith, Bool.and_eq_true, beq_iff_eq, ih, List.cons_append, List.cons.injEq]
      constructor
      · rintro ⟨rfl, b, rfl⟩
        exact ⟨b, rfl, rfl⟩
      · rintro ⟨b, rfl, rfl⟩
        exact ⟨rfl, b, rfl⟩

theorem Contains_iff (s sub : Str) : Contains s sub = true ↔ ∃ a b, s = a ++ (sub ++ b) := by
  induction s with
  | nil =>
    simp only [Contains, List.isEmpty_iff]
    constructor
    · rintro rfl
      exact ⟨[], [], rfl⟩
    · rintro ⟨a, b, h⟩
      have h1 := congrArg List.length h
      simp at h1
      exact List.eq_nil_of_length_eq_zero (by omega)
  | cons c cs ih =>
    simp only [Contains, Bool.or_eq_true, startsWith_iff, ih]
    constructor
    · rintro (⟨b, h⟩ | ⟨a, b, h⟩)
      · exact ⟨[], b, h⟩
      · exact ⟨c :: a, b, by rw [h]; rfl⟩
    · rintro ⟨a, b, h⟩
      cases a with
      | nil => exact Or.inl ⟨b, h⟩
      | cons x a =>
        simp only [List.cons_append, List.cons.injEq] at h
        exact Or.inr ⟨a, b, h.2⟩

theorem replaceFrom_blanks_split (c : Char) (hc : c ≠ ' ') (R : Str) (A : Str) (k : Nat)
    (hk : k ≤ A.length) (hk1 : k ≤ 1) :
    ∃ A2, replaceFrom "  ".toList " ".toList k (A ++ c :: R)
      = A2 ++ replaceFrom "  ".toList " ".toList 0 (c :: R) := by
  induction A generalizing k with
  | nil =>
    have : k = 0 := by simpa using hk
    subst this
    exact ⟨[], rfl⟩
  | cons x A1 ih =>
    cases k with
    | succ k =>
      have : k = 0 := by omega
      subst this
      obtain ⟨A2, h⟩ := ih 0 (Nat.zero_le _) (Nat.zero_le _)
      exact ⟨A2, by rw [List.cons_append, replaceFrom, h]⟩
    | zero =>
      by_cases hs : startsWith (x :: (A1 ++ c :: R)) "  ".toList = true
      · have hA1 : 1 ≤ A1.length := by
          cases A1 with
          | nil =>
            exfalso
            obtain ⟨b, hb⟩ := (startsWith_iff _ _).mp hs
            have : c = ' ' := by
              have := congrArg (fun l => l.get? 1) hb
              simpa using this
            exact hc this
          | cons y ys => simp
        obtain ⟨A2, h⟩ := ih 1 hA1 (Nat.le_refl _)
        refine ⟨" ".toList ++ A2, ?_⟩
        rw [List.cons_append, replaceFrom, if_pos hs]
        have : "  ".toList.length - 1 = 1 := rfl
        rw [this, h, List.append_assoc]
      · obtain ⟨A2, h⟩ := ih 0 (Nat.zero_le _) (Nat.zero_le _)
        refine ⟨x :: A2, ?_⟩
        rw [List.cons_append, replaceFrom, if_neg hs, h]
        rfl

theorem dropWhile_split (p : Char → Bool) (c : Char) (hc : p c = false) (R A : Str) :
    ∃ A2, (A ++ c :: R).dropWhile p = A2 ++ c :: R := by
  induction A with
  | nil => exact ⟨[], by simp [List.dropWhile, hc]⟩
  | cons x A1 ih =>
    by_cases hx : p x = true
    · obtain ⟨A2, h⟩ := ih
      exact ⟨A2, by simp [List.dropWhile, hx, h]⟩
    · exact ⟨x :: A1, by simp [List.dropWhile, hx]⟩

/-- Collapsing doubled blanks and trimming keeps every occurrence of a text that
holds no white space. -/
theorem squeeze_keeps (lit : Str) (hne : lit ≠ []) (hs : ∀ c, c ∈ lit → isSpace c = false)
    (s : Str) (h : Contains s lit = true) : Contains (squeeze s) lit = true := by
  rw [Contains_iff] at h ⊢
  obtain ⟨A, B, rfl⟩ := h
  have hblank : ' ' ∉ lit := fun hm => by
    have := hs ' ' hm
    exact absurd this (by decide)
  obtain ⟨c, l, rfl⟩ := List.exists_cons_of_ne_nil hne
  have hc : c ≠ ' ' := fun e => hblank (by simp [e])
  obtain ⟨A2, h1⟩ := replaceFrom_blanks_split c hc (l ++ B) A 0 (Nat.zero_le _) (Nat.zero_le _)
  have h2 : replaceFrom "  ".toList " ".toList 0 ((c :: l) ++ B)
      = (c :: l) ++ replaceFrom "  ".toList " ".toList 0 B :=
    replaceFrom_free ' ' [' '] " ".toList (c :: l) B hblank
  have h3 : ReplaceAll (A ++ ((c :: l) ++ B)) "  ".toList " ".toList
      = A2 ++ ((c :: l) ++ replaceFrom "  ".toList " ".toList 0 B) := by
    show replaceFrom "  ".toList " ".toList 0 (A ++ (c :: (l ++ B))) = _
    rw [h1]
    exact congrArg _ h2
  generalize replaceFrom "  ".toList " ".toList 0 B = B2 at h3
  unfold squeeze TrimSpace
  rw [h3]
  obtain ⟨A3, h4⟩ := dropWhile_split isSpace c (hs c (by simp)) (l ++ B2) A2
  rw [show A2 ++ (c :: l ++ B2) = A2 ++ c :: (l ++ B2) by rfl, h4]
  -- the right end
  obtain ⟨d, m, hd⟩ : ∃ d m, (c :: l).reverse = d :: m := by
    cases hr : (c :: l).reverse with
    | nil => simp at hr
    | cons d m => exact ⟨d, m, rfl⟩
  have hdm : d ∈ c :: l := by
    have : d ∈ (c :: l).reverse := by rw [hd]; simp
    exact List.mem_reverse.mp this
  have hrev : (A3 ++ c :: (l ++ B2)).reverse = B2.reverse ++ d :: (m ++ A3.reverse) := by
    rw [show A3 ++ c :: (l ++ B2) = A3 ++ ((c :: l) ++ B2) by rfl]
    simp only [List.reverse_append, hd]
    simp
  rw [hrev]
  obtain ⟨B3, h5⟩ := dropWhile_split isSpace d (hs d hdm) (m ++ A3.reverse) B2.reverse
  rw [h5]
  refine ⟨A3, B3.reverse, ?_⟩
  have : (d :: m).reverse = c :: l := by rw [← hd]; simp
  simp only [List.reverse_append, List.reverse_cons, List.reverse_reverse, List.append_assoc]
  simp only [List.reverse_cons] at this
  rw [← List.append_assoc m.reverse, this]

/-! ## Statements sent to the connection -/

theorem Contains_inside (s lit a b : Str) (h : Contains s lit = true) :
    Contains (a ++ (s ++ b)) lit = true := by
  rw [Contains_iff] at h ⊢
  obtain ⟨x, y, rfl⟩ := h
  exact ⟨a ++ x, y ++ b, by simp⟩

theorem Join_split (sep col : Str) (cols : List Str) (h : col ∈ cols) :
    ∃ a b, Join cols sep = a ++ (col ++ b) := by
  induction cols with
  | nil => simp at h
  | cons x rest ih =>
    cases rest with
    | nil =>
      have : col = x := by simpa using h
      subst this
      exact ⟨[], [], by simp [Join, List.intercalate]⟩
    | cons y ys =>
      have hJ : Join (x :: y :: ys) sep = x ++ (sep ++ Join (y :: ys) sep) := by
        simp [Join, List.intercalate, List.intersperse]
      rcases List.mem_cons.mp h with rfl | h2
      · exact ⟨[], sep ++ Join (y :: ys) sep, by rw [hJ]; rfl⟩
      · obtain ⟨a, b, hab⟩ := ih h2
        exact ⟨x ++ (sep ++ a), b, by rw [hJ, hab]; simp⟩

theorem Contains_Join (sep col lit : Str) (cols : List Str) (h : col ∈ cols)
    (hc : Contains col lit = true) : Contains (Join cols sep) lit = true := by
  obtain ⟨a, b, hab⟩ := Join_split sep col cols h
  rw [hab]
  exact Contains_inside col lit a b hc

theorem columnDefs_get (env : Env) (src : Source) (i : Nat) (l : List (StructField × GoValue))
    (k : Nat) (fv : StructField × GoValue) (hk : l.get? k = some fv) :
    squeeze ("`".toList ++ getName env src fv.1 (i + k) ++ "` ".toList ++
      getType env src fv.1 (i + k) ++ " ".toList ++ withClause fv.1) ∈ columnDefs env src i l := by
  induction l generalizing i k with
  | nil => simp at hk
  | cons x rest ih =>
    cases k with
    | zero =>
      simp at hk
      subst hk
      simp [columnDefs]
    | succ k =>
      have := ih (i + 1) k (by simpa using hk)
      rw [show i + 1 + k = i + (k + 1) by omega] at this
      simp only [columnDefs, List.mem_cons]
      exact Or.inr this

theorem withClause_Contains (field : StructField) (lit : Str)
    (h : Contains (field.Tag.Get "with".toList) lit = true) :
    Contains (withClause field) lit = true := by
  unfold withClause
  split
  · have := Contains_inside _ lit "PRIMARY KEY ".toList [] h
    simpa using this
  · exact h


theorem fieldsFrom_head (env : Env) (src : Source) (format : Str) (i : Nat)
    (fv : StructField × GoValue) (rest : List (StructField × GoValue)) (xs : List Str)
    (h : Source.fieldsFrom env src format i (fv :: rest) = .ok xs) :
    ∃ x, src.FormatField env format fv.1 i = .ok x ∧ xs.get? 0 = some x := by
  rw [Source.fieldsFrom] at h
  cases hF : src.FormatField env format fv.1 i with
  | error e => rw [hF] at h; cases h
  | ok x =>
    rw [hF] at h
    simp only [] at h
    cases hR : Source.fieldsFrom env src format (i + 1) rest with
    | error e => rw [hR] at h; cases h
    | ok ys =>
      rw [hR] at h
      cases h
      exact ⟨x, rfl, rfl⟩

theorem VoidExec_log {σ : Type} (env : Env) (db : Database σ) (sess sess2 : Session σ)
    (query : Str) (args : List Str) (h : db.VoidExec env sess query args = .ok sess2) :
    sess2.log = sess.log ++ [.exec (Sprintf env.IsPrint query args)] := by
  unfold Database.VoidExec at h
  simp only [] at h
  cases hE : db.Exec sess.state (Sprintf env.IsPrint query args) with
  | error e => rw [hE] at h; cases h
  | ok st =>
    rw [hE] at h
    cases h
    rfl

theorem Sprintf_delete (p : Char → Bool) (a b : Str) :
    Sprintf p "DELETE FROM %s WHERE %s".toList [a, b]
      = "DELETE FROM ".toList ++ (a ++ (" WHERE ".toList ++ b)) := by
  show "DELETE FROM ".toList ++ (a ++ (" WHERE ".toList ++ (b ++ []))) = _
  rw [List.append_nil]

theorem Sprintf_create (p : Char → Bool) (a b : Str) :
    Sprintf p "CREATE TABLE %s (%s)".toList [a, b]
      = "CREATE TABLE ".toList ++ (a ++ (" (".toList ++ (b ++ ")".toList))) := rfl

theorem CreateTable_log {σ : Type} (env : Env) (hwf : env.wf) (db : Database σ)
    (sess : Session σ) (entity : Struct)
    (hplain : (NewSource (some entity)).plainFrom env [.Name, .Type, .With] 1
      (entity.fields.drop 1) = true)
    (sess2 : Session σ) (hrun : db.CreateTable env sess (NewSource (some entity)) = .ok sess2) :
    sess2.log = sess.log ++ [.exec (createText env entity)] := by
  rw [Database.CreateTable, Fields_create env hwf entity hplain] at hrun
  simp only [] at hrun
  rw [VoidExec_log env db sess _ _ _ hrun, Sprintf_create]
  rfl

/-! ## C4: constraint tags in the statement of CreateTable -/

/-- C4, as stated, fails: the documented entity declares `Active` with
`with:"NOT NULL DEFAULT true"`, and the statement `CreateTable` sends holds the
literal `true`; it holds no `'1'`. -/
theorem CreateTable_true_counterexample :
    nullDB.CreateTable env0 start0 (NewSource (some entityDoc))
      = .ok ⟨(), [.exec ("CREATE TABLE entity (`entity_id` char(32) PRIMARY KEY," ++
          "`name` varchar(64) NOT NULL,`active` boolean NOT NULL DEFAULT true)").toList]⟩ ∧
    Contains ("CREATE TABLE entity (`entity_id` char(32) PRIMARY KEY," ++
      "`name` varchar(64) NOT NULL,`active` boolean NOT NULL DEFAULT true)").toList
      "true".toList = true ∧
    Contains ("CREATE TABLE entity (`entity_id` char(32) PRIMARY KEY," ++
      "`name` varchar(64) NOT NULL,`active` boolean NOT NULL DEFAULT true)").toList
      "'1'".toList = false :=
  ⟨rfl, rfl, rfl⟩

/-- C4, amended: `CreateTable` does not apply the normalization of `GetSQLWith` to
the constraint tags: when the `with` tag of a field of index 1 or more holds the
literal `true` or `false`, the statement sent holds that literal too.  The statement
is the reference text `createText`, in which each column is the name, the type and
the constraint clause of the field after the collapse of doubled blanks and the
trimming of `FormatField` (for fields whose name, type and constraint hold no
percent sign and on which no handler panics). -/
theorem CreateTable_keeps_literals {σ : Type} (env : Env) (hwf : env.wf) (db : Database σ)
    (sess : Session σ) (entity : Struct)
    (hplain : (NewSource (some entity)).plainFrom env [.Name, .Type, .With] 1
      (entity.fields.drop 1) = true)
    (k : Nat) (fv : StructField × GoValue) (hk : (entity.fields.drop 1).get? k = some fv)
    (lit : Str) (hlit : lit = "true".toList ∨ lit = "false".toList)
    (hw : Contains (fv.1.Tag.Get "with".toList) lit = true)
    (sess2 : Session σ) (hrun : db.CreateTable env sess (NewSource (some entity)) = .ok sess2) :
    sess2.log = sess.log ++ [.exec (createText env entity)] ∧
    Contains (createText env entity) lit = true := by
  have hlog := CreateTable_log env hwf db sess entity hplain sess2 hrun
  have hne : lit ≠ [] := by rcases hlit with rfl | rfl <;> decide
  have hsp : ∀ c, c ∈ lit → isSpace c = false := by
    rcases hlit with rfl | rfl <;> decide
  refine ⟨?_, ?_⟩
  · exact hlog
  · have hshape : createText env entity
        = ("CREATE TABLE ".toList ++ (env.SnakeCase entity.TypeName ++ " (".toList)) ++
          (Join (columnDefs env (NewSource (some entity)) 1 (entity.fields.drop 1)) ",".toList ++
            ")".toList) := by
      simp only [createText, List.append_assoc]
    rw [hshape]
    apply Contains_inside
    apply Contains_Join _ _ _ _ (columnDefs_get env _ 1 _ k fv hk)
    apply squeeze_keeps lit hne hsp
    have := Contains_inside _ lit ("`".toList ++ getName env (NewSource (some entity)) fv.1 (1 + k)
      ++ "` ".toList ++ getType env (NewSource (some entity)) fv.1 (1 + k) ++ " ".toList) []
      (withClause_Contains fv.1 lit hw)
    simpa using this

/-- The amended C4 on the documented entity: the `true` of the tag of `Active`
occurs in the statement.  On the tag `NOT NULL  DEFAULT true`, declared with two
blanks, the literal occurs too, and the statement holds one blank. -/
theorem CreateTable_keeps_literals_witness :
    ([Issued.exec ("CREATE TABLE entity (`entity_id` char(32) PRIMARY KEY," ++
          "`name` varchar(64) NOT NULL,`active` boolean NOT NULL DEFAULT true)").toList]
        = start0.log ++ [.exec (createText env0 entityDoc)] ∧
      Contains (createText env0 entityDoc) "true".toList = true) ∧
    nullDB.CreateTable env0 start0 (NewSource (some entityBlanks))
      = .ok ⟨(), [.exec ("CREATE TABLE entity (`entity_id` char(32) PRIMARY KEY," ++
          "`active` boolean NOT NULL DEFAULT true)").toList]⟩ ∧
    ([Issued.exec ("CREATE TABLE entity (`entity_id` char(32) PRIMARY KEY," ++
          "`active` boolean NOT NULL DEFAULT true)").toList]
        = start0.log ++ [.exec (createText env0 entityBlanks)] ∧
      Contains (createText env0 entityBlanks) "true".toList = true) :=
  ⟨CreateTable_keeps_literals env0 (List.Perm.refl _) nullDB start0 entityDoc rfl 2
    (mkField "Active" "bool" "boolean" "NOT NULL DEFAULT true", .bool true) rfl
    "true".toList (Or.inl rfl) rfl
    ⟨(), [.exec ("CREATE TABLE entity (`entity_id` char(32) PRIMARY KEY," ++
          "`name` varchar(64) NOT NULL,`active` boolean NOT NULL DEFAULT true)").toList]⟩ rfl,
   rfl,
   CreateTable_keeps_literals env0 (List.Perm.refl _) nullDB start0 entityBlanks rfl 1
    (mkField "Active" "bool" "boolean" "NOT NULL  DEFAULT true", .bool true) rfl
    "true".toList (Or.inl rfl) rfl
    ⟨(), [.exec ("CREATE TABLE entity (`entity_id` char(32) PRIMARY KEY," ++
          "`active` boolean NOT NULL DEFAULT true)").toList]⟩ rfl⟩

/-! ## C5, C6: the existence probe of ClaimEntity -/

/-- C5: on the documented entity with the string primary key `a1`, the probe
`ClaimEntity` sends quotes the value a second time: it compares the key with the
text of `"a1"` including its quotes, escaped, and this is not the probe
`SELECT entity_id FROM entity WHERE entity_id="a1"`. -/
theorem ClaimEntity_probe_requoted :
    ClaimEntity env0 nullDB start0 entityDoc
      = .ok (entityDoc, ⟨(),
          [.query "SELECT entity_id FROM entity WHERE entity_id=\"\\\"a1\\\"\"".toList,
           .exec "INSERT INTO entity (entity_id,name,active) VALUES (\"a1\",\"Bob\",true)".toList]⟩) ∧
    "SELECT entity_id FROM entity WHERE entity_id=\"\\\"a1\\\"\"".toList
      ≠ "SELECT entity_id FROM entity WHERE entity_id=\"a1\"".toList :=
  ⟨rfl, by decide⟩

/-- C6: on the database of rows, starting empty, two calls of `ClaimEntity` with the
documented entity each return the entity and each send an `INSERT`: the probe of
the second call looks for the key value with its quotes and misses the row the
first call stored. -/
theorem ClaimEntity_twice_inserts_twice :
    ∃ s1 s2, ClaimEntity env0 rowDB startRows entityDoc = .ok (entityDoc, s1) ∧
      ClaimEntity env0 rowDB s1 entityDoc = .ok (entityDoc, s2) ∧
      s1.state = [⟨"entity".toList, [("entity_id".toList, "a1".toList),
        ("name".toList, "Bob".toList), ("active".toList, "true".toList)]⟩] ∧
      countInserts s2.log = 2 :=
  ⟨_, _, rfl, rfl, rfl, rfl⟩

/-- On the same database an integer primary key is found again: the second call of
`ClaimEntity` sends no `INSERT`. -/
theorem ClaimEntity_twice_integer_key :
    ∃ s1 s2, ClaimEntity env0 rowDB startRows entityInt = .ok (entityInt, s1) ∧
      ClaimEntity env0 rowDB s1 entityInt = .ok (entityInt, s2) ∧
      countInserts s2.log = 1 :=
  ⟨_, _, rfl, rfl, rfl⟩

/-! ## C7: the statement of DeleteEntity -/

/-- C7, as stated, fails: for the entity whose first declared field is `Id`, the
predicate of the statement is the one of the second field, `Name`; two entities
with the same primary key `a1` and different names send different statements. -/
theorem DeleteEntity_counterexample :
    DeleteEntity env0 nullDB start0 entityFlat
      = .ok (entityFlat, ⟨(), [.exec "DELETE FROM entity WHERE name=\"Bob\"".toList]⟩) ∧
    DeleteEntity env0 nullDB start0 entityFlat2
      = .ok (entityFlat2, ⟨(), [.exec "DELETE FROM entity WHERE name=\"Al\"".toList]⟩) ∧
    Struct.FieldByName entityFlat.fields "Id".toList
      = Struct.FieldByName entityFlat2.fields "Id".toList ∧
    "DELETE FROM entity WHERE name=\"Bob\"".toList
      ≠ "DELETE FROM entity WHERE name=\"Al\"".toList :=
  ⟨rfl, rfl, rfl, by decide⟩

/-- C7, amended: for every entity whose field at index 1 is the primary key `Id`
(index 0 holding the embedded table handle), the statement `DeleteEntity` sends is
`DELETE FROM <table_name> WHERE <p>` with `<p>` the rendering of
`<table_name>_id=<value of Id>`, blanks collapsed: it is determined by the table
name and that field alone, and the entity is returned as given (table name and
value holding no percent sign). -/
theorem DeleteEntity_statement {σ : Type} (env : Env) (hwf : env.wf) (db : Database σ)
    (sess : Session σ) (entity : Struct) (fv : StructField × GoValue) (val : Str)
    (h1 : entity.fields.get? 1 = some fv) (hid : fv.1.Name = "Id".toList)
    (hval : renderValue env fv.1 fv.2 = .ok val)
    (hp1 : '%' ∉ env.SnakeCase entity.TypeName) (hp2 : '%' ∉ val)
    (out : Struct) (sess2 : Session σ)
    (hrun : DeleteEntity env db sess entity = .ok (out, sess2)) :
    out = entity ∧
    sess2.log = sess.log ++ [.exec ("DELETE FROM ".toList ++ (env.SnakeCase entity.TypeName ++
      (" WHERE ".toList ++ squeeze (env.SnakeCase entity.TypeName ++ ("_id=".toList ++ val)))))] := by
  have hV : Field env .Value (NewSource (some entity)) fv.1 1 = .ok val := by
    simp only [Field, Source.VField, NewSource, h1]
    exact hval
  have hN : valOf env (NewSource (some entity)) fv.1 1 .Name
      = env.SnakeCase entity.TypeName ++ "_id".toList := by
    simp only [valOf, Field, getName]
    rw [if_pos hid]
    rfl
  have hVv : valOf env (NewSource (some entity)) fv.1 1 .Value = val := by
    simp only [valOf, hV]
  have hFmt : (NewSource (some entity)).FormatField env "%Name=%Value".toList fv.1 1
      = .ok (squeeze (env.SnakeCase entity.TypeName ++ ("_id=".toList ++ val))) := by
    have := FormatField_plain env hwf (NewSource (some entity)) fv.1 1 ⟨val, hV⟩ pairSegs
      ⟨by rw [hN]; simp [hp1], by decide, by rw [hVv]; exact hp2, trivial⟩
    rw [show Seg.flat pairSegs = "%Name=%Value".toList from rfl] at this
    rw [this]
    simp only [pairSegs, Seg.render, hN, hVv]
    simp
  obtain ⟨f0, rest, hfs⟩ : ∃ f0 rest, entity.fields = f0 :: fv :: rest := by
    cases hE : entity.fields with
    | nil => rw [hE] at h1; simp at h1
    | cons f0 tl =>
      cases tl with
      | nil => rw [hE] at h1; simp at h1
      | cons f1 rest =>
        rw [hE] at h1
        simp at h1
        subst h1
        exact ⟨f0, rest, rfl⟩
  unfold DeleteEntity at hrun
  simp only [] at hrun
  cases hF : (NewSource (some entity)).Fields env "%Name=%Value".toList with
  | error e => rw [hF] at hrun; cases hrun
  | ok fields =>
    rw [hF] at hrun
    simp only [] at hrun
    have hF2 : Source.fieldsFrom env (NewSource (some entity)) "%Name=%Value".toList 1
        (fv :: rest) = .ok fields := by
      rw [← hF]
      simp only [Source.Fields, NewSource, hfs]
      rfl
    obtain ⟨x, hx1, hx2⟩ := fieldsFrom_head env _ _ 1 fv rest fields hF2
    rw [hFmt] at hx1
    cases hx1
    have hidx : index fields 0 = .ok (squeeze (env.SnakeCase entity.TypeName ++
        ("_id=".toList ++ val))) := by
      simp only [index, hx2]
    rw [hidx] at hrun
    simp only [] at hrun
    cases hE : db.VoidExec env sess "DELETE FROM %s WHERE %s".toList
        [(NewSource (some entity)).Name env,
          squeeze (env.SnakeCase entity.TypeName ++ ("_id=".toList ++ val))] with
    | error e => rw [hE] at hrun; cases hrun
    | ok s1 =>
      rw [hE] at hrun
      cases hrun
      refine ⟨rfl, ?_⟩
      rw [VoidExec_log env db sess _ _ _ hE, Sprintf_delete]
      rfl

/-- The amended C7 on the documented entity. -/
theorem DeleteEntity_statement_witness :
    entityDoc = entityDoc ∧
    [Issued.exec "DELETE FROM entity WHERE entity_id=\"a1\"".toList]
      = start0.log ++ [.exec "DELETE FROM entity WHERE entity_id=\"a1\"".toList] :=
  DeleteEntity_statement env0 (List.Perm.refl _) nullDB start0 entityDoc
    (mkField "Id" "string" "char(32)" "", .str "a1".toList) "\"a1\"".toList rfl rfl rfl
    (by decide) (by decide) entityDoc
    ⟨(), [.exec "DELETE FROM entity WHERE entity_id=\"a1\"".toList]⟩ rfl

/-! ## The integer parsers against the decimal reading -/

theorem digitsFrom_ge (cs : Str) (n m : Nat) (h : digitsFrom n cs = some m) : n ≤ m := by
  induction cs generalizing n with
  | nil => simp [digitsFrom] at h; omega
  | cons c cs ih =>
    simp only [digitsFrom] at h
    cases hd : digitOf c with
    | none => rw [hd] at h; cases h
    | some d =>
      rw [hd] at h
      have := ih _ h
      omega

theorem parseUintLoop_spec (maxVal : Nat) (hmax : maxVal < two64) (cs : Str) (n : Nat)
    (hn : n ≤ maxVal) :
    (∃ m, digitsFrom n cs = some m ∧ m ≤ maxVal ∧
      parseUintLoop 10 1844674407370955162 maxVal n cs = (m, none)) ∨
    ((∀ m, digitsFrom n cs = some m → maxVal < m) ∧
      (parseUintLoop 10 1844674407370955162 maxVal n cs = (0, some .syntaxErr) ∨
       parseUintLoop 10 1844674407370955162 maxVal n cs = (maxVal, some .rangeErr))) := by
  induction cs generalizing n with
  | nil => exact Or.inl ⟨n, rfl, hn, rfl⟩
  | cons c cs ih =>
    unfold two64 at hmax
    by_cases hd : 48 ≤ c.toNat ∧ c.toNat ≤ 57
    · have hdig : digitOf c = some (c.toNat - 48) := by simp [digitOf, hd]
      have hlt : c.toNat - 48 < 10 := by omega
      simp only [parseUintLoop, digitsFrom, hdig, if_pos hd, two64]
      rw [if_neg (by omega)]
      by_cases hc : n ≥ 1844674407370955162
      · rw [if_pos hc]
        refine Or.inr ⟨fun m hm => ?_, Or.inr rfl⟩
        have := digitsFrom_ge _ _ _ hm
        omega
      · rw [if_neg hc]
        by_cases ho : (n * 10 % 18446744073709551616 + (c.toNat - 48)) % 18446744073709551616
            < n * 10 % 18446744073709551616 ∨
            (n * 10 % 18446744073709551616 + (c.toNat - 48)) % 18446744073709551616 > maxVal
        · rw [if_pos ho]
          refine Or.inr ⟨fun m hm => ?_, Or.inr rfl⟩
          have := digitsFrom_ge _ _ _ hm
          omega
        · rw [if_neg ho]
          have heq : (n * 10 % 18446744073709551616 + (c.toNat - 48)) % 18446744073709551616
              = n * 10 + (c.toNat - 48) := by omega
          rw [heq]
          exact ih (n * 10 + (c.toNat - 48)) (by omega)
    · have hdig : digitOf c = none := by simp [digitOf, hd]
      refine Or.inr ⟨fun m hm => ?_, Or.inl ?_⟩
      · simp [digitsFrom, hdig] at hm
      · simp only [parseUintLoop, if_neg hd]
        split
        · rfl
        · rename_i d hsome
          split at hsome
          · cases hsome
            rw [if_pos (by omega)]
          · cases hsome

theorem maxVal_eq (bits : Nat) (h : bits = 8 ∨ bits = 16 ∨ bits = 32 ∨ bits = 64) :
    ((2 ^ bits) % two64 + two64 - 1) % two64 = 2 ^ bits - 1 := by
  rcases h with rfl | rfl | rfl | rfl <;> decide

theorem ParseUint_spec (s : Str) (bits : Nat)
    (h : bits = 8 ∨ bits = 16 ∨ bits = 32 ∨ bits = 64) :
    (∃ m, digitsValue s = some m ∧ m ≤ 2 ^ bits - 1 ∧ ParseUint s 10 bits = (m, none)) ∨
    ((∀ m, digitsValue s = some m → 2 ^ bits - 1 < m) ∧
      (ParseUint s 10 bits = (0, some .syntaxErr) ∨
       ParseUint s 10 bits = (2 ^ bits - 1, some .rangeErr))) := by
  by_cases hs : s = []
  · subst hs
    exact Or.inr ⟨fun m hm => by simp [digitsValue] at hm, Or.inl rfl⟩
  · have hb0 : bits ≠ 0 := by omega
    have hb64 : ¬ bits > 64 := by omega
    have hlt : 2 ^ bits - 1 < two64 := by
      rcases h with rfl | rfl | rfl | rfl <;> decide
    have hP : ParseUint s 10 bits
        = parseUintLoop 10 1844674407370955162 (2 ^ bits - 1) 0 s := by
      unfold ParseUint
      rw [if_neg hs, if_neg (by decide), if_neg hb64]
      simp only [if_neg hb0]
      rw [maxVal_eq bits h]
      rfl
    have hD : digitsValue s = digitsFrom 0 s := by simp [digitsValue, hs]
    rw [hP, hD]
    exact parseUintLoop_spec (2 ^ bits - 1) hlt s 0 (Nat.zero_le _)

/-- The tail of `ParseInt` after the unsigned parse: the range check and the sign. -/
theorem ParseInt_eq (c : Char) (cs : Str) (bits : Nat) (hb : bits ≠ 0) :
    ParseInt (c :: cs) 10 bits =
      (let r := ParseUint (if c == '+' ∨ c == '-' then cs else c :: cs) 10 bits
       if r.2 = some .syntaxErr ∨ r.2 = some .argErr then (0, r.2)
       else if !(c == '-') ∧ r.1 ≥ (2 ^ (bits - 1)) % two64 then
         (toInt64 (((2 ^ (bits - 1)) % two64 - 1 : Nat) : Int), some .rangeErr)
       else if (c == '-') ∧ r.1 > (2 ^ (bits - 1)) % two64 then
         (toInt64 (-(toInt64 ((2 ^ (bits - 1)) % two64 : Nat))), some .rangeErr)
       else (if (c == '-') then toInt64 (-(toInt64 r.1)) else toInt64 r.1, none)) := by
  simp only [ParseInt, if_neg hb]

theorem toInt64_small (m : Nat) (h : m < 9223372036854775808) : toInt64 (m : Int) = m := by
  unfold toInt64
  omega

theorem toInt64_neg (m : Nat) (h : m ≤ 9223372036854775808) :
    toInt64 (-(toInt64 (m : Int))) = -(m : Int) := by
  unfold toInt64
  omega

theorem ParseInt_spec (s : Str) (bits : Nat)
    (h : bits = 8 ∨ bits = 16 ∨ bits = 32 ∨ bits = 64) :
    (∃ n, signedValue s = some n ∧ -(2 ^ (bits - 1) : Int) ≤ n ∧ n ≤ 2 ^ (bits - 1) - 1 ∧
      ParseInt s 10 bits = (n, none)) ∨
    ((∀ n, signedValue s = some n → ¬ (-(2 ^ (bits - 1) : Int) ≤ n ∧ n ≤ 2 ^ (bits - 1) - 1)) ∧
      ∃ v e, ParseInt s 10 bits = (v, some e)) := by
  cases s with
  | nil => exact Or.inr ⟨fun n hn => by simp [signedValue] at hn, 0, .syntaxErr, rfl⟩
  | cons c cs =>
    have hb : bits ≠ 0 := by omega
    rw [ParseInt_eq c cs bits hb]
    -- the digits handed to ParseUint and the sign
    obtain ⟨digits, neg, hdig, hneg, hsv⟩ : ∃ digits neg,
        (if c == '+' ∨ c == '-' then cs else c :: cs) = digits ∧ (c == '-') = neg ∧
        signedValue (c :: cs)
          = (digitsValue digits).map (fun (m : Nat) => if neg then -(m : Int) else (m : Int)) := by
      by_cases hp : c = '+'
      · subst hp
        exact ⟨cs, false, by simp, by decide, by simp [signedValue]⟩
      · by_cases hm : c = '-'
        · subst hm
          exact ⟨cs, true, by simp, by decide, by simp [signedValue]⟩
        · exact ⟨c :: cs, false, by simp [hp, hm], by simp [hm], by simp [signedValue, hp, hm]⟩
    rw [hdig, hneg, hsv]
    have hU := ParseUint_spec digits bits h
    obtain ⟨K, hK1, hK2, hK3, hK4, hKi, hc⟩ : ∃ K : Nat, 2 ^ (bits - 1) = K ∧
        2 ^ bits - 1 = 2 * K - 1 ∧ K ≤ 9223372036854775808 ∧ 1 ≤ K ∧
        (2 : Int) ^ (bits - 1) = (K : Int) ∧ (2 ^ (bits - 1)) % two64 = K := by
      rcases h with rfl | rfl | rfl | rfl <;>
        exact ⟨_, rfl, by decide, by decide, by decide, by norm_num, by decide⟩
    rw [hK2] at hU
    simp only [hc, hKi]
    rcases hU with ⟨m, hm1, hm2, hm3⟩ | ⟨hno, hE | hE⟩
    · rw [hm3, hm1]
      simp only [Option.map_some', reduceCtorEq, or_self, if_false]
      cases neg
      · by_cases hge : m ≥ K
        · refine Or.inr ⟨fun n hn => ?_, ?_⟩
          · simp at hn
            omega
          · rw [if_pos ⟨rfl, hge⟩]
            exact ⟨_, _, rfl⟩
        · refine Or.inl ⟨m, by simp, by omega, by omega, ?_⟩
          simp [hge, toInt64_small m (by omega)]
      · by_cases hgt : m > K
        · refine Or.inr ⟨fun n hn => ?_, ?_⟩
          · simp at hn
            omega
          · rw [if_neg (by simp), if_pos ⟨rfl, hgt⟩]
            exact ⟨_, _, rfl⟩
        · refine Or.inl ⟨-(m : Int), by simp, by omega, by omega, ?_⟩
          simp [hgt, toInt64_neg m (by omega)]
    · rw [hE]
      refine Or.inr ⟨fun n hn => ?_, 0, .syntaxErr, by simp⟩
      cases hd : digitsValue digits with
      | none => rw [hd] at hn; simp at hn
      | some m =>
        rw [hd] at hn
        have := hno m hd
        cases neg <;> simp at hn <;> omega
    · rw [hE]
      refine Or.inr ⟨fun n hn => ?_, ?_⟩
      · cases hd : digitsValue digits with
        | none => rw [hd] at hn; simp at hn
        | some m =>
          rw [hd] at hn
          have := hno m hd
          cases neg <;> simp at hn <;> omega
      · cases neg
        · rw [if_neg (by simp), if_pos ⟨rfl, by show 2 * K - 1 ≥ K; omega⟩]
          exact ⟨_, _, rfl⟩
        · by_cases hgt : 2 * K - 1 > K
          · rw [if_neg (by simp), if_neg (by simp), if_pos ⟨rfl, hgt⟩]
            exact ⟨_, _, rfl⟩
          · exfalso
            rcases h with rfl | rfl | rfl | rfl <;> simp at hK1 <;> omega

theorem wrapInt_id (bits : Nat) (h : bits = 8 ∨ bits = 16 ∨ bits = 32 ∨ bits = 64) (n : Int)
    (h1 : -(2 ^ (bits - 1) : Int) ≤ n) (h2 : n ≤ 2 ^ (bits - 1) - 1) : wrapInt bits n = n := by
  unfold wrapInt
  rcases h with rfl | rfl | rfl | rfl <;> simp at h1 h2 ⊢ <;> omega

theorem fromInt_spec (bits : Nat) (h : bits = 8 ∨ bits = 16 ∨ bits = 32 ∨ bits = 64)
    (old : Int) (value : Str) :
    (match parseStringWithBaseAndBits ParseInt value 10 bits with
      | .error e => .error e
      | .ok x => (SetInt (some (.int bits old)) x).map some)
    = (match signedValue value with
      | some n =>
        if -(2 ^ (bits - 1) : Int) ≤ n ∧ n ≤ 2 ^ (bits - 1) - 1 then
          (.ok (some (.int bits n)) : Except Err (Option GoValue))
        else .error .parse
      | none => .error .parse) := by
  rcases ParseInt_spec value bits h with ⟨n, hn1, hn2, hn3, hn4⟩ | ⟨hno, v, e, hE⟩
  · rw [hn1]
    simp only [parseStringWithBaseAndBits, hn4, SetInt, wrapInt_id bits h n hn2 hn3]
    rw [if_pos ⟨hn2, hn3⟩]
    rfl
  · simp only [parseStringWithBaseAndBits, hE]
    cases hs : signedValue value with
    | none => rfl
    | some n =>
      simp only []
      rw [if_neg (hno n hs)]

theorem fromUint_spec (bits : Nat) (h : bits = 8 ∨ bits = 16 ∨ bits = 32 ∨ bits = 64)
    (old : Nat) (value : Str) :
    (match parseStringWithBaseAndBits ParseUint value 10 bits with
      | .error e => .error e
      | .ok x => (SetUint (some (.uint bits old)) x).map some)
    = (match digitsValue value with
      | some n =>
        if n ≤ 2 ^ bits - 1 then (.ok (some (.uint bits n)) : Except Err (Option GoValue))
        else .error .parse
      | none => .error .parse) := by
  rcases ParseUint_spec value bits h with ⟨n, hn1, hn2, hn3⟩ | ⟨hno, hE | hE⟩
  · rw [hn1]
    have hmod : n % 2 ^ bits = n := by
      apply Nat.mod_eq_of_lt
      have : 0 < 2 ^ bits := Nat.pow_pos (by decide)
      omega
    simp only [parseStringWithBaseAndBits, hn3, SetUint, hmod]
    rw [if_pos hn2]
    rfl
  all_goals
    simp only [parseStringWithBaseAndBits, hE]
    cases hs : digitsValue value with
    | none => rfl
    | some n =>
      simp only []
      rw [if_neg (by have := hno n hs; omega)]


/-! ## C10: integer fields -/

/-- C10, amended: for every integer type the code has a case for, of width 8, 16, 32
or 64 (`int` and `uint` counting as 64), and every string: on a signed field
`setStructField` stores `n` exactly when the string is an optional sign `+` or
`-` followed by one or more decimal digits, denoting `n`, and `n` lies between
`-2^(w-1)` and `2^(w-1)-1`; on an unsigned field exactly when the string is one or
more decimal digits, without any sign, denoting `n`, and `n` is at most `2^w-1`;
on every other string it fails with a parse error and stores nothing. -/
theorem setStructField_integers (env : Env) (value : Str) (is_recursive : Bool) :
    (∀ (t : IntType) (old : Int),
      setStructField env (some (.int t.bits old)) value t.name is_recursive
        = match signedValue value with
          | some n =>
            if -(2 ^ (t.bits - 1) : Int) ≤ n ∧ n ≤ 2 ^ (t.bits - 1) - 1 then
              .ok (some (.int t.bits n))
            else .error .parse
          | none => .error .parse) ∧
    (∀ (t : UintType) (old : Nat),
      setStructField env (some (.uint t.bits old)) value t.name is_recursive
        = match digitsValue value with
          | some n =>
            if n ≤ 2 ^ t.bits - 1 then .ok (some (.uint t.bits n)) else .error .parse
          | none => .error .parse) := by
  constructor
  · intro t old
    have hb : t.bits = 8 ∨ t.bits = 16 ∨ t.bits = 32 ∨ t.bits = 64 := by
      cases t <;> simp [IntType.bits]
    rw [← fromInt_spec t.bits hb old value]
    cases t <;> rfl
  · intro t old
    have hb : t.bits = 8 ∨ t.bits = 16 ∨ t.bits = 32 ∨ t.bits = 64 := by
      cases t <;> simp [UintType.bits]
    rw [← fromUint_spec t.bits hb old value]
    cases t <;> rfl

/-- C10, as stated, fails: the string `+5` denotes 5, which fits `uint8`, and the code
rejects it, while on `int8` the same string is accepted and 5 is stored; likewise
`-0` is rejected on `uint8` and stored as 0 on `int8`. -/
theorem setStructField_sign_counterexample :
    setStructField env0 (some (.uint 8 0)) "+5".toList "uint8".toList false = .error .parse ∧
    setStructField env0 (some (.int 8 0)) "+5".toList "int8".toList false
      = .ok (some (.int 8 5)) ∧
    setStructField env0 (some (.uint 8 0)) "-0".toList "uint8".toList false = .error .parse ∧
    setStructField env0 (some (.int 8 0)) "-0".toList "int8".toList false
      = .ok (some (.int 8 0)) :=
  ⟨rfl, rfl, rfl, rfl⟩

/-! ## The write-back of Populate -/

theorem cut_name (name rest : Str) (h : ':' ∉ name) :
    cut ":".toList (name ++ ':' :: rest) = some (name, rest) := by
  induction name with
  | nil =>
    have : startsWith (':' :: rest) ":".toList = true := by
      show ((':' == ':') && startsWith rest []) = true
      cases rest <;> rfl
    rw [List.nil_append, cut, if_pos this]
    rfl
  | cons c cs ih =>
    have hc : c ≠ ':' := fun e => h (by simp [e])
    have hcs : ':' ∉ cs := fun e => h (by simp [e])
    rw [List.cons_append, cut, if_neg (by
      rw [show ":".toList = [':'] from rfl, startsWith_head_ne c ':' _ [] hc]; simp), ih hcs]

theorem squeeze_name (name ty : Str) (h : ∀ c, c ∈ name → isSpace c = false) :
    ∃ d, squeeze (name ++ ':' :: ty) = name ++ ':' :: d := by
  have hblank : ' ' ∉ name := fun hm => absurd (h ' ' hm) (by decide)
  have h1 : ReplaceAll (name ++ ':' :: ty) "  ".toList " ".toList
      = name ++ ':' :: replaceFrom "  ".toList " ".toList 0 ty := by
    show replaceFrom "  ".toList " ".toList 0 (name ++ (':' :: ty)) = _
    rw [show "  ".toList = ' ' :: [' '] from rfl, replaceFrom_free ' ' [' '] _ name _ hblank]
    rw [replaceFrom, if_neg (by rw [startsWith_head_ne ':' ' ' _ _ (by decide)]; simp)]
  unfold squeeze TrimSpace
  rw [h1]
  generalize replaceFrom "  ".toList " ".toList 0 ty = ty2
  have h2 : (name ++ ':' :: ty2).dropWhile isSpace = name ++ ':' :: ty2 := by
    cases name with
    | nil => simp [List.dropWhile, show isSpace ':' = false from by decide]
    | cons c cs => simp [List.dropWhile, h c (by simp)]
  rw [h2]
  have h3 : (name ++ ':' :: ty2).reverse = ty2.reverse ++ ':' :: name.reverse := by simp
  rw [h3]
  obtain ⟨A, hA⟩ := dropWhile_split isSpace ':' (by decide) name.reverse ty2.reverse
  rw [hA]
  exact ⟨A.reverse, by simp⟩

theorem formatLoop_ok_Value (env : Env) (src : Source) (field : StructField) (index : Nat)
    (order : List Token) (s r : Str) (hmem : Token.Value ∈ order)
    (h : formatLoop env src field index order s = .ok r) :
    ∃ v, Field env .Value src field index = .ok v := by
  induction order generalizing s with
  | nil => simp at hmem
  | cons t rest ih =>
    rw [formatLoop] at h
    cases hF : Field env t src field index with
    | error e => rw [hF] at h; cases h
    | ok v =>
      rw [hF] at h
      rcases List.mem_cons.mp hmem with rfl | hm
      · exact ⟨v, hF⟩
      · exact ih _ hm h

theorem FormatField_ok_Value (env : Env) (hwf : env.wf) (src : Source) (format : Str)
    (field : StructField) (index : Nat) (x : Str)
    (h : src.FormatField env format field index = .ok x) :
    ∃ v, Field env .Value src field index = .ok v := by
  unfold Source.FormatField at h
  cases hL : formatLoop env src field index env.order format with
  | error e => rw [hL] at h; cases h
  | ok r =>
    have hmem : Token.Value ∈ env.order := (hwf.mem_iff).mpr (by decide)
    exact formatLoop_ok_Value env src field index env.order format r hmem hL

/-- The text `Populate` derives for a field splits into the declared name and a
destination type. -/
theorem FormatField_raw (env : Env) (hwf : env.wf) (src : Source) (field : StructField)
    (index : Nat) (x : Str)
    (hname : ∀ c, c ∈ field.Name → c ≠ '%' ∧ c ≠ ':' ∧ isSpace c = false)
    (hty : '%' ∉ field.TypeName)
    (h : src.FormatField env "%RawName:%Variable".toList field index = .ok x) :
    ∃ d, SplitN2 x ":".toList = [field.Name, d] := by
  have hV := FormatField_ok_Value env hwf src _ field index x h
  have hp : Seg.plain (valOf env src field index) rawSegs :=
    ⟨fun hm => (hname _ hm).1 rfl, by decide, hty, trivial⟩
  have := FormatField_plain env hwf src field index hV rawSegs hp
  rw [show Seg.flat rawSegs = "%RawName:%Variable".toList from rfl, h] at this
  cases this
  have hr : Seg.render (valOf env src field index) rawSegs
      = field.Name ++ ':' :: field.TypeName := by
    simp [rawSegs, Seg.render, valOf, Field]
  rw [hr]
  obtain ⟨d, hd⟩ := squeeze_name field.Name field.TypeName (fun c hc => (hname c hc).2.2)
  refine ⟨d, ?_⟩
  rw [hd, SplitN2, cut_name field.Name d (fun hm => (hname _ hm).2.1 rfl)]

theorem setField_get_other (fs : List (StructField × GoValue)) (name : Str) (x : GoValue)
    (j : Nat) (fv : StructField × GoValue) (h : fs.get? j = some fv) (hne : fv.1.Name ≠ name) :
    (setField fs name x).get? j = some fv := by
  induction fs generalizing j with
  | nil => simp at h
  | cons a rest ih =>
    obtain ⟨f, v⟩ := a
    cases j with
    | zero =>
      simp at h
      subst h
      simp only [setField]
      rw [if_neg hne]
      rfl
    | succ j =>
      simp only [setField]
      by_cases hf : f.Name = name
      · rw [if_pos hf]
        simpa using h
      · rw [if_neg hf]
        simpa using ih j (by simpa using h)

theorem setField_descriptors (fs : List (StructField × GoValue)) (name : Str) (x : GoValue) :
    (setField fs name x).map Prod.fst = fs.map Prod.fst := by
  induction fs with
  | nil => rfl
  | cons a rest ih =>
    obtain ⟨f, v⟩ := a
    simp only [setField]
    by_cases hf : f.Name = name
    · rw [if_pos hf]
      rfl
    · rw [if_neg hf]
      simp [ih]

theorem index_ok {α : Type} (xs : List α) (i : Nat) (x : α) (h : index xs i = .ok x) :
    xs.get? i = some x := by
  unfold index at h
  cases hg : xs.get? i with
  | none => rw [hg] at h; cases h
  | some y => rw [hg] at h; cases h; rfl

/-- The write-back loop changes only fields named by an entry whose column is not
empty. -/
theorem populateLoop_frame (env : Env) (result : List Str) (is_recursive : Bool)
    (L : List Str) (U : List (StructField × GoValue))
    (hLU : List.Forall₂ (fun x u => ∃ d, SplitN2 x ":".toList = [u.1.Name, d]) L U)
    (k : Nat) (t : Struct) (hw : Bool) (t2 : Struct) (hw2 : Bool)
    (h : populateLoop env result is_recursive k L (t, hw) = .ok (t2, hw2)) :
    t2.TypeName = t.TypeName ∧ t2.fields.map Prod.fst = t.fields.map Prod.fst ∧
    ∀ j fv, t.fields.get? j = some fv →
      (∀ k2 u, U.get? k2 = some u → u.1.Name = fv.1.Name → result.get? (k + k2) = some []) →
      t2.fields.get? j = some fv := by
  induction hLU generalizing k t hw with
  | nil =>
    simp only [populateLoop] at h
    cases h
    exact ⟨rfl, rfl, fun j fv hj _ => hj⟩
  | @cons x u L1 U1 hxu _ ih =>
    obtain ⟨d, hd⟩ := hxu
    rw [populateLoop] at h
    cases hr : index result k with
    | error e => rw [hr] at h; cases h
    | ok r =>
      rw [hr] at h
      simp only [] at h
      have shift : ∀ (_j : Nat) (fv : StructField × GoValue),
          (∀ k2 u2, (u :: U1).get? k2 = some u2 → u2.1.Name = fv.1.Name →
            result.get? (k + k2) = some []) →
          (∀ k2 u2, U1.get? k2 = some u2 → u2.1.Name = fv.1.Name →
            result.get? (k + 1 + k2) = some []) := by
        intro _ fv hcond k2 u2 hk2 hn
        have := hcond (k2 + 1) u2 (by simpa using hk2) hn
        rwa [show k + (k2 + 1) = k + 1 + k2 by omega] at this
      by_cases hlen : (r.length == 0) = true
      · rw [if_pos hlen] at h
        obtain ⟨h1, h2, h3⟩ := ih (k + 1) t hw h
        exact ⟨h1, h2, fun j fv hj hcond => h3 j fv hj (shift j fv hcond)⟩
      · rw [if_neg hlen] at h
        simp only [hd, index, List.get?] at h
        cases hS : setStructField env (Struct.FieldByName t.fields u.1.Name) r d is_recursive with
        | error e => rw [hS] at h; cases h
        | ok stored =>
          rw [hS] at h
          cases stored with
          | none =>
            simp only [] at h
            obtain ⟨h1, h2, h3⟩ := ih (k + 1) t true h
            exact ⟨h1, h2, fun j fv hj hcond => h3 j fv hj (shift j fv hcond)⟩
          | some v =>
            simp only [] at h
            obtain ⟨h1, h2, h3⟩ := ih (k + 1) _ true h
            refine ⟨h1, by rw [h2]; exact setField_descriptors _ _ _, fun j fv hj hcond => ?_⟩
            have hne : fv.1.Name ≠ u.1.Name := by
              intro heq
              have := hcond 0 u rfl heq.symm
              rw [Nat.add_zero, index_ok _ _ _ hr] at this
              cases this
              exact hlen rfl
            exact h3 j fv (setField_get_other _ _ _ j fv hj hne) (shift j fv hcond)

theorem definedIs_iff (b : Bool) (v : GoValue) :
    definedIs b v = true ↔ isFieldDefined v = .ok b := by
  unfold definedIs
  cases isFieldDefined v with
  | error e =>
    constructor
    · intro h; cases h
    · intro h; cases h
  | ok d =>
    constructor
    · intro h
      have : b = d := by simpa using h
      rw [this]
    · intro h
      cases h
      simp

theorem propertiesFrom_raw (env : Env) (hwf : env.wf) (src : Source) (i : Nat)
    (l : List (StructField × GoValue)) (L : List Str)
    (hl : ∀ fv, fv ∈ l →
      (∀ c, c ∈ fv.1.Name → c ≠ '%' ∧ c ≠ ':' ∧ isSpace c = false) ∧ '%' ∉ fv.1.TypeName)
    (h : propertiesFrom env src "%RawName:%Variable".toList false i l = .ok L) :
    List.Forall₂ (fun x u => ∃ d, SplitN2 x ":".toList = [u.1.Name, d]) L
      (l.filter (fun fv => definedIs false fv.2)) := by
  induction l generalizing i L with
  | nil =>
    simp only [propertiesFrom] at h
    cases h
    exact List.Forall₂.nil
  | cons fv rest ih =>
    have hrest : ∀ fv2, fv2 ∈ rest → _ := fun fv2 hm => hl fv2 (List.mem_cons_of_mem _ hm)
    rw [propertiesFrom] at h
    cases hD : isFieldDefined fv.2 with
    | error e => rw [hD] at h; cases h
    | ok d =>
    rw [hD] at h
    simp only [] at h
    cases d with
    | true =>
      rw [if_neg (by decide)] at h
      rw [List.filter_cons_of_neg (by simp [definedIs, hD])]
      exact ih (i + 1) L hrest h
    | false =>
      rw [if_pos (by decide)] at h
      rw [List.filter_cons_of_pos (by simp [definedIs, hD])]
      cases hF : src.FormatField env "%RawName:%Variable".toList fv.1 i with
      | error e => rw [hF] at h; cases h
      | ok x =>
        rw [hF] at h
        simp only [] at h
        cases hR : propertiesFrom env src "%RawName:%Variable".toList false (i + 1) rest with
        | error e => rw [hR] at h; cases h
        | ok xs =>
          rw [hR] at h
          cases h
          have hfv := hl fv (List.mem_cons_self _ _)
          exact List.Forall₂.cons (FormatField_raw env hwf src fv.1 i x hfv.1 hfv.2 hF)
            (ih (i + 1) xs hrest hR)

theorem undefinedFrom_align (i : Nat) (l : List (StructField × GoValue)) :
    List.Forall₂
      (fun j u => i ≤ j ∧ l.get? (j - i) = some u ∧ isFieldDefined u.2 = .ok false)
      (undefinedFrom i l) (l.filter (fun fv => definedIs false fv.2)) := by
  induction l generalizing i with
  | nil => exact List.Forall₂.nil
  | cons fv rest ih =>
    have hstep : List.Forall₂
        (fun j u => i ≤ j ∧ (fv :: rest).get? (j - i) = some u ∧
          isFieldDefined u.2 = .ok false)
        (undefinedFrom (i + 1) rest) (rest.filter (fun fv => definedIs false fv.2)) := by
      refine List.Forall₂.imp ?_ (ih (i + 1))
      intro j u ⟨h1, h2, h3⟩
      refine ⟨by omega, ?_, h3⟩
      rw [show j - i = (j - (i + 1)) + 1 by omega]
      simpa using h2
    rw [undefinedFrom]
    by_cases hdef : definedIs false fv.2 = true
    · rw [if_pos hdef, List.filter_cons_of_pos (by simpa using hdef)]
      exact List.Forall₂.cons ⟨Nat.le_refl _, by simp, (definedIs_iff _ _).mp hdef⟩ hstep
    · rw [if_neg hdef, List.filter_cons_of_neg (by simpa using hdef)]
      exact hstep

theorem Forall₂_get_right {α β : Type} (R : α → β → Prop) (l1 : List α) (l2 : List β)
    (h : List.Forall₂ R l1 l2) (k : Nat) (b : β) (hk : l2.get? k = some b) :
    ∃ a, l1.get? k = some a ∧ R a b := by
  induction h generalizing k with
  | nil => simp at hk
  | @cons a0 b0 t1 t2 hab _ ih =>
    cases k with
    | zero =>
      simp at hk
      subst hk
      exact ⟨a0, rfl, hab⟩
    | succ k =>
      obtain ⟨a, ha, hR⟩ := ih k (by simpa using hk)
      exact ⟨a, by simpa using ha, hR⟩

theorem names_index_inj (l : List (StructField × GoValue))
    (hnd : (l.map (fun fv => fv.1.Name)).Nodup) (a b : Nat) (x y : StructField × GoValue)
    (ha : l.get? a = some x) (hb : l.get? b = some y) (hxy : x.1.Name = y.1.Name) : a = b := by
  induction l generalizing a b with
  | nil => simp at ha
  | cons z rest ih =>
    rw [List.map_cons, List.nodup_cons] at hnd
    cases a with
    | zero =>
      cases b with
      | zero => rfl
      | succ b =>
        exfalso
        simp at ha
        subst ha
        have hy : y ∈ rest := List.get?_mem (by simpa using hb)
        exact hnd.1 (List.mem_map.mpr ⟨y, hy, hxy.symm⟩)
    | succ a =>
      cases b with
      | zero =>
        exfalso
        simp at hb
        subst hb
        have hx : x ∈ rest := List.get?_mem (by simpa using ha)
        exact hnd.1 (List.mem_map.mpr ⟨x, hx, hxy⟩)
      | succ b =>
        have := ih hnd.2 a b (by simpa using ha) (by simpa using hb)
        omega

theorem Populate_parts {σ : Type} (env : Env) (db : Database σ) (sess : Session σ)
    (table : Struct) (is_recursive : Bool) (res : (Struct × Bool) × Session σ)
    (hrun : Populate env db sess table is_recursive = .ok res) :
    ∃ queryProps emptyProps emptyFields rows result,
      GetProperties env (some table) "%Name=%Value".toList true = .ok queryProps ∧
      GetProperties env (some table) "%SQLName".toList false = .ok emptyProps ∧
      GetProperties env (some table) "%RawName:%Variable".toList false = .ok emptyFields ∧
      db.Query sess.state (Sprintf env.IsPrint "SELECT %s FROM %s WHERE %s LIMIT 1".toList
        [Join emptyProps ", ".toList, (NewSource (some table)).Name env,
          Join queryProps " AND ".toList]) = .ok rows ∧
      getQueryResult rows rows.Columns = .ok result ∧
      populateLoop env result is_recursive 0 emptyFields (table, false) = .ok res.1 ∧
      res.2 = ⟨sess.state, sess.log ++ [.query (Sprintf env.IsPrint
        "SELECT %s FROM %s WHERE %s LIMIT 1".toList
        [Join emptyProps ", ".toList, (NewSource (some table)).Name env,
          Join queryProps " AND ".toList])]⟩ := by
  unfold Populate at hrun
  simp only [] at hrun
  cases h1 : GetProperties env (some table) "%Name=%Value".toList true with
  | error e => rw [h1] at hrun; simp at hrun
  | ok queryProps =>
    cases h2 : GetProperties env (some table) "%SQLName".toList false with
    | error e => rw [h1, h2] at hrun; simp at hrun
    | ok emptyProps =>
      cases h3 : GetProperties env (some table) "%RawName:%Variable".toList false with
      | error e => rw [h1, h2, h3] at hrun; simp at hrun
      | ok emptyFields =>
        rw [h1, h2, h3] at hrun
        simp only [] at hrun
        cases h4 : db.Query sess.state (Sprintf env.IsPrint
            "SELECT %s FROM %s WHERE %s LIMIT 1".toList
            [Join emptyProps ", ".toList, (NewSource (some table)).Name env,
              Join queryProps " AND ".toList]) with
        | error e => rw [h4] at hrun; cases hrun
        | ok rows =>
          rw [h4] at hrun
          simp only [] at hrun
          cases h5 : getQueryResult rows rows.Columns with
          | error e => rw [h5] at hrun; cases hrun
          | ok result =>
            rw [h5] at hrun
            simp only [] at hrun
            cases h6 : populateLoop env result is_recursive 0 emptyFields (table, false) with
            | error e => rw [h6] at hrun; cases hrun
            | ok out =>
              rw [h6] at hrun
              cases hrun
              exact ⟨queryProps, emptyProps, emptyFields, rows, result, rfl, rfl, rfl, h4, h5, h6,
                rfl⟩

/-! ## C8, C9: what Populate writes and what it reports -/

/-- C8: for every entity and every fetched row, the entity `Populate` returns agrees
with the input on every field that is defined in the input and on every undefined
field whose decoded column is the empty string (and on the field at index 0, which
is never selected): only an undefined field with a non-empty decoded column can
differ.  The type and the field descriptors are those of the input. -/
theorem Populate_frame {σ : Type} (env : Env) (hwf : env.wf) (db : Database σ)
    (sess : Session σ) (table : Struct) (hs : table.wellFormed) (is_recursive : Bool)
    (out : Struct) (has_written : Bool) (sess2 : Session σ)
    (hrun : Populate env db sess table is_recursive = .ok ((out, has_written), sess2)) :
    ∃ text rows result, sess2.log = sess.log ++ [.query text] ∧
      db.Query sess.state text = .ok rows ∧ getQueryResult rows rows.Columns = .ok result ∧
      out.TypeName = table.TypeName ∧ out.fields.map Prod.fst = table.fields.map Prod.fst ∧
      ∀ j fv, table.fields.get? j = some fv →
        (j = 0 ∨ isFieldDefined fv.2 = .ok true ∨
          ∀ k, (undefinedFrom 1 (table.fields.drop 1)).get? k = some j →
            result.get? k = some []) →
        out.fields.get? j = some fv := by
  obtain ⟨queryProps, emptyProps, emptyFields, rows, result, _, _, h3, h4, h5, h6, h7⟩ :=
    Populate_parts env db sess table is_recursive _ hrun
  have h7b : sess2 = _ := h7
  refine ⟨_, rows, result, by rw [h7b], h4, h5, ?_⟩
  have hL := propertiesFrom_raw env hwf (NewSource (some table)) 1 (table.fields.drop 1)
    emptyFields (fun fv hm => hs.2 fv (List.mem_of_mem_drop hm)) h3
  obtain ⟨g1, g2, g3⟩ := populateLoop_frame env result is_recursive emptyFields _ hL 0 table
    false out has_written h6
  refine ⟨g1, g2, fun j fv hj hcond => g3 j fv hj ?_⟩
  intro k2 u hu hname
  rw [Nat.zero_add]
  obtain ⟨j2, hj2, hle, hget, hundef⟩ :=
    Forall₂_get_right _ _ _ (undefinedFrom_align 1 (table.fields.drop 1)) k2 u hu
  have hget2 : table.fields.get? j2 = some u := by
    rw [List.get?_eq_getElem?, List.getElem?_drop, show 1 + (j2 - 1) = j2 by omega] at hget
    rw [List.get?_eq_getElem?]
    exact hget
  have hjj : j2 = j := names_index_inj table.fields hs.1 j2 j u fv hget2 hj hname
  subst hjj
  have huf : u = fv := by
    rw [hget2] at hj
    exact Option.some.inj hj
  subst huf
  rcases hcond with h0 | hd | hk
  · omega
  · rw [hd] at hundef
    cases hundef
  · exact hk k2 hj2

/-- C8 on the documented entity with only its key set, the row holding `Bob` and an
empty text: `Name` is written, `Active` keeps its value. -/
theorem Populate_frame_witness :
    entityKeyOnly.wellFormed ∧
    Populate env0 bobDB start0 entityKeyOnly false
      = .ok ((entityBob, true),
          ⟨(), [.query "SELECT name, active FROM entity WHERE entity_id=\"a1\" LIMIT 1".toList]⟩) ∧
    ∃ text rows result,
      [Issued.query "SELECT name, active FROM entity WHERE entity_id=\"a1\" LIMIT 1".toList]
        = start0.log ++ [.query text] ∧
      bobDB.Query start0.state text = .ok rows ∧ getQueryResult rows rows.Columns = .ok result ∧
      entityBob.TypeName = entityKeyOnly.TypeName ∧
      entityBob.fields.map Prod.fst = entityKeyOnly.fields.map Prod.fst ∧
      ∀ j fv, entityKeyOnly.fields.get? j = some fv →
        (j = 0 ∨ isFieldDefined fv.2 = .ok true ∨
          ∀ k, (undefinedFrom 1 (entityKeyOnly.fields.drop 1)).get? k = some j →
            result.get? k = some []) →
        entityBob.fields.get? j = some fv :=
  ⟨by decide, rfl,
   Populate_frame env0 (List.Perm.refl _) bobDB start0 entityKeyOnly (by decide) false
     entityBob true
     ⟨(), [.query "SELECT name, active FROM entity WHERE entity_id=\"a1\" LIMIT 1".toList]⟩ rfl⟩

/-- C9: on the documented `MyTable` with its foreign key `FkAnimal` undefined and
`Animal` registered, the row holding `7` for `fk_animal_id` makes `Populate` return
`true` although `setStructField` performs no `Set` on the field (its type name
`Animal` falls in the default case) and the entity returned is the input. -/
theorem Populate_reports_unwritten :
    Populate env1 (answerDB ["fk_animal_id".toList] [some "7".toList]) start0 entityMyTable false
      = .ok ((entityMyTable, true),
          ⟨(), [.query ("SELECT fk_animal_id FROM my_table WHERE my_table_id=\"hello\"" ++
            " LIMIT 1").toList]⟩) ∧
    setStructField env1 (Struct.FieldByName entityMyTable.fields "FkAnimal".toList) "7".toList
      "Animal".toList false = .ok none :=
  ⟨rfl, rfl⟩

/-! ## C12: timestamp fields -/

/-- C12, as stated, fails on an unexported field: the field `created int64` tagged
`type:"timestamp"` holds the integer 1700000000, and the `%Value` handler, which
calls `Interface` on the value, panics; so does `FormatField` with any template. -/
theorem timestamp_unexported_counterexample :
    (NewSource (some entityStamped)).VField 2 = .ok (.hidden (.int 64 1700000000)) ∧
    Field env0 .Value (NewSource (some entityStamped))
      (mkField "created" "int64" "timestamp" "") 2 = .error .reflect ∧
    (NewSource (some entityStamped)).FormatField env0 "%Value".toList
      (mkField "created" "int64" "timestamp" "") 2 = .error .reflect :=
  ⟨rfl, rfl, rfl⟩

/-- C12, amended: for every field that is not a foreign key: when it is tagged
`type:"timestamp"`, is exported and holds an integer `n`, signed or unsigned,
`%Value` renders `FROM_UNIXTIME(<decimal n>)`; when it is tagged so, `%SQLName`
renders `UNIX_TIMESTAMP(<name>)` with `<name>` the `%Name` of the field; with any
other type tag `%SQLName` equals `%Name`.  On an unexported field that holds no
struct the `%Value` handler panics, whatever the tag. -/
theorem timestamp_tokens (env : Env) (entity : Struct) (field : StructField) (index : Nat)
    (hfk : startsWith field.Name "Fk".toList = false) :
    (field.Tag.Get "type".toList = "timestamp".toList →
      (∀ bits n, (NewSource (some entity)).VField index = .ok (.int bits n) →
        Field env .Value (NewSource (some entity)) field index
          = .ok ("FROM_UNIXTIME(".toList ++ decimalInt n ++ ")".toList)) ∧
      (∀ bits n, (NewSource (some entity)).VField index = .ok (.uint bits n) →
        Field env .Value (NewSource (some entity)) field index
          = .ok ("FROM_UNIXTIME(".toList ++ decimalNat n ++ ")".toList)) ∧
      ∃ name, Field env .Name (NewSource (some entity)) field index = .ok name ∧
        Field env .SQLName (NewSource (some entity)) field index
          = .ok ("UNIX_TIMESTAMP(".toList ++ name ++ ")".toList)) ∧
    (field.Tag.Get "type".toList ≠ "timestamp".toList →
      Field env .SQLName (NewSource (some entity)) field index
        = Field env .Name (NewSource (some entity)) field index) ∧
    (∀ v, (NewSource (some entity)).VField index = .ok (.hidden v) →
      (∀ t fs, v ≠ .struct t fs) →
      Field env .Value (NewSource (some entity)) field index = .error .reflect) := by
  have hT : getType env (NewSource (some entity)) field index = field.Tag.Get "type".toList := by
    simp only [getType]
    rw [if_neg (by rw [hfk]; decide)]
  refine ⟨?_, ?_, ?_⟩
  · intro ht
    refine ⟨fun bits n hv => ?_, fun bits n hv => ?_, _, rfl, ?_⟩
    · simp only [Field, hv, renderValue]
      rw [if_pos ht]
      rfl
    · simp only [Field, hv, renderValue]
      rw [if_pos ht]
      rfl
    · simp only [Field]
      rw [if_pos (by rw [hT]; exact ht)]
  · intro ht
    simp only [Field]
    rw [if_neg (by rw [hT]; exact ht)]
  · intro v hv hns
    simp only [Field, hv]
    cases v with
    | struct t fs => exact absurd rfl (hns t fs)
    | _ => rfl

/-- An entity with a timestamp field holding 1700000000. -/
theorem timestamp_tokens_witness :
    Field env0 .Value
        (NewSource (some ⟨"Entity".toList,
          [tableHandle, (mkField "Created" "int64" "timestamp" "", .int 64 1700000000)]⟩))
        (mkField "Created" "int64" "timestamp" "") 1
      = .ok "FROM_UNIXTIME(1700000000)".toList :=
  ((timestamp_tokens env0 ⟨"Entity".toList,
      [tableHandle, (mkField "Created" "int64" "timestamp" "", .int 64 1700000000)]⟩
    (mkField "Created" "int64" "timestamp" "") 1 rfl).1 rfl).1 64 1700000000 rfl

/-! ## C13, C14: foreign keys and the registry -/

/-- C13: after `RegisterTables(Animal{...})` the entity is stored under `animal`, and
the `%Type` of the field `FkAnimal Animal` is looked up under the type name
`Animal`: the lookup misses and `%Type` renders the empty text, not `animal`. -/
theorem foreignKey_type_empty :
    env1.Tables.map (fun kv => kv.1) = ["animal".toList] ∧
    env1.lookup "Animal".toList = none ∧
    Field env1 .Type (NewSource (some (myTableOf "dog2"))) fkAnimal 2 = .ok [] ∧
    env1.SnakeCase "Animal".toList = "animal".toList :=
  ⟨rfl, rfl, rfl, rfl⟩

/-- C14: with `Animal` registered by a representative whose `Id` is `cat1`, two
`MyTable` entities whose `FkAnimal` hold animals of `Id` `dog2` and `cow3` both
render `cat1` for `%Value`, and `ClaimEntity` places `cat1` in the column
`fk_animal_id` of its `INSERT`. -/
theorem foreignKey_value_of_registry :
    Struct.FieldByName entityAnimal.fields "Id".toList = some (.str "cat1".toList) ∧
    Field env1 .Value (NewSource (some (myTableOf "dog2"))) fkAnimal 2 = .ok "cat1".toList ∧
    Field env1 .Value (NewSource (some (myTableOf "cow3"))) fkAnimal 2 = .ok "cat1".toList ∧
    ClaimEntity env1 nullDB start0 (myTableOf "dog2")
      = .ok (myTableOf "dog2", ⟨(),
          [.query "SELECT my_table_id FROM my_table WHERE my_table_id=\"\\\"hello\\\"\"".toList,
           .exec "INSERT INTO my_table (my_table_id,fk_animal_id) VALUES (\"hello\",cat1)".toList]⟩) :=
  ⟨rfl, rfl, rfl, rfl⟩

/-! ## C17: the recursive flag -/

theorem setStructField_flag (env : Env) (field : Option GoValue) (value destType : Str) :
    setStructField env field value destType true
      = setStructField env field value destType false := by
  unfold setStructField
  simp

theorem populateLoop_flag (env : Env) (result : List Str) (L : List Str) (k : Nat)
    (acc : Struct × Bool) :
    populateLoop env result true k L acc = populateLoop env result false k L acc := by
  induction L generalizing k acc with
  | nil => rfl
  | cons x rest ih =>
    obtain ⟨t, hw⟩ := acc
    simp only [populateLoop, setStructField_flag, ih]

/-- C17: the recursive flag is without effect: `setStructField` gives the same
result for both values of the flag on every field, decoded value and type name;
`Populate` returns the same entity and the same boolean for both, or fails for
both; and a call that returns has sent one statement, its `SELECT`, and no other. -/
theorem recursive_flag_inert (env : Env) :
    (∀ (field : Option GoValue) (value destType : Str),
      setStructField env field value destType true
        = setStructField env field value destType false) ∧
    (∀ (σ : Type) (db : Database σ) (sess : Session σ) (table : Struct),
      Populate env db sess table true = Populate env db sess table false) ∧
    (∀ (σ : Type) (db : Database σ) (sess : Session σ) (table : Struct) (flag : Bool)
      (res : (Struct × Bool) × Session σ),
      Populate env db sess table flag = .ok res →
        ∃ text, res.2.log = sess.log ++ [.query text]) := by
  refine ⟨setStructField_flag env, fun σ db sess table => ?_, ?_⟩
  · simp only [Populate, populateLoop_flag]
  · intro σ db sess table flag res hrun
    obtain ⟨_, _, _, _, _, _, _, _, _, _, _, h7⟩ := Populate_parts env db sess table flag res hrun
    exact ⟨_, by rw [h7]⟩

/-- C17 on the documented entity with only its key set. -/
theorem recursive_flag_inert_witness :
    ∃ text, [Issued.query "SELECT name, active FROM entity WHERE entity_id=\"a1\" LIMIT 1".toList]
      = start0.log ++ [.query text] :=
  (recursive_flag_inert env0).2.2 Unit bobDB start0 entityKeyOnly true
    ((entityBob, true),
      ⟨(), [.query "SELECT name, active FROM entity WHERE entity_id=\"a1\" LIMIT 1".toList]⟩) rfl

/-! ## C18: the order of the handlers -/

/-- C18: the string field `Note` holds the text `%Type`; rendered with the template
`%Value`, it gives the quoted `%Type` when the `%Type` handler is visited before
the `%Value` handler, and the quoted type tag when `%Value` is visited first.
Both orders visit each of the nine tokens once. -/
theorem FormatField_order_dependent :
    env0.wf ∧ envValueFirst.wf ∧
    (NewSource (some entityNote)).FormatField env0 "%Value".toList noteField 2
      = .ok "\"%Type\"".toList ∧
    (NewSource (some entityNote)).FormatField envValueFirst "%Value".toList noteField 2
      = .ok "\"varchar(64)\"".toList :=
  ⟨List.Perm.refl _, by unfold Env.wf; decide, rfl, rfl⟩

/-! ## C20: JoinMapValues -/

/-- C20: for the one-entry map `k: v` and the separator `,` the code returns `,v`:
the slice joined starts with one empty string.  For every one-entry map the result
is the separator followed by the value. -/
theorem JoinMapValues_leading_separator :
    JoinMapValues [("k".toList, "v".toList)] ",".toList = ",v".toList ∧
    (∀ (k v sep : Str), JoinMapValues [(k, v)] sep = sep ++ v) ∧
    JoinMapValues [] ",".toList = [] := by
  refine ⟨rfl, fun k v sep => ?_, rfl⟩
  simp [JoinMapValues, Join, List.intercalate, List.intersperse]

/-! ## C15: the fields GetProperties selects -/

theorem isFieldDefined_ok (v : GoValue) (h1 : v.CanInterface = true)
    (h2 : v.Comparable = true) : isFieldDefined v = .ok (!v.isZero) := by
  cases v with
  | hidden w => cases h1
  | str _ => rfl
  | bool _ => rfl
  | int _ _ => rfl
  | uint _ _ => rfl
  | other kind z text c =>
    have hc : c = true := h2
    subst hc
    rfl
  | struct t fs =>
    unfold isFieldDefined
    simp only [GoValue.Interface]
    rw [if_pos h2]

theorem isFieldDefined_held (v : GoValue) (b : Bool) (h : isFieldDefined v = .ok b) :
    v.held = v := by
  cases v with
  | hidden w => cases h
  | _ => rfl

theorem propertiesFrom_eq (env : Env) (src : Source) (format : Str) (b : Bool) (i : Nat)
    (l : List (StructField × GoValue))
    (hl : ∀ fv, fv ∈ l → fv.2.CanInterface = true ∧ fv.2.Comparable = true) :
    propertiesFrom env src format b i l
      = formatAll env src format ((numbered i l).filter (fun p => b == !p.2.2.isZero)) := by
  induction l generalizing i with
  | nil => rfl
  | cons fv rest ih =>
    have hD := isFieldDefined_ok fv.2 (hl fv (List.mem_cons_self _ _)).1
      (hl fv (List.mem_cons_self _ _)).2
    have hrest := ih (i + 1) (fun fv2 hm => hl fv2 (List.mem_cons_of_mem _ hm))
    rw [propertiesFrom, numbered, hD]
    simp only []
    by_cases h : (b == !fv.2.isZero) = true
    · rw [if_pos h, List.filter_cons_of_pos (by simpa using h), formatAll, hrest]
    · rw [if_neg h, List.filter_cons_of_neg (by simpa using h), hrest]

theorem numbered_fst {α : Type} (i : Nat) (l : List α) :
    (numbered i l).map Prod.fst = List.range' i l.length := by
  induction l generalizing i with
  | nil => rfl
  | cons x rest ih => simp [numbered, ih, List.range'_succ]

theorem numbered_get {α : Type} (i : Nat) (l : List α) (j : Nat) (x : α) :
    (j, x) ∈ numbered i l ↔ i ≤ j ∧ l.get? (j - i) = some x := by
  induction l generalizing i with
  | nil => simp [numbered]
  | cons y rest ih =>
    simp only [numbered, List.mem_cons, Prod.mk.injEq, ih]
    constructor
    · rintro (⟨rfl, rfl⟩ | ⟨h1, h2⟩)
      · simp
      · refine ⟨by omega, ?_⟩
        rw [show j - i = (j - (i + 1)) + 1 by omega]
        simpa using h2
    · rintro ⟨h1, h2⟩
      by_cases hj : j = i
      · subst hj
        simp at h2
        exact Or.inl ⟨rfl, h2.symm⟩
      · right
        refine ⟨by omega, ?_⟩
        rw [show j - i = (j - (i + 1)) + 1 by omega] at h2
        simpa using h2

/-- C15, as stated, fails: the field `Tags []string` of an entity differs from the
zero value of its type, and `FormatField` renders it, but `GetProperties` returns
no list, for either flag: the comparison of `isFieldDefined` panics on a type that
is not comparable.  On an entity with an unexported field `Interface` panics. -/
theorem GetProperties_panic_counterexample :
    entityTagged.fields.get? 2
      = some (mkField "Tags" "" "text" "", .other "slice".toList false "[x]".toList false) ∧
    (GoValue.other "slice".toList false "[x]".toList false).isZero = false ∧
    (NewSource (some entityTagged)).FormatField env0 "%Name".toList
      (mkField "Tags" "" "text" "") 2 = .ok "tags".toList ∧
    GetProperties env0 (some entityTagged) "%Name".toList true = .error .compare ∧
    GetProperties env0 (some entityTagged) "%Name".toList false = .error .compare ∧
    GetProperties env0 (some entityUnexported) "%Name".toList true = .error .reflect ∧
    GetProperties env0 (some entityUnexported) "%Name".toList false = .error .reflect :=
  ⟨rfl, rfl, rfl, rfl, rfl, rfl, rfl⟩

/-- C15, amended: for every entity whose fields of index 1 or more are exported and
of a comparable type, every format and flag `b`, `GetProperties` is `FormatField`
applied, in order, to the fields of index 1 or more that are defined (`b` true) or
undefined (`b` false), a field being defined when its value is not the zero value
of its type.  The selection does not depend on the format; it is taken in
increasing index out of the indices from 1 to the last, each once; and the selection
for `true` and the one for `false` together hold each of these fields once. -/
theorem GetProperties_selection (env : Env) (entity : Struct) (format : Str) (b : Bool)
    (hfields : ∀ fv, fv ∈ entity.fields.drop 1 →
      fv.2.CanInterface = true ∧ fv.2.Comparable = true) :
    GetProperties env (some entity) format b
      = formatAll env (NewSource (some entity)) format (selectFields b entity) ∧
    (selectFields b entity).Sublist (numbered 1 (entity.fields.drop 1)) ∧
    (numbered 1 (entity.fields.drop 1)).map Prod.fst
      = List.range' 1 (entity.fields.length - 1) ∧
    (∀ j fv, (j, fv) ∈ selectFields b entity ↔
      (1 ≤ j ∧ entity.fields.get? j = some fv ∧ fv.2.isZero = !b)) ∧
    (∀ fv, fv ∈ entity.fields.drop 1 → isFieldDefined fv.2 = .ok (!fv.2.isZero)) ∧
    (selectFields true entity ++ selectFields false entity).Perm
      (numbered 1 (entity.fields.drop 1)) := by
  have hdef : ∀ fv, fv ∈ entity.fields.drop 1 → isFieldDefined fv.2 = .ok (!fv.2.isZero) :=
    fun fv hm => isFieldDefined_ok fv.2 (hfields fv hm).1 (hfields fv hm).2
  refine ⟨?_, List.filter_sublist _, ?_, ?_, hdef, ?_⟩
  · simp only [GetProperties, selectFields]
    exact propertiesFrom_eq env _ format b 1 _ hfields
  · rw [numbered_fst, List.length_drop]
  · intro j fv
    simp only [selectFields, List.mem_filter, numbered_get]
    have hz : ((b == !fv.2.isZero) = true) ↔ fv.2.isZero = !b := by
      cases b <;> cases fv.2.isZero <;> decide
    rw [hz]
    constructor
    · rintro ⟨⟨h1, h2⟩, h3⟩
      refine ⟨h1, ?_, h3⟩
      rw [List.get?_eq_getElem?, List.getElem?_drop, show 1 + (j - 1) = j by omega] at h2
      rw [List.get?_eq_getElem?]
      exact h2
    · rintro ⟨h1, h2, h3⟩
      refine ⟨⟨h1, ?_⟩, h3⟩
      rw [List.get?_eq_getElem?, List.getElem?_drop, show 1 + (j - 1) = j by omega]
      rw [List.get?_eq_getElem?] at h2
      exact h2
  · have := List.filter_append_perm (fun p : Nat × (StructField × GoValue) =>
      true == !p.2.2.isZero) (numbered 1 (entity.fields.drop 1))
    refine List.Perm.trans ?_ this
    apply List.Perm.append (List.Perm.refl _)
    apply List.Perm.of_eq
    simp only [selectFields]
    apply List.filter_congr
    intro p _
    cases p.2.2.isZero <;> rfl

/-- The amended C15 on the documented entity with its key and its name set: the
defined fields are `Id` and `Name`, the undefined one is `Active`. -/
theorem GetProperties_selection_witness :
    GetProperties env0 (some entityBob) "%Name".toList true
      = .ok ["entity_id".toList, "name".toList] ∧
    GetProperties env0 (some entityBob) "%Name".toList false = .ok ["active".toList] ∧
    GetProperties env0 (some entityBob) "%Name".toList true
      = formatAll env0 (NewSource (some entityBob)) "%Name".toList
          (selectFields true entityBob) :=
  ⟨rfl, rfl,
   (GetProperties_selection env0 entityBob "%Name".toList true (by decide)).1⟩

/-! ## C16: the normalization of GetSQLWith -/

theorem startsWith_nil (s : Str) : startsWith s [] = true := by
  cases s <;> rfl

/-- A text read at the head of the output of a replacement, none of whose characters
is the first of the replacement text, was read at the head of the input. -/
theorem startsWith_replaceFrom (old : Str) (nh : Char) (nt : Str) (p : Str)
    (hp : ∀ c, c ∈ p → c ≠ nh) (s : Str)
    (h : startsWith (replaceFrom old (nh :: nt) 0 s) p = true) : startsWith s p = true := by
  induction p generalizing s with
  | nil => exact startsWith_nil s
  | cons c p2 ih =>
    have hc : c ≠ nh := hp c (by simp)
    cases s with
    | nil => simp [replaceFrom, startsWith] at h
    | cons x xs =>
      rw [replaceFrom] at h
      by_cases hm : startsWith (x :: xs) old = true
      · rw [if_pos hm] at h
        simp only [List.cons_append, startsWith, Bool.and_eq_true, beq_iff_eq] at h
        exact absurd h.1.symm hc
      · rw [if_neg hm] at h
        simp only [startsWith, Bool.and_eq_true, beq_iff_eq] at h ⊢
        exact ⟨h.1, ih (fun c2 hc2 => hp c2 (by simp [hc2])) xs h.2⟩

theorem Contains_skip_text (new : Str) (qh : Char) (qt : Str) (R : Str) (h : qh ∉ new) :
    Contains (new ++ R) (qh :: qt) = Contains R (qh :: qt) := by
  induction new with
  | nil => rfl
  | cons n rest ih =>
    have hn : n ≠ qh := fun e => h (by simp [e])
    have hr : qh ∉ rest := fun e => h (by simp [e])
    rw [List.cons_append, Contains, startsWith_head_ne n qh _ qt hn, ih hr]
    rfl

theorem Contains_cons_of (x : Char) (xs q : Str) (h : Contains xs q = true) :
    Contains (x :: xs) q = true := by
  simp [Contains, h]

/-- A replacement brings in no occurrence of a text that shares no character with
the replacement text. -/
theorem Contains_replaceFrom (old : Str) (nh : Char) (nt : Str) (qh : Char) (qt : Str)
    (hq : ∀ c, c ∈ qh :: qt → c ∉ nh :: nt) (k : Nat) (s : Str)
    (h : Contains (replaceFrom old (nh :: nt) k s) (qh :: qt) = true) :
    Contains s (qh :: qt) = true := by
  induction s generalizing k with
  | nil => simpa [replaceFrom] using h
  | cons x xs ih =>
    cases k with
    | succ k =>
      rw [replaceFrom] at h
      exact Contains_cons_of x xs _ (ih k h)
    | zero =>
      rw [replaceFrom] at h
      by_cases hm : startsWith (x :: xs) old = true
      · rw [if_pos hm, Contains_skip_text _ _ _ _ (hq qh (by simp))] at h
        exact Contains_cons_of x xs _ (ih _ h)
      · rw [if_neg hm] at h
        have hfull : replaceFrom old (nh :: nt) 0 (x :: xs)
            = x :: replaceFrom old (nh :: nt) 0 xs := by
          rw [replaceFrom, if_neg hm]
        rw [Contains, Bool.or_eq_true] at h
        rcases h with h | h
        · rw [← hfull] at h
          have := startsWith_replaceFrom old nh nt (qh :: qt)
            (fun c hc e => hq c hc (by simp [e])) (x :: xs) h
          simp [Contains, this]
        · exact Contains_cons_of x xs _ (ih 0 h)

/-- After a replacement no occurrence of the replaced text is left, when it shares no
character with the replacement text. -/
theorem replaceFrom_clears (oh : Char) (ot : Str) (nh : Char) (nt : Str)
    (ho : ∀ c, c ∈ oh :: ot → c ∉ nh :: nt) (k : Nat) (s : Str) :
    Contains (replaceFrom (oh :: ot) (nh :: nt) k s) (oh :: ot) = false := by
  induction s generalizing k with
  | nil => cases k <;> rfl
  | cons x xs ih =>
    cases k with
    | succ k =>
      rw [replaceFrom]
      exact ih k
    | zero =>
      rw [replaceFrom]
      by_cases hm : startsWith (x :: xs) (oh :: ot) = true
      · rw [if_pos hm, Contains_skip_text _ _ _ _ (ho oh (by simp))]
        exact ih _
      · rw [if_neg hm]
        have hfull : replaceFrom (oh :: ot) (nh :: nt) 0 (x :: xs)
            = x :: replaceFrom (oh :: ot) (nh :: nt) 0 xs := by
          rw [replaceFrom, if_neg hm]
        rw [Contains, ih 0, Bool.or_false]
        cases hS : startsWith (x :: replaceFrom (oh :: ot) (nh :: nt) 0 xs) (oh :: ot) with
        | false => rfl
        | true =>
          rw [← hfull] at hS
          exact absurd (startsWith_replaceFrom (oh :: ot) nh nt (oh :: ot)
            (fun c hc e => ho c hc (by simp [e])) (x :: xs) hS) hm

/-- A replacement leaves a text unchanged that holds no occurrence of the replaced
text. -/
theorem replaceFrom_absent (oh : Char) (ot new : Str) (s : Str)
    (h : Contains s (oh :: ot) = false) : replaceFrom (oh :: ot) new 0 s = s := by
  induction s with
  | nil => rfl
  | cons x xs ih =>
    rw [Contains, Bool.or_eq_false_iff] at h
    rw [replaceFrom, if_neg (by simp [h.1]), ih h.2]

theorem GetSQLWith_no_false (s : Str) : Contains (GetSQLWith s) "false".toList = false :=
  replaceFrom_clears 'f' "alse".toList '\'' "0'".toList (by decide) 0 _

theorem GetSQLWith_no_true (s : Str) : Contains (GetSQLWith s) "true".toList = false := by
  cases h : Contains (GetSQLWith s) "true".toList with
  | false => rfl
  | true =>
    have h1 := Contains_replaceFrom "false".toList '\'' "0'".toList 't' "rue".toList (by decide)
      0 (ReplaceAll s "true".toList "'1'".toList) h
    have h2 := replaceFrom_clears 't' "rue".toList '\'' "1'".toList (by decide) 0 s
    rw [show ReplaceAll s "true".toList "'1'".toList
      = replaceFrom ('t' :: "rue".toList) ('\'' :: "1'".toList) 0 s from rfl, h2] at h1
    cases h1

/-- A replacement passes over a middle text `M`, giving `M2` for it, when no occurrence
of the replaced text starts before `M` and runs into it, and the scan of `M` ends
exactly at its end. -/
theorem replaceFrom_around (old new M M2 : Str)
    (h1 : ∀ (x : Char) (xs r : Str),
      startsWith (x :: xs ++ (M ++ r)) old = startsWith (x :: xs) old)
    (h2 : ∀ r, replaceFrom old new 0 (M ++ r) = M2 ++ replaceFrom old new 0 r)
    (a b : Str) (k : Nat) (hk : k ≤ a.length) :
    replaceFrom old new k (a ++ (M ++ b))
      = replaceFrom old new k a ++ (M2 ++ replaceFrom old new 0 b) := by
  induction a generalizing k with
  | nil =>
    have : k = 0 := by simpa using hk
    subst this
    rw [List.nil_append, h2]
    rfl
  | cons x xs ih =>
    cases k with
    | succ k =>
      rw [List.cons_append, replaceFrom, replaceFrom]
      exact ih k (by simpa using hk)
    | zero =>
      rw [List.cons_append, replaceFrom, replaceFrom]
      have hs := h1 x xs b
      rw [List.cons_append] at hs
      rw [hs]
      by_cases hm : startsWith (x :: xs) old = true
      · rw [if_pos hm, if_pos hm, List.append_assoc]
        congr 1
        apply ih
        obtain ⟨t, ht⟩ := (startsWith_iff _ _).mp hm
        have := congrArg List.length ht
        simp at this
        omega
      · rw [if_neg hm, if_neg hm, List.cons_append]
        congr 1
        exact ih 0 (Nat.zero_le _)

theorem around_true_true (x : Char) (xs r : Str) :
    startsWith (x :: xs ++ ("true".toList ++ r)) "true".toList
      = startsWith (x :: xs) "true".toList := by
  rcases xs with _ | ⟨y, _ | ⟨z, _ | ⟨w, rest⟩⟩⟩ <;>
    simp [startsWith, startsWith_nil]

theorem around_false_false (x : Char) (xs r : Str) :
    startsWith (x :: xs ++ ("false".toList ++ r)) "false".toList
      = startsWith (x :: xs) "false".toList := by
  rcases xs with _ | ⟨y, _ | ⟨z, _ | ⟨w, _ | ⟨v, rest⟩⟩⟩⟩ <;>
    simp [startsWith, startsWith_nil]

theorem around_false_true (x : Char) (xs r : Str) :
    startsWith (x :: xs ++ ("false".toList ++ r)) "true".toList
      = startsWith (x :: xs) "true".toList := by
  rcases xs with _ | ⟨y, _ | ⟨z, _ | ⟨w, rest⟩⟩⟩ <;>
    simp [startsWith, startsWith_nil]

theorem around_one_false (x : Char) (xs r : Str) :
    startsWith (x :: xs ++ ("'1'".toList ++ r)) "false".toList
      = startsWith (x :: xs) "false".toList := by
  rcases xs with _ | ⟨y, _ | ⟨z, _ | ⟨w, _ | ⟨v, rest⟩⟩⟩⟩ <;>
    simp [startsWith, startsWith_nil]

/-- The first pass of `GetSQLWith` on a text around an occurrence of `true`. -/
theorem pass_true_true (a b : Str) :
    ReplaceAll (a ++ ("true".toList ++ b)) "true".toList "'1'".toList
      = ReplaceAll a "true".toList "'1'".toList ++
        ("'1'".toList ++ ReplaceAll b "true".toList "'1'".toList) :=
  replaceFrom_around "true".toList "'1'".toList "true".toList "'1'".toList around_true_true
    (fun r => replaceFrom_match "true".toList "'1'".toList r (by decide)) a b 0 (Nat.zero_le _)

theorem pass_true_false (a b : Str) :
    ReplaceAll (a ++ ("false".toList ++ b)) "true".toList "'1'".toList
      = ReplaceAll a "true".toList "'1'".toList ++
        ("false".toList ++ ReplaceAll b "true".toList "'1'".toList) :=
  replaceFrom_around "true".toList "'1'".toList "false".toList "false".toList around_false_true
    (fun r => replaceFrom_free 't' "rue".toList "'1'".toList "false".toList r (by decide))
    a b 0 (Nat.zero_le _)

theorem pass_false_false (a b : Str) :
    ReplaceAll (a ++ ("false".toList ++ b)) "false".toList "'0'".toList
      = ReplaceAll a "false".toList "'0'".toList ++
        ("'0'".toList ++ ReplaceAll b "false".toList "'0'".toList) :=
  replaceFrom_around "false".toList "'0'".toList "false".toList "'0'".toList around_false_false
    (fun r => replaceFrom_match "false".toList "'0'".toList r (by decide)) a b 0 (Nat.zero_le _)

theorem pass_false_one (a b : Str) :
    ReplaceAll (a ++ ("'1'".toList ++ b)) "false".toList "'0'".toList
      = ReplaceAll a "false".toList "'0'".toList ++
        ("'1'".toList ++ ReplaceAll b "false".toList "'0'".toList) :=
  replaceFrom_around "false".toList "'0'".toList "'1'".toList "'1'".toList around_one_false
    (fun r => replaceFrom_free 'f' "alse".toList "'0'".toList "'1'".toList r (by decide))
    a b 0 (Nat.zero_le _)

theorem GetSQLWith_true (a b : Str) :
    GetSQLWith (a ++ ("true".toList ++ b))
      = GetSQLWith a ++ ("'1'".toList ++ GetSQLWith b) := by
  simp only [GetSQLWith]
  rw [pass_true_true, pass_false_one]

theorem GetSQLWith_false (a b : Str) :
    GetSQLWith (a ++ ("false".toList ++ b))
      = GetSQLWith a ++ ("'0'".toList ++ GetSQLWith b) := by
  simp only [GetSQLWith]
  rw [pass_true_false, pass_false_false]

theorem GetSQLWith_free (s : Str) (h1 : Contains s "true".toList = false)
    (h2 : Contains s "false".toList = false) : GetSQLWith s = s := by
  simp only [GetSQLWith]
  rw [show ReplaceAll s "true".toList "'1'".toList = s from
    replaceFrom_absent 't' "rue".toList _ _ h1]
  exact replaceFrom_absent 'f' "alse".toList _ _ h2

/-- C16, as stated, fails in its last part: the `%Value` rendering of a boolean true
field tagged `type:"timestamp"` is `FROM_UNIXTIME(true)`, which `GetSQLWith`
normalizes to `FROM_UNIXTIME('1')` and not to `'1'`. -/
theorem GetSQLWith_timestamp_counterexample :
    renderValue env0 (mkField "Active" "bool" "timestamp" "") (.bool true)
      = .ok "FROM_UNIXTIME(true)".toList ∧
    GetSQLWith "FROM_UNIXTIME(true)".toList = "FROM_UNIXTIME('1')".toList ∧
    GetSQLWith "FROM_UNIXTIME(true)".toList ≠ "'1'".toList :=
  ⟨rfl, by decide, by decide⟩

/-- C16, amended: for every string `s`, `GetSQLWith(s)` holds no occurrence of `true`
and none of `false`, so that applying `GetSQLWith` again changes nothing.  Every
occurrence is replaced where it stands, also inside a word: a text without
occurrence is returned as it is, and around an occurrence of `true` (of `false`)
the result is the result for the text before it, then `'1'` (`'0'`), then the result
for the text after it.  The `%Value` rendering of an exported boolean field
normalizes to `'1'` for true and to `'0'` for false when the field is not tagged as
a timestamp, and to `FROM_UNIXTIME('1')` and `FROM_UNIXTIME('0')` when it is; on an
unexported boolean field the handler panics. -/
theorem GetSQLWith_normal (s : Str) :
    Contains (GetSQLWith s) "true".toList = false ∧
    Contains (GetSQLWith s) "false".toList = false ∧
    GetSQLWith (GetSQLWith s) = GetSQLWith s ∧
    (Contains s "true".toList = false → Contains s "false".toList = false →
      GetSQLWith s = s) ∧
    (∀ a b : Str, s = a ++ ("true".toList ++ b) →
      GetSQLWith s = GetSQLWith a ++ ("'1'".toList ++ GetSQLWith b)) ∧
    (∀ a b : Str, s = a ++ ("false".toList ++ b) →
      GetSQLWith s = GetSQLWith a ++ ("'0'".toList ++ GetSQLWith b)) ∧
    (∀ (env : Env) (field : StructField) (b : Bool),
      ∃ v, renderValue env field (.bool b) = .ok v ∧
        GetSQLWith v =
          if field.Tag.Get "type".toList = "timestamp".toList then
            "FROM_UNIXTIME(".toList ++ ((if b then "'1'".toList else "'0'".toList) ++ ")".toList)
          else if b then "'1'".toList else "'0'".toList) ∧
    (∀ (env : Env) (field : StructField) (b : Bool),
      renderValue env field (.hidden (.bool b)) = .error .reflect) := by
  refine ⟨GetSQLWith_no_true s, GetSQLWith_no_false s, ?_, GetSQLWith_free s, ?_, ?_, ?_,
    fun _ _ _ => rfl⟩
  · have h1 : ReplaceAll (GetSQLWith s) "true".toList "'1'".toList = GetSQLWith s :=
      replaceFrom_absent 't' "rue".toList _ _ (GetSQLWith_no_true s)
    have h2 : ReplaceAll (GetSQLWith s) "false".toList "'0'".toList = GetSQLWith s :=
      replaceFrom_absent 'f' "alse".toList _ _ (GetSQLWith_no_false s)
    show ReplaceAll (ReplaceAll (GetSQLWith s) "true".toList "'1'".toList) "false".toList
      "'0'".toList = GetSQLWith s
    rw [h1, h2]
  · intro a b hs
    rw [hs, GetSQLWith_true]
  · intro a b hs
    rw [hs, GetSQLWith_false]
  · intro env field b
    by_cases ht : field.Tag.Get "type".toList = "timestamp".toList
    · refine ⟨"FROM_UNIXTIME(".toList ++ (GoValue.bool b).fmtV ++ ")".toList, ?_, ?_⟩
      · simp only [renderValue]
        rw [if_pos ht]
      · rw [if_pos ht]
        cases b <;> decide
    · refine ⟨(GoValue.bool b).fmtV, ?_, ?_⟩
      · simp only [renderValue]
        rw [if_neg ht]
      · rw [if_neg ht]
        cases b <;> decide

/-- The amended C16 on a word that holds `true`: `construe` becomes `cons'1'`. -/
theorem GetSQLWith_normal_witness :
    GetSQLWith "construe".toList
      = GetSQLWith "cons".toList ++ ("'1'".toList ++ GetSQLWith []) ∧
    GetSQLWith "construe".toList = "cons'1'".toList :=
  ⟨(GetSQLWith_normal "construe".toList).2.2.2.2.1 "cons".toList [] rfl, by decide⟩

/-! ## C11: the last step of FormatField -/

theorem TrimSpace_shape (s : Str) :
    ∃ a b, s = a ++ (TrimSpace s ++ b) ∧
      (∀ c, (TrimSpace s).head? = some c → isSpace c = false) ∧
      (∀ c, (TrimSpace s).getLast? = some c → isSpace c = false) := by
  obtain ⟨a, ha⟩ : ∃ a, a ++ s.dropWhile isSpace = s := List.dropWhile_suffix isSpace
  obtain ⟨u, hu⟩ : ∃ u, u ++ (s.dropWhile isSpace).reverse.dropWhile isSpace
      = (s.dropWhile isSpace).reverse := List.dropWhile_suffix isSpace
  have hB : s.dropWhile isSpace = TrimSpace s ++ u.reverse := by
    have := congrArg List.reverse hu
    simpa [TrimSpace] using this.symm
  refine ⟨a, u.reverse, by rw [← hB, ha], fun c hc => ?_, fun c hc => ?_⟩
  · have h1 : (s.dropWhile isSpace).head? = some c := by
      rw [hB]
      cases hT : TrimSpace s with
      | nil => rw [hT] at hc; cases hc
      | cons x xs => rw [hT] at hc; simpa using hc
    have h2 := List.head?_dropWhile_not isSpace s
    rw [h1] at h2
    exact h2
  · have h1 : ((s.dropWhile isSpace).reverse.dropWhile isSpace).head? = some c := by
      have : (TrimSpace s).getLast? = ((s.dropWhile isSpace).reverse.dropWhile isSpace).head? := by
        simp [TrimSpace]
      rw [← this]
      exact hc
    have h2 := List.head?_dropWhile_not isSpace (s.dropWhile isSpace).reverse
    rw [h1] at h2
    exact h2

theorem collapse_head (c : Char) (r : Str) (hc : c ≠ ' ') :
    replaceFrom "  ".toList " ".toList 0 (c :: r)
      = c :: replaceFrom "  ".toList " ".toList 0 r := by
  rw [replaceFrom, if_neg (by
    rw [show "  ".toList = ' ' :: [' '] from rfl, startsWith_head_ne c ' ' _ _ hc]; simp)]

theorem collapse_no_blank_head (s : Str) (h : startsWith s " ".toList = false) :
    startsWith (replaceFrom "  ".toList " ".toList 0 s) " ".toList = false := by
  cases s with
  | nil => rfl
  | cons c r =>
    have hc : c ≠ ' ' := by
      intro e
      subst e
      rw [show " ".toList = [' '] from rfl, startsWith, startsWith_nil] at h
      simp at h
    rw [collapse_head c r hc]
    rw [show " ".toList = [' '] from rfl, startsWith_head_ne c ' ' _ _ hc]

/-- One pass over a text without three blanks in a row leaves no two in a row. -/
theorem collapse_pairs (n : Nat) (s : Str) (hn : s.length ≤ n)
    (h : Contains s "   ".toList = false) :
    Contains (replaceFrom "  ".toList " ".toList 0 s) "  ".toList = false := by
  induction n generalizing s with
  | zero =>
    have : s = [] := List.eq_nil_of_length_eq_zero (by omega)
    subst this
    rfl
  | succ n ih =>
    cases s with
    | nil => rfl
    | cons x xs =>
      have h0 := h
      rw [Contains, Bool.or_eq_false_iff] at h
      have hxs := ih xs (by simp at hn; omega) h.2
      by_cases hm : startsWith (x :: xs) "  ".toList = true
      · obtain ⟨rest, hrest⟩ := (startsWith_iff _ _).mp hm
        have hx : x = ' ' ∧ xs = ' ' :: rest := by
          have := hrest
          simp only [show "  ".toList = [' ', ' '] from rfl, List.cons_append, List.nil_append,
            List.cons.injEq] at this
          exact this
        obtain ⟨rfl, rfl⟩ := hx
        have hrest3 : Contains rest "   ".toList = false := by
          have := h.2
          rw [Contains, Bool.or_eq_false_iff] at this
          exact this.2
        have hstart : startsWith rest " ".toList = false := by
          cases hs : startsWith rest " ".toList with
          | false => rfl
          | true =>
            obtain ⟨r2, hr2⟩ := (startsWith_iff _ _).mp hs
            subst hr2
            exact absurd h.1 (by simp [startsWith, startsWith_nil])
        have hf : replaceFrom "  ".toList " ".toList 0 (' ' :: ' ' :: rest)
            = ' ' :: replaceFrom "  ".toList " ".toList 0 rest := by
          rw [replaceFrom, if_pos hm]
          rfl
        rw [hf, Contains, ih rest (by simp at hn; omega) hrest3, Bool.or_false]
        have := collapse_no_blank_head rest hstart
        revert this
        generalize replaceFrom "  ".toList " ".toList 0 rest = out
        intro this
        cases out with
        | nil => rfl
        | cons o os =>
          simp only [show " ".toList = [' '] from rfl, show "  ".toList = [' ', ' '] from rfl,
            startsWith, startsWith_nil, Bool.and_true, beq_eq_false_iff_ne, ne_eq] at this ⊢
          simp [this]
      · rw [replaceFrom, if_neg hm, Contains, hxs, Bool.or_false]
        by_cases hx : x = ' '
        · subst hx
          have hstart : startsWith xs " ".toList = false := by
            cases hs : startsWith xs " ".toList with
            | false => rfl
            | true =>
              obtain ⟨r2, hr2⟩ := (startsWith_iff _ _).mp hs
              subst hr2
              exact absurd (show startsWith (' ' :: (" ".toList ++ r2)) "  ".toList = true by
                simp [startsWith, startsWith_nil]) hm
          have := collapse_no_blank_head xs hstart
          revert this
          generalize replaceFrom "  ".toList " ".toList 0 xs = out
          intro this
          cases out with
          | nil => rfl
          | cons o os =>
            simp only [show " ".toList = [' '] from rfl, show "  ".toList = [' ', ' '] from rfl,
              startsWith, startsWith_nil, Bool.and_true, beq_eq_false_iff_ne, ne_eq] at this ⊢
            simp [this]
        · rw [show "  ".toList = ' ' :: [' '] from rfl, startsWith_head_ne x ' ' _ _ hx]

theorem Contains_of_inside (t sub a b : Str) (h : Contains (a ++ (t ++ b)) sub = false) :
    Contains t sub = false := by
  cases ht : Contains t sub with
  | false => rfl
  | true => rw [Contains_inside t sub a b ht] at h; cases h

/-- C11, as stated, fails: the constraint tag `NOT   NULL`, with three blanks, is
rendered by the template `%With` as `NOT  NULL`, which holds two blanks in a
row. -/
theorem FormatField_blanks_counterexample :
    (NewSource (some entityDoc)).FormatField env0 "%With".toList
        (mkField "Name" "string" "varchar(64)" "NOT   NULL") 2
      = .ok "NOT  NULL".toList ∧
    Contains "NOT  NULL".toList "  ".toList = true :=
  ⟨rfl, rfl⟩

/-- C11, amended: for every template, entity and field, the string `FormatField`
returns is trimmed, it has no leading and no trailing white space; each pair of
blanks of the substituted text has been replaced by one blank in a single pass, so
that the string holds no two blanks in a row when the substituted text holds no
three in a row (three blanks in a row leave two). -/
theorem FormatField_trimmed (env : Env) (src : Source) (format : Str) (field : StructField)
    (index : Nat) (x : Str) (h : src.FormatField env format field index = .ok x) :
    (∀ c, x.head? = some c → isSpace c = false) ∧
    (∀ c, x.getLast? = some c → isSpace c = false) ∧
    ∃ r, formatLoop env src field index env.order format = .ok r ∧
      (Contains r "   ".toList = false → Contains x "  ".toList = false) := by
  unfold Source.FormatField at h
  cases hL : formatLoop env src field index env.order format with
  | error e => rw [hL] at h; cases h
  | ok r =>
    rw [hL] at h
    cases h
    obtain ⟨a, b, hab, h1, h2⟩ := TrimSpace_shape (ReplaceAll r "  ".toList " ".toList)
    refine ⟨h1, h2, r, rfl, fun h3 => ?_⟩
    have h4 : Contains (ReplaceAll r "  ".toList " ".toList) "  ".toList = false :=
      collapse_pairs r.length r (Nat.le_refl _) h3
    rw [hab] at h4
    exact Contains_of_inside _ _ a b h4

/-- The amended C11 on the column definition of `Name` in the documented entity. -/
theorem FormatField_trimmed_witness :
    (∀ c, "`name` varchar(64) NOT NULL".toList.head? = some c → isSpace c = false) ∧
    (∀ c, "`name` varchar(64) NOT NULL".toList.getLast? = some c → isSpace c = false) ∧
    ∃ r, formatLoop env0 (NewSource (some entityDoc))
        (mkField "Name" "string" "varchar(64)" "NOT NULL") 2 env0.order
        "`%Name` %Type %With".toList = .ok r ∧
      (Contains r "   ".toList = false →
        Contains "`name` varchar(64) NOT NULL".toList "  ".toList = false) :=
  FormatField_trimmed env0 (NewSource (some entityDoc)) "`%Name` %Type %With".toList
    (mkField "Name" "string" "varchar(64)" "NOT NULL") 2 "`name` varchar(64) NOT NULL".toList rfl

/-! ## The write-back of Populate on a well-typed entity -/

theorem setStructField_unknown (env : Env) (field : Option GoValue) (value destType : Str)
    (flag : Bool) (h1 : destType ≠ "string".toList) (h2 : destType ∉ parsedTypes) :
    setStructField env field value destType flag = .ok none := by
  simp only [parsedTypes, List.mem_cons, List.mem_singleton, not_or, List.not_mem_nil,
    not_false_eq_true, and_true] at h2
  obtain ⟨a1, a2, a3, a4, a5, a6, a7, a8, a9, a10, a11, a12, a13⟩ := h2
  unfold setStructField
  simp only [if_neg h1, if_neg a1, if_neg a2, if_neg a3, if_neg a4, if_neg a7, if_neg a8,
    if_neg a9, if_neg a12, if_neg a13, a5, a6, a10, a11, or_self, if_false]
  cases flag <;> rfl

/-- The null text makes every parsing case fail, whatever the field. -/
theorem setStructField_null (env : Env) (hfloat : ∀ bits, env.ParseFloat "\\N".toList bits = none)
    (field : Option GoValue) (destType : Str) (flag : Bool) (h : destType ∈ parsedTypes) :
    setStructField env field "\\N".toList destType flag = .error .parse := by
  simp only [parsedTypes, List.mem_cons, List.mem_singleton, List.not_mem_nil, or_false] at h
  rcases h with rfl | rfl | rfl | rfl | rfl | rfl | rfl | rfl | rfl | rfl | rfl | rfl | rfl
  case inr.inr.inr.inr.inr.inr.inr.inr.inr.inr.inr.inl =>
    show (match parseStringWithBits env.ParseFloat "\\N".toList 32 with
      | .error e => (.error e : Except Err (Option GoValue))
      | .ok x => (SetFloat field x).map some) = _
    simp only [parseStringWithBits, hfloat]
  case inr.inr.inr.inr.inr.inr.inr.inr.inr.inr.inr.inr =>
    show (match parseStringWithBits env.ParseFloat "\\N".toList 64 with
      | .error e => (.error e : Except Err (Option GoValue))
      | .ok x => (SetFloat field x).map some) = _
    simp only [parseStringWithBits, hfloat]
  all_goals rfl

theorem fromBool_total (b : Bool) (r : Str) :
    (match parseString ParseBool r with
      | .error e => (.error e : Except Err (Option GoValue))
      | .ok x => (SetBool (some (.bool b)) x).map some) = .error .parse ∨
    ∃ m, (match parseString ParseBool r with
      | .error e => (.error e : Except Err (Option GoValue))
      | .ok x => (SetBool (some (.bool b)) x).map some) = .ok (some (.bool m)) := by
  unfold parseString
  cases ParseBool r with
  | none => exact Or.inl rfl
  | some x => exact Or.inr ⟨_, rfl⟩

theorem fromInt_total (bits b : Nat) (n : Int) (r : Str) :
    (match parseStringWithBaseAndBits ParseInt r 10 bits with
      | .error e => (.error e : Except Err (Option GoValue))
      | .ok x => (SetInt (some (.int b n)) x).map some) = .error .parse ∨
    ∃ m, (match parseStringWithBaseAndBits ParseInt r 10 bits with
      | .error e => (.error e : Except Err (Option GoValue))
      | .ok x => (SetInt (some (.int b n)) x).map some) = .ok (some (.int b m)) := by
  unfold parseStringWithBaseAndBits
  rcases hP : ParseInt r 10 bits with ⟨val, err⟩
  cases err with
  | none => exact Or.inr ⟨_, rfl⟩
  | some e => exact Or.inl rfl

theorem fromUint_total (bits b : Nat) (n : Nat) (r : Str) :
    (match parseStringWithBaseAndBits ParseUint r 10 bits with
      | .error e => (.error e : Except Err (Option GoValue))
      | .ok x => (SetUint (some (.uint b n)) x).map some) = .error .parse ∨
    ∃ m, (match parseStringWithBaseAndBits ParseUint r 10 bits with
      | .error e => (.error e : Except Err (Option GoValue))
      | .ok x => (SetUint (some (.uint b n)) x).map some) = .ok (some (.uint b m)) := by
  unfold parseStringWithBaseAndBits
  rcases hP : ParseUint r 10 bits with ⟨val, err⟩
  cases err with
  | none => exact Or.inr ⟨_, rfl⟩
  | some e => exact Or.inl rfl

theorem fromFloat_total (env : Env) (bits : Nat) (kind : Str) (z : Bool) (text r : Str)
    (c : Bool) (hk : kind = "float32".toList ∨ kind = "float64".toList) :
    (match parseStringWithBits env.ParseFloat r bits with
      | .error e => (.error e : Except Err (Option GoValue))
      | .ok x => (SetFloat (some (.other kind z text c)) x).map some) = .error .parse ∨
    ∃ z2 t2, (match parseStringWithBits env.ParseFloat r bits with
      | .error e => (.error e : Except Err (Option GoValue))
      | .ok x => (SetFloat (some (.other kind z text c)) x).map some)
        = .ok (some (.other kind z2 t2 c)) := by
  unfold parseStringWithBits
  cases hP : env.ParseFloat r bits with
  | none => exact Or.inl rfl
  | some x =>
    refine Or.inr ⟨x.1, x.2, ?_⟩
    simp only [SetFloat, if_pos hk]
    rfl

/-- On a field of the kind its type name announces, `setStructField` either fails
with a parse error or returns; a value it stores is of the same kind. -/
theorem setStructField_kind (env : Env) (v : GoValue) (r ty : Str) (flag : Bool)
    (h : kindIs ty v = true) :
    setStructField env (some v) r ty flag = .error .parse ∨
    ∃ o, setStructField env (some v) r ty flag = .ok o ∧
      ∀ x, o = some x → kindIs ty x = true := by
  by_cases hs : ty = "string".toList
  · subst hs
    cases v <;> first | (exact absurd (show false = true from h) (by decide)) | skip
    exact Or.inr ⟨_, rfl, fun x hx => by cases hx; rfl⟩
  · by_cases hp : ty ∈ parsedTypes
    · simp only [parsedTypes, List.mem_cons, List.mem_singleton, List.not_mem_nil,
        or_false] at hp
      rcases hp with rfl | rfl | rfl | rfl | rfl | rfl | rfl | rfl | rfl | rfl | rfl | rfl | rfl
      -- bool
      · cases v <;> first | (exact absurd (show false = true from h) (by decide)) | skip
        rename_i b
        rcases fromBool_total b r with h1 | ⟨m, h1⟩
        · exact Or.inl h1
        · exact Or.inr ⟨_, h1, fun y hy => by cases hy; rfl⟩
      -- signed
      iterate 5
        · cases v <;> first | (exact absurd (show false = true from h) (by decide)) | skip
          rename_i b n
          rcases fromInt_total _ b n r with h1 | ⟨m, h1⟩
          · exact Or.inl h1
          · exact Or.inr ⟨_, h1, fun y hy => by cases hy; rfl⟩
      -- unsigned
      iterate 5
        · cases v <;> first | (exact absurd (show false = true from h) (by decide)) | skip
          rename_i b n
          rcases fromUint_total _ b n r with h1 | ⟨m, h1⟩
          · exact Or.inl h1
          · exact Or.inr ⟨_, h1, fun y hy => by cases hy; rfl⟩
      -- float
      iterate 2
        · cases v <;> first | (exact absurd (show false = true from h) (by decide)) | skip
          rename_i kind z text c
          have hk : kind = "float32".toList ∨ kind = "float64".toList := by
            simpa [kindIs] using h
          rcases fromFloat_total env _ kind z text r c hk with h1 | ⟨z2, t2, h1⟩
          · exact Or.inl h1
          · refine Or.inr ⟨_, h1, fun y hy => ?_⟩
            cases hy
            simpa [kindIs] using hk
    · exact Or.inr ⟨none, setStructField_unknown env _ r ty flag hs hp,
        fun x hx => by cases hx⟩

theorem squeeze_plain (name ty : Str) (h1 : ∀ c, c ∈ name → isSpace c = false)
    (h2 : ∀ c, c ∈ ty → isSpace c = false) :
    squeeze (name ++ ':' :: ty) = name ++ ':' :: ty := by
  have hall : ∀ c, c ∈ name ++ ':' :: ty → isSpace c = false := by
    intro c hc
    rcases List.mem_append.mp hc with h | h
    · exact h1 c h
    · rcases List.mem_cons.mp h with rfl | h
      · decide
      · exact h2 c h
  have hblank : ' ' ∉ name ++ ':' :: ty := fun hm => absurd (hall ' ' hm) (by decide)
  have hR : ReplaceAll (name ++ ':' :: ty) "  ".toList " ".toList = name ++ ':' :: ty := by
    have := replaceFrom_free ' ' [' '] " ".toList (name ++ ':' :: ty) [] hblank
    simpa [replaceFrom] using this
  unfold squeeze TrimSpace
  rw [hR]
  have hdrop : ∀ l : Str, (∀ c, c ∈ l → isSpace c = false) → l.dropWhile isSpace = l := by
    intro l hl
    cases l with
    | nil => rfl
    | cons c cs => simp [List.dropWhile, hl c (by simp)]
  rw [hdrop _ hall, hdrop _ (fun c hc => hall c (List.mem_reverse.mp hc)), List.reverse_reverse]

theorem FormatField_raw_exact (env : Env) (hwf : env.wf) (src : Source) (field : StructField)
    (index : Nat) (x : Str)
    (hname : ∀ c, c ∈ field.Name → c ≠ '%' ∧ c ≠ ':' ∧ isSpace c = false)
    (hty : '%' ∉ field.TypeName) (hsp : ∀ c, c ∈ field.TypeName → isSpace c = false)
    (h : src.FormatField env "%RawName:%Variable".toList field index = .ok x) :
    SplitN2 x ":".toList = [field.Name, field.TypeName] := by
  have hV := FormatField_ok_Value env hwf src _ field index x h
  have hp : Seg.plain (valOf env src field index) rawSegs :=
    ⟨fun hm => (hname _ hm).1 rfl, by decide, hty, trivial⟩
  have := FormatField_plain env hwf src field index hV rawSegs hp
  rw [show Seg.flat rawSegs = "%RawName:%Variable".toList from rfl, h] at this
  cases this
  have hr : Seg.render (valOf env src field index) rawSegs
      = field.Name ++ ':' :: field.TypeName := by
    simp [rawSegs, Seg.render, valOf, Field]
  rw [hr, squeeze_plain _ _ (fun c hc => (hname c hc).2.2) hsp, SplitN2,
    cut_name field.Name _ (fun hm => (hname _ hm).2.1 rfl)]

theorem propertiesFrom_exact (env : Env) (hwf : env.wf) (src : Source) (i : Nat)
    (l : List (StructField × GoValue)) (L : List Str)
    (hl : ∀ fv, fv ∈ l →
      ((∀ c, c ∈ fv.1.Name → c ≠ '%' ∧ c ≠ ':' ∧ isSpace c = false) ∧ '%' ∉ fv.1.TypeName) ∧
        ∀ c, c ∈ fv.1.TypeName → isSpace c = false)
    (h : propertiesFrom env src "%RawName:%Variable".toList false i l = .ok L) :
    List.Forall₂ (fun x u => SplitN2 x ":".toList = [u.1.Name, u.1.TypeName]) L
      (l.filter (fun fv => definedIs false fv.2)) := by
  induction l generalizing i L with
  | nil =>
    simp only [propertiesFrom] at h
    cases h
    exact List.Forall₂.nil
  | cons fv rest ih =>
    have hrest : ∀ fv2, fv2 ∈ rest → _ := fun fv2 hm => hl fv2 (List.mem_cons_of_mem _ hm)
    rw [propertiesFrom] at h
    cases hD : isFieldDefined fv.2 with
    | error e => rw [hD] at h; cases h
    | ok d =>
    rw [hD] at h
    simp only [] at h
    cases d with
    | true =>
      rw [if_neg (by decide)] at h
      rw [List.filter_cons_of_neg (by simp [definedIs, hD])]
      exact ih (i + 1) L hrest h
    | false =>
      rw [if_pos (by decide)] at h
      rw [List.filter_cons_of_pos (by simp [definedIs, hD])]
      cases hF : src.FormatField env "%RawName:%Variable".toList fv.1 i with
      | error e => rw [hF] at h; cases h
      | ok x =>
        rw [hF] at h
        simp only [] at h
        cases hR : propertiesFrom env src "%RawName:%Variable".toList false (i + 1) rest with
        | error e => rw [hR] at h; cases h
        | ok xs =>
          rw [hR] at h
          cases h
          have hfv := hl fv (List.mem_cons_self _ _)
          exact List.Forall₂.cons
            (FormatField_raw_exact env hwf src fv.1 i x hfv.1.1 hfv.1.2 hfv.2 hF)
            (ih (i + 1) xs hrest hR)

theorem FieldByName_setField_other (fs : List (StructField × GoValue)) (name other : Str)
    (x : GoValue) (h : other ≠ name) :
    Struct.FieldByName (setField fs name x) other = Struct.FieldByName fs other := by
  induction fs with
  | nil => rfl
  | cons a rest ih =>
    obtain ⟨f, v⟩ := a
    simp only [setField]
    by_cases hf : f.Name = name
    · rw [if_pos hf]
      simp only [Struct.FieldByName]
      rw [if_neg (by rw [hf]; exact fun e => h e.symm), if_neg (by rw [hf]; exact fun e => h e.symm)]
    · rw [if_neg hf]
      simp only [Struct.FieldByName, ih]

theorem FieldByName_setField_same (fs : List (StructField × GoValue)) (name : Str)
    (x v : GoValue) (h : Struct.FieldByName fs name = some v) :
    Struct.FieldByName (setField fs name x) name = some x := by
  induction fs with
  | nil => simp [Struct.FieldByName] at h
  | cons a rest ih =>
    obtain ⟨f, w⟩ := a
    simp only [setField]
    by_cases hf : f.Name = name
    · rw [if_pos hf]
      simp only [Struct.FieldByName]
      rw [if_pos hf]
    · rw [if_neg hf]
      simp only [Struct.FieldByName] at h ⊢
      rw [if_neg hf] at h ⊢
      exact ih h

theorem FieldByName_of_get (fs : List (StructField × GoValue))
    (hnd : (fs.map (fun fv => fv.1.Name)).Nodup) (j : Nat) (fv : StructField × GoValue)
    (h : fs.get? j = some fv) : Struct.FieldByName fs fv.1.Name = some fv.2 := by
  induction fs generalizing j with
  | nil => simp at h
  | cons a rest ih =>
    obtain ⟨f, w⟩ := a
    rw [List.map_cons, List.nodup_cons] at hnd
    cases j with
    | zero =>
      simp at h
      subst h
      simp [Struct.FieldByName]
    | succ j =>
      have hj : rest.get? j = some fv := by simpa using h
      have hne : f.Name ≠ fv.1.Name := by
        intro e
        exact hnd.1 (List.mem_map.mpr ⟨fv, List.get?_mem hj, e.symm⟩)
      simp only [Struct.FieldByName]
      rw [if_neg hne]
      exact ih hnd.2 j hj

theorem index_of_get {α : Type} (xs : List α) (i : Nat) (x : α) (h : xs.get? i = some x) :
    index xs i = .ok x := by
  simp only [index, h]

theorem get_below {α : Type} (xs : List α) (i j : Nat) (x : α) (h : xs.get? j = some x)
    (hij : i ≤ j) : ∃ y, xs.get? i = some y := by
  have hj : j < xs.length := by
    rcases Nat.lt_or_ge j xs.length with h1 | h1
    · exact h1
    · rw [List.get?_eq_none.mpr h1] at h; cases h
  have hi : i < xs.length := by omega
  exact ⟨xs.get ⟨i, hi⟩, List.get?_eq_get hi⟩

/-- One turn of the write-back loop on an entry that splits into a name and a type:
the loop either fails there or goes on from an entity in which at most the field
of that name has changed. -/
theorem populateLoop_step (env : Env) (result : List Str) (flag : Bool) (k : Nat) (x : Str)
    (L1 : List Str) (t : Struct) (hw : Bool) (name ty : Str) (r : Str)
    (hx : SplitN2 x ":".toList = [name, ty]) (hr : result.get? k = some r) :
    populateLoop env result flag k (x :: L1) (t, hw)
      = if (r.length == 0) = true then populateLoop env result flag (k + 1) L1 (t, hw)
        else
          match setStructField env (Struct.FieldByName t.fields name) r ty flag with
          | .error e => .error e
          | .ok none => populateLoop env result flag (k + 1) L1 (t, true)
          | .ok (some v) =>
            populateLoop env result flag (k + 1) L1 (⟨t.TypeName, setField t.fields name v⟩, true) := by
  rw [populateLoop, index_of_get _ _ _ hr]
  simp only [hx, index, List.get?]

theorem populateLoop_keeps (env : Env) (result : List Str) (flag : Bool)
    (L : List Str) (U : List (StructField × GoValue))
    (hLU : List.Forall₂ (fun x u => SplitN2 x ":".toList = [u.1.Name, u.1.TypeName]) L U)
    (k : Nat) (t : Struct) (hw : Bool) (t2 : Struct) (hw2 : Bool)
    (h : populateLoop env result flag k L (t, hw) = .ok (t2, hw2))
    (nm : Str) (hnm : nm ∉ U.map (fun fv => fv.1.Name)) :
    Struct.FieldByName t2.fields nm = Struct.FieldByName t.fields nm ∧
      (hw = true → hw2 = true) := by
  induction hLU generalizing k t hw with
  | nil =>
    simp only [populateLoop] at h
    cases h
    exact ⟨rfl, id⟩
  | @cons x u L1 U1 hxu _ ih =>
    have hne : nm ≠ u.1.Name := fun e => hnm (by simp [e])
    have hrest : nm ∉ U1.map (fun fv => fv.1.Name) := fun e => hnm (by simp [e])
    cases hr : result.get? k with
    | none =>
      rw [populateLoop] at h
      simp only [index, hr] at h
      cases h
    | some r =>
      rw [populateLoop_step env result flag k x L1 t hw _ _ r hxu hr] at h
      by_cases hlen : (r.length == 0) = true
      · rw [if_pos hlen] at h
        exact ih (k + 1) t hw h hrest
      · rw [if_neg hlen] at h
        cases hS : setStructField env (Struct.FieldByName t.fields u.1.Name) r u.1.TypeName flag with
        | error e => rw [hS] at h; cases h
        | ok o =>
          rw [hS] at h
          cases o with
          | none =>
            obtain ⟨g1, _⟩ := ih (k + 1) t true h hrest
            exact ⟨g1, fun _ => (ih (k + 1) t true h hrest).2 rfl⟩
          | some v =>
            obtain ⟨g1, g2⟩ := ih (k + 1) _ true h hrest
            exact ⟨by rw [g1]; exact FieldByName_setField_other _ _ _ _ hne, fun _ => g2 rfl⟩

theorem populateLoop_null_string (env : Env) (result : List Str) (flag : Bool)
    (L : List Str) (U : List (StructField × GoValue))
    (hLU : List.Forall₂ (fun x u => SplitN2 x ":".toList = [u.1.Name, u.1.TypeName]) L U)
    (hnd : (U.map (fun fv => fv.1.Name)).Nodup)
    (k : Nat) (t : Struct) (hw : Bool) (t2 : Struct) (hw2 : Bool)
    (h : populateLoop env result flag k L (t, hw) = .ok (t2, hw2))
    (k0 : Nat) (u0 : StructField × GoValue) (hu0 : U.get? k0 = some u0)
    (hty : u0.1.TypeName = "string".toList)
    (hnull : result.get? (k + k0) = some "\\N".toList) :
    Struct.FieldByName t2.fields u0.1.Name = some (.str "\\N".toList) ∧ hw2 = true := by
  induction hLU generalizing k t hw k0 with
  | nil => simp at hu0
  | @cons x u L1 U1 hxu hrestLU ih =>
    rw [List.map_cons, List.nodup_cons] at hnd
    cases k0 with
    | zero =>
      simp at hu0
      subst hu0
      rw [Nat.add_zero] at hnull
      rw [populateLoop_step env result flag k x L1 t hw _ _ _ hxu hnull,
        if_neg (by decide), hty] at h
      cases hF : Struct.FieldByName t.fields u.1.Name with
      | none => rw [hF] at h; cases h
      | some v =>
        rw [hF] at h
        cases v <;> first | (cases h) | skip
        have h2 : populateLoop env result flag (k + 1) L1
            (⟨t.TypeName, setField t.fields u.1.Name (.str "\\N".toList)⟩, true)
            = .ok (t2, hw2) := h
        obtain ⟨g1, g2⟩ := populateLoop_keeps env result flag L1 U1 hrestLU (k + 1) _ true
          t2 hw2 h2 u.1.Name hnd.1
        exact ⟨by rw [g1]; exact FieldByName_setField_same _ _ _ _ hF, g2 rfl⟩
    | succ k0 =>
      have hu1 : U1.get? k0 = some u0 := by simpa using hu0
      have hnull1 : result.get? (k + 1 + k0) = some "\\N".toList := by
        rwa [show k + 1 + k0 = k + (k0 + 1) by omega]
      obtain ⟨r, hr⟩ := get_below result k (k + (k0 + 1)) _ hnull (by omega)
      rw [populateLoop_step env result flag k x L1 t hw _ _ r hxu hr] at h
      by_cases hlen : (r.length == 0) = true
      · rw [if_pos hlen] at h
        exact ih hnd.2 (k + 1) t hw h k0 hu1 hnull1
      · rw [if_neg hlen] at h
        cases hS : setStructField env (Struct.FieldByName t.fields u.1.Name) r u.1.TypeName flag with
        | error e => rw [hS] at h; cases h
        | ok o =>
          rw [hS] at h
          cases o with
          | none => exact ih hnd.2 (k + 1) t true h k0 hu1 hnull1
          | some v => exact ih hnd.2 (k + 1) _ true h k0 hu1 hnull1

theorem populateLoop_null_fails (env : Env)
    (hfloat : ∀ bits, env.ParseFloat "\\N".toList bits = none) (result : List Str) (flag : Bool)
    (L : List Str) (U : List (StructField × GoValue))
    (hLU : List.Forall₂ (fun x u => SplitN2 x ":".toList = [u.1.Name, u.1.TypeName]) L U)
    (hnd : (U.map (fun fv => fv.1.Name)).Nodup)
    (k : Nat) (t : Struct) (hw : Bool)
    (hkind : ∀ u, u ∈ U → ∃ v, Struct.FieldByName t.fields u.1.Name = some v ∧
      kindIs u.1.TypeName v = true)
    (k0 : Nat) (u0 : StructField × GoValue) (hu0 : U.get? k0 = some u0)
    (hty : u0.1.TypeName ∈ parsedTypes)
    (hnull : result.get? (k + k0) = some "\\N".toList) :
    populateLoop env result flag k L (t, hw) = .error .parse := by
  induction hLU generalizing k t hw k0 with
  | nil => simp at hu0
  | @cons x u L1 U1 hxu hrestLU ih =>
    rw [List.map_cons, List.nodup_cons] at hnd
    cases k0 with
    | zero =>
      simp at hu0
      subst hu0
      rw [Nat.add_zero] at hnull
      rw [populateLoop_step env result flag k x L1 t hw _ _ _ hxu hnull,
        if_neg (by decide), setStructField_null env hfloat _ _ flag hty]
    | succ k0 =>
      have hu1 : U1.get? k0 = some u0 := by simpa using hu0
      have hnull1 : result.get? (k + 1 + k0) = some "\\N".toList := by
        rwa [show k + 1 + k0 = k + (k0 + 1) by omega]
      have hkind1 : ∀ u2, u2 ∈ U1 → ∃ v, Struct.FieldByName t.fields u2.1.Name = some v ∧
          kindIs u2.1.TypeName v = true :=
        fun u2 h2 => hkind u2 (List.mem_cons_of_mem _ h2)
      obtain ⟨r, hr⟩ := get_below result k (k + (k0 + 1)) _ hnull (by omega)
      rw [populateLoop_step env result flag k x L1 t hw _ _ r hxu hr]
      by_cases hlen : (r.length == 0) = true
      · rw [if_pos hlen]
        exact ih hnd.2 (k + 1) t hw hkind1 k0 hu1 hnull1
      · rw [if_neg hlen]
        obtain ⟨v, hv1, hv2⟩ := hkind u (List.mem_cons_self _ _)
        rw [hv1]
        rcases setStructField_kind env v r u.1.TypeName flag hv2 with hS | ⟨o, hS, hK⟩
        · rw [hS]
        · rw [hS]
          cases o with
          | none => exact ih hnd.2 (k + 1) t true hkind1 k0 hu1 hnull1
          | some w =>
            refine ih hnd.2 (k + 1) _ true (fun u2 h2 => ?_) k0 hu1 hnull1
            obtain ⟨v2, hv3, hv4⟩ := hkind1 u2 h2
            have hne : u2.1.Name ≠ u.1.Name := by
              intro e
              exact hnd.1 (List.mem_map.mpr ⟨u2, h2, e⟩)
            exact ⟨v2, by
              show Struct.FieldByName (setField t.fields u.1.Name w) u2.1.Name = some v2
              rw [FieldByName_setField_other _ _ _ _ hne, hv3], hv4⟩

theorem Populate_fetch {σ : Type} (env : Env) (db : Database σ) (sess : Session σ)
    (table : Struct) (flag : Bool) :
    Populate env db sess table flag
      = match fetchRows env db sess table with
        | .error e => .error e
        | .ok (emptyFields, text, rows) =>
          match getQueryResult rows rows.Columns with
          | .error e => .error e
          | .ok result =>
            match populateLoop env result flag 0 emptyFields (table, false) with
            | .error e => .error e
            | .ok out => .ok (out, ⟨sess.state, sess.log ++ [.query text]⟩) := by
  unfold Populate fetchRows
  simp only []
  cases GetProperties env (some table) "%Name=%Value".toList true with
  | error e => simp
  | ok queryProps =>
    cases GetProperties env (some table) "%SQLName".toList false with
    | error e => simp
    | ok emptyProps =>
      cases GetProperties env (some table) "%RawName:%Variable".toList false with
      | error e => simp
      | ok emptyFields =>
        simp only []
        cases db.Query sess.state (Sprintf env.IsPrint "SELECT %s FROM %s WHERE %s LIMIT 1".toList
            [Join emptyProps ", ".toList, (NewSource (some table)).Name env,
              Join queryProps " AND ".toList]) with
        | error e => rfl
        | ok rows => rfl

theorem fetchRows_entries {σ : Type} (env : Env) (db : Database σ) (sess : Session σ)
    (table : Struct) (emptyFields : List Str) (text : Str) (rows : Rows)
    (h : fetchRows env db sess table = .ok (emptyFields, text, rows)) :
    GetProperties env (some table) "%RawName:%Variable".toList false = .ok emptyFields := by
  unfold fetchRows at h
  simp only [] at h
  cases h1 : GetProperties env (some table) "%Name=%Value".toList true with
  | error e => rw [h1] at h; simp at h
  | ok queryProps =>
    cases h2 : GetProperties env (some table) "%SQLName".toList false with
    | error e => rw [h1, h2] at h; simp at h
    | ok emptyProps =>
      cases h3 : GetProperties env (some table) "%RawName:%Variable".toList false with
      | error e => rw [h1, h2, h3] at h; simp at h
      | ok emptyFields2 =>
        rw [h1, h2, h3] at h
        simp only [] at h
        split at h
        · cases h
        · cases h
          rfl

/-! ## C19: NULL columns -/

theorem Forall₂_get_left {α β : Type} (R : α → β → Prop) (l1 : List α) (l2 : List β)
    (h : List.Forall₂ R l1 l2) (k : Nat) (a : α) (hk : l1.get? k = some a) :
    ∃ b, l2.get? k = some b ∧ R a b := by
  induction h generalizing k with
  | nil => simp at hk
  | @cons a0 b0 t1 t2 hab _ ih =>
    cases k with
    | zero =>
      simp at hk
      subst hk
      exact ⟨b0, rfl, hab⟩
    | succ k =>
      obtain ⟨b, hb, hR⟩ := ih k (by simpa using hk)
      exact ⟨b, by simpa using hb, hR⟩

theorem mem_get {α : Type} (l : List α) (x : α) (h : x ∈ l) : ∃ j, l.get? j = some x := by
  induction l with
  | nil => simp at h
  | cons y rest ih =>
    rcases List.mem_cons.mp h with rfl | h2
    · exact ⟨0, rfl⟩
    · obtain ⟨j, hj⟩ := ih h2
      exact ⟨j + 1, by simpa using hj⟩

/-- C19: a NULL column of the fetched row is decoded as the two characters `\N`.  For
an undefined field whose column is NULL: when the field is declared `string`, a
call of `Populate` that returns has set it to `\N` and returns `true`; when it is
declared with a boolean, integer or float type, the call fails with a parse error.
This for a well-formed, well-typed entity, once the row is fetched; `ParseFloat`
rejects the text `\N`. -/
theorem Populate_null_column {σ : Type} (env : Env) (hwf : env.wf)
    (hfloat : ∀ bits, env.ParseFloat "\\N".toList bits = none)
    (db : Database σ) (sess : Session σ) (table : Struct)
    (hs : table.wellFormed) (ht : table.wellTyped) (flag : Bool)
    (emptyFields : List Str) (text : Str) (rows : Rows)
    (hfetch : fetchRows env db sess table = .ok (emptyFields, text, rows))
    (row : List (Option Str)) (more : List (List (Option Str)))
    (hrow : rows.data = row :: more) (hlen : row.length = rows.Columns.length)
    (k j : Nat) (fv : StructField × GoValue)
    (hk : (undefinedFrom 1 (table.fields.drop 1)).get? k = some j)
    (hj : table.fields.get? j = some fv) (hnull : row.get? k = some none) :
    getQueryResult rows rows.Columns = .ok (row.map decodeColumn) ∧
    (fv.1.TypeName = "string".toList →
      ∀ out b sess2, Populate env db sess table flag = .ok ((out, b), sess2) →
        out.fields.get? j = some (fv.1, .str "\\N".toList) ∧ b = true) ∧
    (fv.1.TypeName ∈ parsedTypes → Populate env db sess table flag = .error .parse) := by
  have hres : getQueryResult rows rows.Columns = .ok (row.map decodeColumn) := by
    simp only [getQueryResult, hrow]
    rw [if_neg (by simp [hlen])]
    rfl
  have hP := Populate_fetch env db sess table flag
  rw [hfetch] at hP
  simp only [hres] at hP
  have h3 := fetchRows_entries env db sess table emptyFields text rows hfetch
  have hL := propertiesFrom_exact env hwf (NewSource (some table)) 1 (table.fields.drop 1)
    emptyFields (fun u hm => ⟨hs.2 u (List.mem_of_mem_drop hm),
      (ht u (List.mem_of_mem_drop hm)).1⟩) h3
  have hnd : ((table.fields.drop 1).filter (fun u => definedIs false u.2)).map
      (fun u => u.1.Name) |>.Nodup := by
    refine List.Nodup.sublist ?_ hs.1
    exact List.Sublist.map _ ((List.filter_sublist _).trans (List.drop_sublist _ _))
  obtain ⟨u0, hu0, hle, hget, _⟩ :=
    Forall₂_get_left _ _ _ (undefinedFrom_align 1 (table.fields.drop 1)) k j hk
  have hget2 : table.fields.get? j = some u0 := by
    rw [List.get?_eq_getElem?, List.getElem?_drop, show 1 + (j - 1) = j by omega] at hget
    rw [List.get?_eq_getElem?]
    exact hget
  have huf : u0 = fv := by
    rw [hget2] at hj
    exact Option.some.inj hj
  subst huf
  have hnullr : (row.map decodeColumn).get? (0 + k) = some "\\N".toList := by
    rw [Nat.zero_add, List.get?_eq_getElem?, List.getElem?_map, ← List.get?_eq_getElem?, hnull]
    rfl
  refine ⟨hres, fun hty out b sess2 hrun => ?_, fun hty => ?_⟩
  · rw [hP] at hrun
    cases hloop : populateLoop env (row.map decodeColumn) flag 0 emptyFields (table, false) with
    | error e => rw [hloop] at hrun; cases hrun
    | ok res =>
      rw [hloop] at hrun
      cases hrun
      obtain ⟨g1, g2⟩ := populateLoop_null_string env _ flag emptyFields _ hL hnd 0 table false
        out b hloop k u0 hu0 hty hnullr
      refine ⟨?_, g2⟩
      obtain ⟨_, d2, _⟩ := populateLoop_frame env _ flag emptyFields _
        (List.Forall₂.imp (fun x u hx => ⟨u.1.TypeName, hx⟩) hL) 0 table false out b hloop
      have hdesc : (out.fields.map Prod.fst).get? j = some u0.1 := by
        rw [d2, List.get?_eq_getElem?, List.getElem?_map, ← List.get?_eq_getElem?, hget2]
        rfl
      obtain ⟨w, hw⟩ : ∃ w, out.fields.get? j = some w := by
        cases ho : out.fields.get? j with
        | none =>
          rw [List.get?_eq_getElem?, List.getElem?_map, ← List.get?_eq_getElem?, ho] at hdesc
          cases hdesc
        | some w => exact ⟨w, rfl⟩
      have hw1 : w.1 = u0.1 := by
        rw [List.get?_eq_getElem?, List.getElem?_map, ← List.get?_eq_getElem?, hw] at hdesc
        exact Option.some.inj hdesc
      have hndo : (out.fields.map (fun x => x.1.Name)).Nodup := by
        have : out.fields.map (fun x => x.1.Name)
            = (out.fields.map Prod.fst).map (fun f => f.Name) := by simp
        rw [this, d2]
        simpa using hs.1
      have hF := FieldByName_of_get out.fields hndo j w hw
      rw [hw1, g1] at hF
      rw [hw]
      obtain ⟨wf, wv⟩ := w
      simp only at hw1 hF
      rw [hw1, ← Option.some.inj hF]
  · rw [hP]
    have hkind : ∀ u, u ∈ (table.fields.drop 1).filter (fun u => definedIs false u.2) →
        ∃ v, Struct.FieldByName table.fields u.1.Name = some v ∧
          kindIs u.1.TypeName v = true := by
      intro u hu
      have hmem : u ∈ table.fields := List.mem_of_mem_drop (List.mem_filter.mp hu).1
      obtain ⟨i, hi⟩ := mem_get _ _ hmem
      have hok : isFieldDefined u.2 = .ok false :=
        (definedIs_iff false u.2).mp (List.mem_filter.mp hu).2
      have hheld : u.2.held = u.2 := isFieldDefined_held u.2 false hok
      have hm := (ht u hmem).2
      rw [kindMatches, hheld] at hm
      exact ⟨u.2, FieldByName_of_get table.fields hs.1 i u hi, hm⟩
    rw [populateLoop_null_fails env hfloat _ flag emptyFields _ hL hnd 0 table false hkind k u0
      hu0 hty hnullr]

/-- C19 on the documented entity with only its key set: a NULL name is written as
`\N`, a NULL boolean makes the call fail. -/
theorem Populate_null_column_witness :
    (entityNullName.fields.get? 2
        = some (mkField "Name" "string" "varchar(64)" "NOT NULL", .str "\\N".toList) ∧
      true = true) ∧
    Populate env0 nullDBRow start0 entityKeyOnly false = .error .parse :=
  ⟨(Populate_null_column env0 (List.Perm.refl _) (fun _ => rfl) nullNameRow start0 entityKeyOnly
      (by decide) (by decide) false ["Name:string".toList, "Active:bool".toList]
      "SELECT name, active FROM entity WHERE entity_id=\"a1\" LIMIT 1".toList
      ⟨["name".toList, "active".toList], [[none, some "1".toList]]⟩ rfl
      [none, some "1".toList] [] rfl rfl 0 2
      (mkField "Name" "string" "varchar(64)" "NOT NULL", .str []) rfl rfl rfl).2.1 rfl
      entityNullName true
      ⟨(), [.query "SELECT name, active FROM entity WHERE entity_id=\"a1\" LIMIT 1".toList]⟩ rfl,
   (Populate_null_column env0 (List.Perm.refl _) (fun _ => rfl) nullDBRow start0 entityKeyOnly
      (by decide) (by decide) false ["Name:string".toList, "Active:bool".toList]
      "SELECT name, active FROM entity WHERE entity_id=\"a1\" LIMIT 1".toList
      ⟨["name".toList, "active".toList], [[some "Bob".toList, none]]⟩ rfl
      [some "Bob".toList, none] [] rfl rfl 1 3
      (mkField "Active" "bool" "boolean" "NOT NULL DEFAULT true", .bool false) rfl rfl rfl).2.2
      (by decide)⟩

end Orm
